import Mathlib

/-!
# Order management chaincode: record store, range scanner, history reconstructor

A shallow embedding of `src/ordermanagement.go` (the `SmartContract` operations
`CreateOrder`, `ReadOrder`, `UpdateOrder`, `DeleteOrder`, `OrderExists`, `GetAllOrders`,
`GetHistoryForKey`) together with the two collaborators the operations are written against:

* Go's `encoding/json` applied to the `Order` struct (`json.Marshal`, `json.Unmarshal`),
  with the part of `unicode/utf8` and `unicode/utf16` it relies on;
* the ledger behind `ctx.GetStub()`, as the specification describes it (section 6):
  an append-only log of writes and tombstones per key, newest first, whose latest entry
  per key is the world state.

Go strings and byte slices are sequences of bytes; they are embedded as `List (Fin 256)`.
Logging (`logger.Printf`), the wall-clock text `time.Now().Format(..)` that only appears in
log lines and error messages, and the caller identity (logged only) have no effect on
results or on the ledger and are left out; errors are represented by their kind and
arguments, not by their message text.
-/

namespace OrderManagement

/-! ## Go values -/

/-- A Go `byte`. -/
abbrev Byte := Fin 256

/-- A Go `string`: an immutable sequence of bytes, not necessarily valid UTF-8. -/
abbrev GoString := List Byte

/-- The Go conversion `byte(n)` of a non-negative integer: truncation to eight bits. -/
def byteOf (n : Nat) : Byte := ⟨n % 256, Nat.mod_lt _ (by decide)⟩

/-- The bytes of an ASCII text literal (every character of the literals used below is
ASCII, so this is the Go string with that text). -/
def asc (s : String) : GoString := s.data.map (fun c => byteOf c.toNat)

/-! ## `unicode/utf8` and `unicode/utf16` -/

/-- The constant `utf8.RuneError`, U+FFFD. -/
def RuneError : Nat := 0xFFFD

/-- The table `first` of `unicode/utf8` for lead bytes of multi-byte sequences: the
sequence length and the accepted range of the second byte (`acceptRanges`), or `none`
for the bytes the table marks invalid (`xx`). ASCII bytes are handled by the caller. -/
def first (p0 : Nat) : Option (Nat × Nat × Nat) :=
  if p0 < 0xC2 then none
  else if p0 ≤ 0xDF then some (2, 0x80, 0xBF)
  else if p0 = 0xE0 then some (3, 0xA0, 0xBF)
  else if p0 = 0xED then some (3, 0x80, 0x9F)
  else if p0 ≤ 0xEF then some (3, 0x80, 0xBF)
  else if p0 = 0xF0 then some (4, 0x90, 0xBF)
  else if p0 ≤ 0xF3 then some (4, 0x80, 0xBF)
  else if p0 = 0xF4 then some (4, 0x80, 0x8F)
  else none

/-- The function `utf8.DecodeRune`: the first rune of `p` and its width in bytes;
`(RuneError, 0)` on empty input and `(RuneError, 1)` on an invalid encoding. The masks and
shifts of the Go code combine disjoint bit fields, written here with `%`, `*` and `+`. -/
def decodeRune (p : List Byte) : Nat × Nat :=
  match p with
  | [] => (RuneError, 0)
  | p0 :: t =>
    if p0.val < 0x80 then (p0.val, 1)
    else
      match first p0.val with
      | none => (RuneError, 1)
      | some (sz, lo, hi) =>
        if p.length < sz then (RuneError, 1)
        else
          let b1 := (t.getD 0 0).val
          if b1 < lo ∨ hi < b1 then (RuneError, 1)
          else if sz ≤ 2 then ((p0.val % 32) * 64 + b1 % 64, 2)
          else
            let b2 := (t.getD 1 0).val
            if b2 < 0x80 ∨ 0xBF < b2 then (RuneError, 1)
            else if sz ≤ 3 then ((p0.val % 16) * 4096 + (b1 % 64) * 64 + b2 % 64, 3)
            else
              let b3 := (t.getD 2 0).val
              if b3 < 0x80 ∨ 0xBF < b3 then (RuneError, 1)
              else ((p0.val % 8) * 262144 + (b1 % 64) * 4096 + (b2 % 64) * 64 + b3 % 64, 4)

/-- The function `utf8.EncodeRune`: the UTF-8 bytes of a rune; surrogates and values
above U+10FFFF are written as U+FFFD. -/
def encodeRune (r : Nat) : List Byte :=
  if r ≤ 0x7F then [byteOf r]
  else if r ≤ 0x7FF then [byteOf (0xC0 + r / 64), byteOf (0x80 + r % 64)]
  else if 0x10FFFF < r ∨ (0xD800 ≤ r ∧ r ≤ 0xDFFF) then [0xEF, 0xBF, 0xBD]
  else if r ≤ 0xFFFF then
    [byteOf (0xE0 + r / 4096), byteOf (0x80 + r / 64 % 64), byteOf (0x80 + r % 64)]
  else
    [byteOf (0xF0 + r / 262144), byteOf (0x80 + r / 4096 % 64),
     byteOf (0x80 + r / 64 % 64), byteOf (0x80 + r % 64)]

/-- The loop of `utf8.Valid`, with the input length as fuel (every round consumes at
least one byte). -/
def utf8ValidLoop : Nat → List Byte → Bool
  | _, [] => true
  | 0, _ :: _ => false
  | fuel + 1, b :: t =>
    let (c, size) := decodeRune (b :: t)
    if c = RuneError ∧ size = 1 then false
    else utf8ValidLoop fuel ((b :: t).drop size)

/-- The function `utf8.ValidString`: the string consists of well-formed UTF-8 only. -/
def utf8Valid (s : GoString) : Bool := utf8ValidLoop s.length s

/-- The function `utf16.IsSurrogate`. -/
def isSurrogate (r : Nat) : Bool := 0xD800 ≤ r && r < 0xE000

/-- The function `utf16.DecodeRune` applied to the results of two `getu4` calls, the
second of which may have failed (`none` stands for the Go result `-1`). -/
def utf16DecodeRune (r1 : Nat) (r2 : Option Nat) : Nat :=
  match r2 with
  | some r2 =>
    if 0xD800 ≤ r1 ∧ r1 < 0xDC00 ∧ 0xDC00 ≤ r2 ∧ r2 < 0xE000 then
      (r1 - 0xD800) * 1024 + (r2 - 0xDC00) + 0x10000
    else 0xFFFD
  | none => 0xFFFD

/-! ## `encoding/json`: encoding strings -/

/-- The digit table `hex` of `encoding/json`: lower-case hexadecimal digits. -/
def hex (n : Nat) : Byte :=
  if n < 10 then byteOf (0x30 + n) else byteOf (0x61 + (n - 10))

/-- The table `htmlSafeSet`: the ASCII bytes `json.Marshal` copies unescaped, namely
0x20 to 0x7F without the double quote, the backslash, and the characters less-than,
greater-than and ampersand. -/
def htmlSafe (b : Nat) : Bool :=
  0x20 ≤ b && b < 0x80 && b != 0x22 && b != 0x5C && b != 0x3C && b != 0x3E && b != 0x26

/-- The escape `appendString` writes for an ASCII byte that is not in `htmlSafeSet` (the
short forms for backspace and form feed are those of Go 1.22; earlier releases write
the six-character form for them, which is decoded to the same byte). -/
def escapeByte (b : Byte) : List Byte :=
  if b.val = 0x5C ∨ b.val = 0x22 then [0x5C, b]
  else if b.val = 0x08 then [0x5C, 0x62]
  else if b.val = 0x0C then [0x5C, 0x66]
  else if b.val = 0x0A then [0x5C, 0x6E]
  else if b.val = 0x0D then [0x5C, 0x72]
  else if b.val = 0x09 then [0x5C, 0x74]
  else [0x5C, 0x75, 0x30, 0x30, hex (b.val / 16), hex (b.val % 16)]

/-- The loop of `appendString` (with HTML escaping, as `json.Marshal` uses it), with the
input length as fuel: safe ASCII is copied, other ASCII is escaped, an invalid byte
becomes the six characters of the escape for U+FFFD, U+2028 and U+2029 are escaped,
and every other well-formed rune is copied. -/
def appendStringLoop : Nat → List Byte → List Byte
  | 0, _ => []
  | _ + 1, [] => []
  | fuel + 1, b :: t =>
    if b.val < 0x80 then
      (if htmlSafe b.val then [b] else escapeByte b) ++ appendStringLoop fuel t
    else
      let (c, size) := decodeRune (b :: t)
      if c = RuneError ∧ size = 1 then
        [0x5C, 0x75, 0x66, 0x66, 0x66, 0x64] ++ appendStringLoop fuel t
      else if c = 0x2028 ∨ c = 0x2029 then
        [0x5C, 0x75, 0x32, 0x30, 0x32, hex (c % 16)] ++
          appendStringLoop fuel ((b :: t).drop size)
      else
        (b :: t).take size ++ appendStringLoop fuel ((b :: t).drop size)

/-- The text between the quotes of the JSON string `json.Marshal` writes for `s`. -/
def escaped (s : GoString) : List Byte := appendStringLoop s.length s

/-- The function `appendString`: the quoted JSON string for a Go string. -/
def appendString (s : GoString) : List Byte := 0x22 :: (escaped s ++ [0x22])

/-! ## `encoding/json`: scanning and decoding -/

/-- The value of a hexadecimal digit, as in `getu4`. -/
def hexVal (c : Byte) : Option Nat :=
  if 0x30 ≤ c.val ∧ c.val ≤ 0x39 then some (c.val - 0x30)
  else if 0x61 ≤ c.val ∧ c.val ≤ 0x66 then some (c.val - 0x61 + 10)
  else if 0x41 ≤ c.val ∧ c.val ≤ 0x46 then some (c.val - 0x41 + 10)
  else none

/-- Whether the byte is a hexadecimal digit. -/
def isHex (c : Byte) : Bool := (hexVal c).isSome

/-- The function `getu4`: the rune of a backslash-u escape at the head of `s`; `none`
stands for the Go result `-1`. -/
def getu4 (s : List Byte) : Option Nat :=
  match s with
  | e :: u :: a :: b :: c :: d :: _ =>
    if e.val = 0x5C ∧ u.val = 0x75 then
      match hexVal a, hexVal b, hexVal c, hexVal d with
      | some a, some b, some c, some d => some (((a * 16 + b) * 16 + c) * 16 + d)
      | _, _, _, _ => none
    else none
  | _ => none

/-- The main loop of `unquoteBytes` on the text between the quotes of a JSON string,
with the input length as fuel: escapes are resolved, surrogate pairs combined, and
invalid UTF-8 and lone surrogates replaced by U+FFFD. `none` stands for `ok = false`.
(The first loop of `unquoteBytes`, which returns text that needs no unquoting as it
is, computes the same result on such text.) -/
def unquoteLoop : Nat → List Byte → Option (List Byte)
  | 0, [] => some []
  | 0, _ :: _ => none
  | _ + 1, [] => some []
  | fuel + 1, c :: t =>
    if c.val = 0x5C then
      match t with
      | [] => none
      | e :: t1 =>
        if e.val = 0x22 ∨ e.val = 0x5C ∨ e.val = 0x2F ∨ e.val = 0x27 then
          (unquoteLoop fuel t1).map (e :: ·)
        else if e.val = 0x62 then (unquoteLoop fuel t1).map ((0x08 : Byte) :: ·)
        else if e.val = 0x66 then (unquoteLoop fuel t1).map ((0x0C : Byte) :: ·)
        else if e.val = 0x6E then (unquoteLoop fuel t1).map ((0x0A : Byte) :: ·)
        else if e.val = 0x72 then (unquoteLoop fuel t1).map ((0x0D : Byte) :: ·)
        else if e.val = 0x74 then (unquoteLoop fuel t1).map ((0x09 : Byte) :: ·)
        else if e.val = 0x75 then
          match getu4 (c :: t) with
          | none => none
          | some rr =>
            let r6 := t1.drop 4
            if isSurrogate rr then
              let dec := utf16DecodeRune rr (getu4 r6)
              if dec ≠ 0xFFFD then (unquoteLoop fuel (r6.drop 6)).map (encodeRune dec ++ ·)
              else (unquoteLoop fuel r6).map (encodeRune 0xFFFD ++ ·)
            else (unquoteLoop fuel r6).map (encodeRune rr ++ ·)
        else none
    else if c.val = 0x22 ∨ c.val < 0x20 then none
    else if c.val < 0x80 then (unquoteLoop fuel t).map (c :: ·)
    else
      let (rr, size) := decodeRune (c :: t)
      (unquoteLoop fuel ((c :: t).drop size)).map (encodeRune rr ++ ·)

/-- The function `unquoteBytes` on the text between the quotes. -/
def unquote (s : List Byte) : Option (List Byte) := unquoteLoop s.length s

/-- The scanner states `stateInString`, `stateInStringEsc` and `stateInStringEscU..`:
reads a JSON string after its opening quote and returns the text between the quotes and
the input after the closing quote. Control characters and malformed escapes are
rejected; bytes from 0x80 on are accepted without a UTF-8 check. -/
def scanString : List Byte → Option (List Byte × List Byte)
  | [] => none
  | c :: t =>
    if c.val = 0x22 then some ([], t)
    else if c.val = 0x5C then
      match t with
      | [] => none
      | e :: t1 =>
        if e.val = 0x62 ∨ e.val = 0x66 ∨ e.val = 0x6E ∨ e.val = 0x72 ∨ e.val = 0x74 ∨
            e.val = 0x5C ∨ e.val = 0x2F ∨ e.val = 0x22 then
          (scanString t1).map (fun p => (c :: e :: p.1, p.2))
        else if e.val = 0x75 then
          match t1 with
          | h1 :: h2 :: h3 :: h4 :: t2 =>
            if isHex h1 ∧ isHex h2 ∧ isHex h3 ∧ isHex h4 then
              (scanString t2).map (fun p => (c :: e :: h1 :: h2 :: h3 :: h4 :: p.1, p.2))
            else none
          | _ => none
        else none
    else if c.val < 0x20 then none
    else (scanString t).map (fun p => (c :: p.1, p.2))

/-- The function `isSpace` of the scanner: space, tab, carriage return, line feed. -/
def isSpace (c : Byte) : Bool := c.val = 0x20 || c.val = 0x09 || c.val = 0x0D || c.val = 0x0A

/-- Skips JSON white space. -/
def skipSpace : List Byte → List Byte
  | [] => []
  | c :: t => if isSpace c then skipSpace t else c :: t

/-- An ASCII decimal digit. -/
def isDigit (c : Byte) : Bool := 0x30 ≤ c.val && c.val ≤ 0x39

/-- Skips decimal digits (scanner states `state1`, `stateDot0`, `stateE0`). -/
def skipDigits : List Byte → List Byte
  | [] => []
  | c :: t => if isDigit c then skipDigits t else c :: t

/-- The exponent of a number after its `e` (states `stateE`, `stateESign`, `stateE0`). -/
def scanExp (bs : List Byte) : Option (List Byte) :=
  let bs1 := match bs with
    | c :: t => if c.val = 0x2B ∨ c.val = 0x2D then t else bs
    | [] => []
  match bs1 with
  | c :: t => if isDigit c then some (skipDigits t) else none
  | [] => none

/-- The fraction and exponent of a number after its integer part (states `state0`,
`state1`, `stateDot`, `stateDot0`). -/
def scanFracExp (bs : List Byte) : Option (List Byte) :=
  match bs with
  | [] => some []
  | c :: t =>
    if c.val = 0x2E then
      match t with
      | [] => none
      | d :: t1 =>
        if isDigit d then
          match skipDigits t1 with
          | [] => some []
          | e :: r => if e.val = 0x65 ∨ e.val = 0x45 then scanExp r else some (e :: r)
        else none
    else if c.val = 0x65 ∨ c.val = 0x45 then scanExp t
    else some bs

/-- Scans a JSON number and returns the input after it (states `stateNeg` onwards). -/
def scanNumber (bs : List Byte) : Option (List Byte) :=
  let bs1 := match bs with
    | c :: t => if c.val = 0x2D then t else bs
    | [] => []
  match bs1 with
  | [] => none
  | c :: t =>
    if c.val = 0x30 then scanFracExp t
    else if 0x31 ≤ c.val ∧ c.val ≤ 0x39 then scanFracExp (skipDigits t)
    else none

/-- Reads the remaining letters of one of the words `true`, `false`, `null`. -/
def expect : List Byte → List Byte → Option (List Byte)
  | [], bs => some bs
  | _ :: _, [] => none
  | l :: ls, b :: bs => if l = b then expect ls bs else none

/-- A scanned JSON value. Strings keep the text between their quotes as written. -/
inductive JVal where
  | null
  | bool (b : Bool)
  | num
  | str (raw : List Byte)
  | arr (xs : List JVal)
  | obj (ms : List (List Byte × JVal))

/-- The constant `maxNestingDepth` of the scanner. -/
def maxNestingDepth : Nat := 10000

mutual
/-- Scans one JSON value at the head of the input (no leading white space) at the given
nesting depth and returns it with the rest of the input; `none` is a syntax error. The
first argument is fuel; twice the input length is always enough, because two
consecutive recursive calls consume at least one byte. -/
def parseValue : Nat → Nat → List Byte → Option (JVal × List Byte)
  | 0, _, _ => none
  | _ + 1, _, [] => none
  | fuel + 1, depth, c :: t =>
    if c.val = 0x7B then
      if maxNestingDepth < depth + 1 then none
      else
        match skipSpace t with
        | [] => none
        | c1 :: t1 =>
          if c1.val = 0x7D then some (JVal.obj [], t1)
          else (parseMembers fuel (depth + 1) (c1 :: t1)).map (fun p => (JVal.obj p.1, p.2))
    else if c.val = 0x5B then
      if maxNestingDepth < depth + 1 then none
      else
        match skipSpace t with
        | [] => none
        | c1 :: t1 =>
          if c1.val = 0x5D then some (JVal.arr [], t1)
          else (parseElems fuel (depth + 1) (c1 :: t1)).map (fun p => (JVal.arr p.1, p.2))
    else if c.val = 0x22 then (scanString t).map (fun p => (JVal.str p.1, p.2))
    else if c.val = 0x74 then (expect [0x72, 0x75, 0x65] t).map (fun r => (JVal.bool true, r))
    else if c.val = 0x66 then
      (expect [0x61, 0x6C, 0x73, 0x65] t).map (fun r => (JVal.bool false, r))
    else if c.val = 0x6E then (expect [0x75, 0x6C, 0x6C] t).map (fun r => (JVal.null, r))
    else if c.val = 0x2D ∨ isDigit c then (scanNumber (c :: t)).map (fun r => (JVal.num, r))
    else none
/-- Scans the elements of a non-empty array up to and including its closing bracket. -/
def parseElems : Nat → Nat → List Byte → Option (List JVal × List Byte)
  | 0, _, _ => none
  | fuel + 1, depth, bs =>
    match parseValue fuel depth bs with
    | none => none
    | some (v, r) =>
      match skipSpace r with
      | [] => none
      | c :: t =>
        if c.val = 0x2C then
          (parseElems fuel depth (skipSpace t)).map (fun p => (v :: p.1, p.2))
        else if c.val = 0x5D then some ([v], t)
        else none
/-- Scans the members of a non-empty object up to and including its closing brace. -/
def parseMembers : Nat → Nat → List Byte → Option (List (List Byte × JVal) × List Byte)
  | 0, _, _ => none
  | _ + 1, _, [] => none
  | fuel + 1, depth, q :: t =>
    if q.val = 0x22 then
      match scanString t with
      | none => none
      | some (k, r) =>
        match skipSpace r with
        | [] => none
        | c :: r1 =>
          if c.val = 0x3A then
            match parseValue fuel depth (skipSpace r1) with
            | none => none
            | some (v, r2) =>
              match skipSpace r2 with
              | [] => none
              | c2 :: r3 =>
                if c2.val = 0x2C then
                  (parseMembers fuel depth (skipSpace r3)).map
                    (fun p => ((k, v) :: p.1, p.2))
                else if c2.val = 0x7D then some ([(k, v)], r3)
                else none
          else none
    else none
end

/-- The function `checkValid` together with the scan of the decoder: the input is one
JSON value surrounded by optional white space; `none` is a `SyntaxError`. -/
def parseJSON (data : List Byte) : Option JVal :=
  match parseValue (2 * data.length + 2) 0 (skipSpace data) with
  | none => none
  | some (v, r) => if skipSpace r = [] then some v else none

/-! ## The `Order` record and its JSON encoding -/

/-- The struct `Order`: seven string fields, with JSON names `orderNo`, `date`,
`orderDetail`, `invoice`, `packingStatus`, `paymentMethod`, `orderTrack`. -/
structure Order where
  OrderNo : GoString
  Date : GoString
  OrderDetail : GoString
  Invoice : GoString
  PackingStatus : GoString
  PaymentMethod : GoString
  OrderTrack : GoString
  deriving DecidableEq

/-- The zero value `Order{}`. -/
def emptyOrder : Order := ⟨[], [], [], [], [], [], []⟩

/-- The errors of `encoding/json`: `SyntaxError`, `UnmarshalTypeError` and, when encoding a
float that is not a number or infinite, `UnsupportedValueError`. -/
inductive JsonError where
  | malformed
  | typeMismatch
  | unsupportedValue
  deriving DecidableEq

/-- One member of the encoded object: the quoted field name, a colon, the quoted value. -/
def encodeMember (name value : GoString) : List Byte :=
  0x22 :: (name ++ 0x22 :: 0x3A :: appendString value)

/-- The bytes `json.Marshal` writes for an `Order`: an object with the seven fields in
declaration order, separated by commas, without white space. -/
def encodeOrder (o : Order) : List Byte :=
  0x7B :: (encodeMember (asc "orderNo") o.OrderNo ++ 0x2C ::
    (encodeMember (asc "date") o.Date ++ 0x2C ::
    (encodeMember (asc "orderDetail") o.OrderDetail ++ 0x2C ::
    (encodeMember (asc "invoice") o.Invoice ++ 0x2C ::
    (encodeMember (asc "packingStatus") o.PackingStatus ++ 0x2C ::
    (encodeMember (asc "paymentMethod") o.PaymentMethod ++ 0x2C ::
    (encodeMember (asc "orderTrack") o.OrderTrack ++ [0x7D])))))))

/-- The call `json.Marshal(order)`. For a struct of strings it has no failing case. -/
def jsonMarshal (o : Order) : Except JsonError (List Byte) := .ok (encodeOrder o)

/-- The function `foldName` used to match object keys to field names without regard to
case: ASCII letters are upper-cased, and the two non-ASCII runes whose simple case
folding is an ASCII letter, U+017F and U+212A, become `S` and `K`. Every other
non-ASCII byte is kept, which tells it apart from all field names, as these are ASCII. -/
def foldName : List Byte → List Byte
  | [] => []
  | [c] => [if 0x61 ≤ c.val ∧ c.val ≤ 0x7A then byteOf (c.val - 0x20) else c]
  | [c, c1] =>
    if c.val = 0xC5 ∧ c1.val = 0xBF then [0x53]
    else (if 0x61 ≤ c.val ∧ c.val ≤ 0x7A then byteOf (c.val - 0x20) else c) :: foldName [c1]
  | c :: c1 :: c2 :: t2 =>
    if c.val = 0xC5 ∧ c1.val = 0xBF then (0x53 : Byte) :: foldName (c2 :: t2)
    else if c.val = 0xE2 ∧ c1.val = 0x84 ∧ c2.val = 0xAA then (0x4B : Byte) :: foldName t2
    else
      (if 0x61 ≤ c.val ∧ c.val ≤ 0x7A then byteOf (c.val - 0x20) else c) ::
        foldName (c1 :: c2 :: t2)

/-- The fields of `Order` by JSON name, each with the assignment to that field. -/
def orderFields : List (GoString × (Order → GoString → Order)) :=
  [ (asc "orderNo", fun o s => { o with OrderNo := s }),
    (asc "date", fun o s => { o with Date := s }),
    (asc "orderDetail", fun o s => { o with OrderDetail := s }),
    (asc "invoice", fun o s => { o with Invoice := s }),
    (asc "packingStatus", fun o s => { o with PackingStatus := s }),
    (asc "paymentMethod", fun o s => { o with PaymentMethod := s }),
    (asc "orderTrack", fun o s => { o with OrderTrack := s }) ]

/-- The field an object key selects: the field with exactly that name, otherwise the
first field whose folded name equals the folded key, otherwise none. -/
def lookupField (key : List Byte) : Option (Order → GoString → Order) :=
  match orderFields.find? (fun f => f.1 = key) with
  | some f => some f.2
  | none =>
    match orderFields.find? (fun f => foldName f.1 = foldName key) with
    | some f => some f.2
    | none => none

/-- The decoding of the members of an object into an `Order`, in input order, so that a
repeated key overwrites. A string value is unquoted and stored, `null` leaves the
field as it is, any other value for a known field is recorded as a type error (the
flag) and decoding continues; members with unknown keys are skipped. -/
def decodeMembers : List (List Byte × JVal) → Order × Bool → Option (Order × Bool)
  | [], acc => some acc
  | (k, v) :: ms, (o, bad) =>
    match unquote k with
    | none => none
    | some key =>
      match lookupField key with
      | none => decodeMembers ms (o, bad)
      | some set =>
        match v with
        | JVal.str raw =>
          match unquote raw with
          | none => none
          | some s => decodeMembers ms (set o s, bad)
        | JVal.null => decodeMembers ms (o, bad)
        | _ => decodeMembers ms (o, true)

/-- The call `json.Unmarshal(data, &order)` on a zero `order`: invalid JSON is a
`SyntaxError`; an object is decoded field by field; `null` leaves the zero value; any
other JSON value is an `UnmarshalTypeError`. -/
def jsonUnmarshal (data : List Byte) : Except JsonError Order :=
  match parseJSON data with
  | none => .error .malformed
  | some (JVal.obj ms) =>
    match decodeMembers ms (emptyOrder, false) with
    | none => .error .malformed
    | some (o, bad) => if bad then .error .typeMismatch else .ok o
  | some JVal.null => .ok emptyOrder
  | some _ => .error .typeMismatch

/-! ## The ledger behind `ctx.GetStub()` -/

/-- The transaction timestamp the ledger records with a write (seconds and nanoseconds). -/
structure Timestamp where
  Seconds : Int
  Nanos : Int
  deriving DecidableEq

/-- One entry of a key's history as the ledger reports it (`queryresult.KeyModification`). -/
structure KeyModification where
  TxId : GoString
  Value : List Byte
  Timestamp : Timestamp
  IsDelete : Bool
  deriving DecidableEq

/-- One entry of the ledger's append log: the key written and the modification. -/
structure LogEntry where
  Key : GoString
  Mod : KeyModification
  deriving DecidableEq

/-- Modelled from the spec: the ledger is an external collaborator (section 6 and the
glossary). It is an append-only log of writes and tombstones, newest first; the latest
entry of a key is its current value, and a key is live when that entry is a write. -/
abbrev Ledger := List LogEntry

/-- One entry of a range scan (`queryresult.KV`). -/
structure KV where
  Key : GoString
  Value : List Byte
  deriving DecidableEq

/-- The stub handed to one invocation: the transaction id and timestamp, and for each
ledger call the error it fails with, if it fails (`none`: the call succeeds). The
iterators fail per `Next()` call, counted from 0. -/
structure Stub where
  TxID : GoString
  TxTimestamp : Timestamp
  getStateErr : GoString → Option GoString
  putStateErr : GoString → List Byte → Option GoString
  delStateErr : GoString → Option GoString
  rangeErr : Option GoString
  rangeNextErr : Nat → Option GoString
  historyErr : GoString → Option GoString
  historyNextErr : Nat → Option GoString

/-- The latest value of a key: the value of its newest log entry unless that entry is a
tombstone; `none` is the `nil` the ledger returns for a key without live value. -/
def Ledger.get (L : Ledger) (key : GoString) : Option (List Byte) :=
  match L.find? (fun e => e.Key = key) with
  | some e => if e.Mod.IsDelete then none else some e.Mod.Value
  | none => none

/-- The ledger's key order: lexicographic over the raw key bytes. -/
def keyLe : GoString → GoString → Bool
  | [], _ => true
  | _ :: _, [] => false
  | a :: s, b :: t => a.val < b.val || (a.val = b.val && keyLe s t)

/-- All keys ever written, each once, in key order. -/
def Ledger.keys (L : Ledger) : List GoString :=
  ((L.map (fun e => e.Key)).dedup).insertionSort (fun a b => keyLe a b = true)

/-- The live entries between `startKey` (inclusive) and `endKey` (exclusive) in key
order; an empty bound is open. -/
def Ledger.scan (L : Ledger) (startKey endKey : GoString) : List KV :=
  (L.keys.filter (fun k =>
      (startKey = [] || keyLe startKey k) && (endKey = [] || !(keyLe endKey k)))).filterMap
    (fun k => (L.get k).map (fun v => { Key := k, Value := v }))

/-- The history of a key: its log entries, newest first. -/
def Ledger.history (L : Ledger) (key : GoString) : List KeyModification :=
  (L.filter (fun e => e.Key = key)).map (fun e => e.Mod)

/-- The results of the successive `Next()` calls of an iterator over `items`, the call
with index `i` failing when `nextErr i` says so. -/
def iterate {α : Type} (nextErr : Nat → Option GoString) :
    Nat → List α → List (Except GoString α)
  | _, [] => []
  | i, x :: xs =>
    (match nextErr i with
      | some e => Except.error e
      | none => Except.ok x) :: iterate nextErr (i + 1) xs

/-- The call `GetState(key)`. -/
def Stub.GetState (stub : Stub) (key : GoString) (L : Ledger) :
    Except GoString (Option (List Byte)) :=
  match stub.getStateErr key with
  | some e => .error e
  | none => .ok (L.get key)

/-- The call `PutState(key, value)`: appends a write to the log. -/
def Stub.PutState (stub : Stub) (key : GoString) (value : List Byte) (L : Ledger) :
    Except GoString Ledger :=
  match stub.putStateErr key value with
  | some e => .error e
  | none =>
    .ok (LogEntry.mk key (KeyModification.mk stub.TxID value stub.TxTimestamp false) :: L)

/-- The call `DelState(key)`: appends a tombstone to the log. -/
def Stub.DelState (stub : Stub) (key : GoString) (L : Ledger) : Except GoString Ledger :=
  match stub.delStateErr key with
  | some e => .error e
  | none =>
    .ok (LogEntry.mk key (KeyModification.mk stub.TxID [] stub.TxTimestamp true) :: L)

/-- The call `GetStateByRange(startKey, endKey)`: the iterator over the live entries
of the range, given by the results of its `Next()` calls until `HasNext()` is false. -/
def Stub.GetStateByRange (stub : Stub) (startKey endKey : GoString) (L : Ledger) :
    Except GoString (List (Except GoString KV)) :=
  match stub.rangeErr with
  | some e => .error e
  | none => .ok (iterate stub.rangeNextErr 0 (L.scan startKey endKey))

/-- The call `GetHistoryForKey(key)`: the iterator over the history of the key. -/
def Stub.GetHistoryForKey (stub : Stub) (key : GoString) (L : Ledger) :
    Except GoString (List (Except GoString KeyModification)) :=
  match stub.historyErr key with
  | some e => .error e
  | none => .ok (iterate stub.historyNextErr 0 (L.history key))

/-! ## The contract (`src/ordermanagement.go`) -/

/-- The errors the contract returns, by kind: the `fmt.Errorf` texts with their
arguments, an error of a ledger call returned as it is, and an error of `encoding/json`. -/
inductive Err where
  | failedToRead (orderNo : GoString) (cause : GoString)
  | alreadyExists (orderNo : GoString)
  | doesNotExist (orderNo : GoString)
  | failedToGetHistory (orderNo : GoString) (cause : GoString)
  | ledger (cause : GoString)
  | json (e : JsonError)
  | failedToPut (orderNo : GoString) (cause : GoString)
  deriving DecidableEq

deriving instance DecidableEq for Except

/-- The method `OrderExists`. -/
def OrderExists (stub : Stub) (orderNo : GoString) (L : Ledger) : Except Err Bool :=
  match stub.GetState orderNo L with
  | .error err => .error (.failedToRead orderNo err)
  | .ok orderJSON => .ok orderJSON.isSome

/-- The method `CreateOrder`: the returned error and the ledger after the call. -/
def CreateOrder (stub : Stub)
    (orderNo date orderDetail invoice packingStatus paymentMethod orderTrack : GoString)
    (L : Ledger) : Except Err Unit × Ledger :=
  match OrderExists stub orderNo L with
  | .error err => (.error err, L)
  | .ok found =>
    if found then (.error (.alreadyExists orderNo), L)
    else
      let order : Order :=
        { OrderNo := orderNo, Date := date, OrderDetail := orderDetail, Invoice := invoice,
          PackingStatus := packingStatus, PaymentMethod := paymentMethod,
          OrderTrack := orderTrack }
      match jsonMarshal order with
      | .error err => (.error (.json err), L)
      | .ok orderJSON =>
        match stub.PutState orderNo orderJSON L with
        | .error err => (.error (.ledger err), L)
        | .ok L1 => (.ok (), L1)

/-- The method `ReadOrder`. -/
def ReadOrder (stub : Stub) (orderNo : GoString) (L : Ledger) : Except Err Order :=
  match stub.GetState orderNo L with
  | .error err => .error (.failedToRead orderNo err)
  | .ok none => .error (.doesNotExist orderNo)
  | .ok (some orderJSON) =>
    match jsonUnmarshal orderJSON with
    | .error err => .error (.json err)
    | .ok order => .ok order

/-- The method `UpdateOrder`: the returned error and the ledger after the call. -/
def UpdateOrder (stub : Stub)
    (orderNo date orderDetail invoice packingStatus paymentMethod orderTrack : GoString)
    (L : Ledger) : Except Err Unit × Ledger :=
  match OrderExists stub orderNo L with
  | .error err => (.error err, L)
  | .ok found =>
    if !found then (.error (.doesNotExist orderNo), L)
    else
      let order : Order :=
        { OrderNo := orderNo, Date := date, OrderDetail := orderDetail, Invoice := invoice,
          PackingStatus := packingStatus, PaymentMethod := paymentMethod,
          OrderTrack := orderTrack }
      match jsonMarshal order with
      | .error err => (.error (.json err), L)
      | .ok orderJSON =>
        match stub.PutState orderNo orderJSON L with
        | .error err => (.error (.ledger err), L)
        | .ok L1 => (.ok (), L1)

/-- The method `DeleteOrder`: the returned error and the ledger after the call. -/
def DeleteOrder (stub : Stub) (orderNo : GoString) (L : Ledger) : Except Err Unit × Ledger :=
  match OrderExists stub orderNo L with
  | .error err => (.error err, L)
  | .ok found =>
    if !found then (.error (.doesNotExist orderNo), L)
    else
      match stub.DelState orderNo L with
      | .error err => (.error (.ledger err), L)
      | .ok L1 => (.ok (), L1)

/-- The struct `QueryResult`. -/
structure QueryResult where
  Key : GoString
  Record : Order
  deriving DecidableEq

/-- The loop of `GetAllOrders` over the results of the iterator, with the results
collected so far. -/
def getAllOrdersLoop : List (Except GoString KV) → List QueryResult →
    Except Err (List QueryResult)
  | [], results => .ok results
  | .error err :: _, _ => .error (.ledger err)
  | .ok queryResponse :: rest, results =>
    match jsonUnmarshal queryResponse.Value with
    | .error err => .error (.json err)
    | .ok order =>
      getAllOrdersLoop rest (results ++ [{ Key := queryResponse.Key, Record := order }])

/-- The method `GetAllOrders`. -/
def GetAllOrders (stub : Stub) (L : Ledger) : Except Err (List QueryResult) :=
  match stub.GetStateByRange [] [] L with
  | .error err => .error (.ledger err)
  | .ok resultsIterator => getAllOrdersLoop resultsIterator []

/-- The struct `HistoryQueryResult`. -/
structure HistoryQueryResult where
  TxId : GoString
  Timestamp : GoString
  IsDelete : Bool
  Order : Order
  deriving DecidableEq

/-- The loop of `GetHistoryForKey` over the results of the iterator, with the history
collected so far. `timeString` is the rendering `time.Unix(seconds, nanos).String()`,
which depends on the time zone of the process. -/
def getHistoryLoop (timeString : Timestamp → GoString) :
    List (Except GoString KeyModification) → List HistoryQueryResult →
    Except Err (List HistoryQueryResult)
  | [], history => .ok history
  | .error err :: _, _ => .error (.ledger err)
  | .ok queryResponse :: rest, history =>
    if queryResponse.IsDelete then
      getHistoryLoop timeString rest (history ++
        [{ TxId := queryResponse.TxId, Timestamp := timeString queryResponse.Timestamp,
           IsDelete := queryResponse.IsDelete, Order := emptyOrder }])
    else
      match jsonUnmarshal queryResponse.Value with
      | .error err => .error (.json err)
      | .ok order =>
        getHistoryLoop timeString rest (history ++
          [{ TxId := queryResponse.TxId, Timestamp := timeString queryResponse.Timestamp,
             IsDelete := queryResponse.IsDelete, Order := order }])

/-- The method `GetHistoryForKey`. -/
def GetHistoryForKey (timeString : Timestamp → GoString) (stub : Stub) (orderNo : GoString)
    (L : Ledger) : Except Err (List HistoryQueryResult) :=
  match stub.GetHistoryForKey orderNo L with
  | .error err => .error (.failedToGetHistory orderNo err)
  | .ok resultsIterator => getHistoryLoop timeString resultsIterator []

/-! ## Auxiliary definitions for the statements and proofs -/

/-- All seven fields of the order are well-formed UTF-8. -/
def Order.validUTF8 (o : Order) : Bool :=
  utf8Valid o.OrderNo && utf8Valid o.Date && utf8Valid o.OrderDetail && utf8Valid o.Invoice &&
    utf8Valid o.PackingStatus && utf8Valid o.PaymentMethod && utf8Valid o.OrderTrack

/-- A stub with the given transaction id and timestamp none of whose calls fails. -/
def plainStub (txID : GoString) (ts : Timestamp) : Stub :=
  { TxID := txID, TxTimestamp := ts, getStateErr := fun _ => none,
    putStateErr := fun _ _ => none, delStateErr := fun _ => none, rangeErr := none,
    rangeNextErr := fun _ => none, historyErr := fun _ => none,
    historyNextErr := fun _ => none }

/-- The shape of a well-formed multi-byte rune at the head of the input: the bytes are in
the ranges `utf8.DecodeRune` accepts, `c` is the rune and the last index its width. -/
inductive RuneShape : List Byte → Nat → Nat → Prop
  | two (p0 b1 : Byte) (t : List Byte) (c : Nat) (h0 : 0xC2 ≤ p0.val ∧ p0.val ≤ 0xDF)
      (h1 : 0x80 ≤ b1.val ∧ b1.val ≤ 0xBF) (hc : c = (p0.val % 32) * 64 + b1.val % 64) :
      RuneShape (p0 :: b1 :: t) c 2
  | three (p0 b1 b2 : Byte) (t : List Byte) (c : Nat) (h0 : 0xE0 ≤ p0.val ∧ p0.val ≤ 0xEF)
      (h1 : 0x80 ≤ b1.val ∧ b1.val ≤ 0xBF) (hE0 : p0.val = 0xE0 → 0xA0 ≤ b1.val)
      (hED : p0.val = 0xED → b1.val ≤ 0x9F) (h2 : 0x80 ≤ b2.val ∧ b2.val ≤ 0xBF)
      (hc : c = (p0.val % 16) * 4096 + (b1.val % 64) * 64 + b2.val % 64) :
      RuneShape (p0 :: b1 :: b2 :: t) c 3
  | four (p0 b1 b2 b3 : Byte) (t : List Byte) (c : Nat) (h0 : 0xF0 ≤ p0.val ∧ p0.val ≤ 0xF4)
      (h1 : 0x80 ≤ b1.val ∧ b1.val ≤ 0xBF) (hF0 : p0.val = 0xF0 → 0x90 ≤ b1.val)
      (hF4 : p0.val = 0xF4 → b1.val ≤ 0x8F) (h2 : 0x80 ≤ b2.val ∧ b2.val ≤ 0xBF)
      (h3 : 0x80 ≤ b3.val ∧ b3.val ≤ 0xBF)
      (hc : c = (p0.val % 8) * 262144 + (b1.val % 64) * 4096 + (b2.val % 64) * 64 +
        b3.val % 64) :
      RuneShape (p0 :: b1 :: b2 :: b3 :: t) c 4

/-- The bytes of one object member with key text `k` and string text `v` (both as
written between quotes), followed by `rest`. -/
def memberBytes (k v rest : List Byte) : List Byte :=
  0x22 :: (k ++ 0x22 :: 0x3A :: 0x22 :: (v ++ 0x22 :: rest))

/-- Text without quote, backslash and control characters. -/
def PlainKey (k : List Byte) : Prop := ∀ x ∈ k, x.val ≠ 0x22 ∧ x.val ≠ 0x5C ∧ ¬ x.val < 0x20

/-- Text the scanner reads as the complete contents of a JSON string. -/
def Scannable (v : List Byte) : Prop := ∀ t, scanString (v ++ 0x22 :: t) = some (v, t)

/-- The members the scanner finds in the encoding of an order. -/
def orderMembers (o : Order) : List (List Byte × JVal) :=
  [(asc "orderNo", JVal.str (escaped o.OrderNo)), (asc "date", JVal.str (escaped o.Date)),
   (asc "orderDetail", JVal.str (escaped o.OrderDetail)),
   (asc "invoice", JVal.str (escaped o.Invoice)),
   (asc "packingStatus", JVal.str (escaped o.PackingStatus)),
   (asc "paymentMethod", JVal.str (escaped o.PaymentMethod)),
   (asc "orderTrack", JVal.str (escaped o.OrderTrack))]

/-! ## Sample data for the concrete instances -/

/-- A sample order (all fields ASCII). -/
def order1 : Order :=
  ⟨asc "k1", asc "2024-03-01", asc "Sample order details 1", asc "INV-001", asc "Packing",
    asc "Credit Card", asc "In Progress"⟩

/-- A second sample order with the key of `order1`. -/
def order2 : Order :=
  ⟨asc "k1", asc "2024-03-02", asc "Sample order details 2", asc "INV-002", asc "Packed",
    asc "Cash", asc "Shipped"⟩

/-- An order whose date is the single byte 0xFF, which is not well-formed UTF-8. -/
def orderFF : Order := ⟨asc "k1", [0xFF], [], [], [], [], []⟩

/-- What `ReadOrder` returns for `orderFF` once stored: the date is U+FFFD. -/
def orderFFRead : Order := ⟨asc "k1", [0xEF, 0xBF, 0xBD], [], [], [], [], []⟩

/-- The stub of a first transaction; none of its calls fails. -/
def stub1 : Stub := plainStub (asc "tx1") ⟨1, 0⟩

/-- The stub of a second transaction; none of its calls fails. -/
def stub2 : Stub := plainStub (asc "tx2") ⟨2, 0⟩

/-- The stub of a third transaction; none of its calls fails. -/
def stub3 : Stub := plainStub (asc "tx3") ⟨3, 0⟩

/-- A stub whose `GetState` call fails. -/
def stubGetFails : Stub :=
  { plainStub (asc "tx9") ⟨9, 0⟩ with getStateErr := fun _ => some (asc "io") }

/-- The ledger after `order1` was created on the empty ledger. -/
def ledger1 : Ledger :=
  (CreateOrder stub1 order1.OrderNo order1.Date order1.OrderDetail order1.Invoice
    order1.PackingStatus order1.PaymentMethod order1.OrderTrack []).2

/-- The ledger after `orderFF` was created on the empty ledger. -/
def ledgerFF : Ledger :=
  (CreateOrder stub1 orderFF.OrderNo orderFF.Date orderFF.OrderDetail orderFF.Invoice
    orderFF.PackingStatus orderFF.PaymentMethod orderFF.OrderTrack []).2

/-- The ledger after `order1` was created on the empty ledger and then deleted. -/
def ledger1Deleted : Ledger := (DeleteOrder stub2 (asc "k1") ledger1).2

/-- A rendering of timestamps for the concrete instances. -/
def renderTime (t : Timestamp) : GoString := if t.Seconds = 0 then asc "epoch" else asc "later"

/-- The history entry the loop of `GetHistoryForKey` produces for a log entry. -/
def historyEntry (timeString : Timestamp → GoString) (m : KeyModification) :
    HistoryQueryResult :=
  { TxId := m.TxId, Timestamp := timeString m.Timestamp, IsDelete := m.IsDelete,
    Order := if m.IsDelete then emptyOrder else
      match jsonUnmarshal m.Value with
      | .ok order => order
      | .error _ => emptyOrder }

/-- One write: the call either fails and leaves the ledger as it is, or succeeds and
puts exactly one new entry, for key `k`, in front of the log. -/
def OneWrite (k : GoString) (L : Ledger) (r : Except Err Unit × Ledger) : Prop :=
  (r.1 = .ok () → (∃ m, r.2 = LogEntry.mk k m :: L) ∧
      (Ledger.history r.2 k).length = (Ledger.history L k).length + 1) ∧
  (∀ e, r.1 = .error e → r.2 = L ∧ Ledger.history r.2 k = Ledger.history L k)

/-- The relation between a log entry and the history entry reconstructed from it:
same transaction id, the rendered time, same deletion flag, and as order the empty
order for a deletion and otherwise the decoding of the value bytes. -/
def Reconstructs (timeString : Timestamp → GoString) (m : KeyModification)
    (r : HistoryQueryResult) : Prop :=
  r.TxId = m.TxId ∧ r.Timestamp = timeString m.Timestamp ∧ r.IsDelete = m.IsDelete ∧
  (m.IsDelete = true → r.Order = emptyOrder) ∧
  (m.IsDelete = false → jsonUnmarshal m.Value = .ok r.Order)

/-- The query result the loop of `GetAllOrders` produces for an entry of the scan. -/
def queryResult (kv : KV) : QueryResult :=
  { Key := kv.Key,
    Record := match jsonUnmarshal kv.Value with
      | .ok order => order
      | .error _ => emptyOrder }

/-- A stub whose `PutState` call fails. -/
def stubPutFails : Stub :=
  { plainStub (asc "tx7") ⟨7, 0⟩ with putStateErr := fun _ _ => some (asc "io") }

/-- A stub whose range scan cannot be opened. -/
def stubRangeFails : Stub :=
  { plainStub (asc "tx8") ⟨8, 0⟩ with rangeErr := some (asc "io") }

/-- A sample order with another key. -/
def orderB : Order :=
  ⟨asc "k2", asc "2024-03-02", asc "Sample order details 2", asc "INV-002", asc "Packing",
    asc "Cash", asc "Shipped"⟩

/-- A ledger with three live keys, the second of which (in key order) holds bytes that
are not JSON: `order1` under `k1`, the text `oops` under `k2`, and `order1` with key
`k3` under `k3`. -/
def ledgerCorrupt : Ledger :=
  [ LogEntry.mk (asc "k3") (KeyModification.mk (asc "tx3")
      (encodeOrder { order1 with OrderNo := asc "k3" }) ⟨3, 0⟩ false),
    LogEntry.mk (asc "k2") (KeyModification.mk (asc "tx2") (asc "oops") ⟨2, 0⟩ false),
    LogEntry.mk (asc "k1") (KeyModification.mk (asc "tx1") (encodeOrder order1) ⟨1, 0⟩ false) ]

/-! ## `InitLedger` and sequences of calls -/

/-- The two sample orders of `InitLedger`. -/
def initOrders : List Order :=
  [ ⟨asc "logis_ordr_1", asc "2024-03-01", asc "Sample order details 1", asc "INV-001",
      asc "Packing", asc "Credit Card", asc "In Progress"⟩,
    ⟨asc "logis_ordr_2", asc "2024-03-02", asc "Sample order details 2", asc "INV-002",
      asc "Packing", asc "Cash", asc "Shipped"⟩ ]

/-- The loop of `InitLedger` over the orders: each is encoded and put under its own
`OrderNo`, without an existence check; the first failure ends the loop. The ledger
returned holds the writes issued up to there. -/
def initLedgerLoop (stub : Stub) : List Order → Ledger → Except Err Unit × Ledger
  | [], L => (.ok (), L)
  | order :: rest, L =>
    match jsonMarshal order with
    | .error err => (.error (.json err), L)
    | .ok orderJSON =>
      match stub.PutState order.OrderNo orderJSON L with
      | .error err => (.error (.failedToPut order.OrderNo err), L)
      | .ok L1 => initLedgerLoop stub rest L1

/-- The method `InitLedger`. -/
def InitLedger (stub : Stub) (L : Ledger) : Except Err Unit × Ledger :=
  initLedgerLoop stub initOrders L

/-- One invocation of a writing method of the contract, with its arguments. -/
inductive Call where
  | initLedger
  | createOrder (orderNo date orderDetail invoice packingStatus paymentMethod
      orderTrack : GoString)
  | updateOrder (orderNo date orderDetail invoice packingStatus paymentMethod
      orderTrack : GoString)
  | deleteOrder (orderNo : GoString)

/-- The invocation run with the given stub on the given ledger. -/
def Call.run (stub : Stub) : Call → Ledger → Except Err Unit × Ledger
  | .initLedger, L => InitLedger stub L
  | .createOrder k d od i ps pm ot, L => CreateOrder stub k d od i ps pm ot L
  | .updateOrder k d od i ps pm ot, L => UpdateOrder stub k d od i ps pm ot L
  | .deleteOrder k, L => DeleteOrder stub k L

/-- The ledger after a sequence of invocations, each with its own stub. -/
def runCalls : List (Stub × Call) → Ledger → Ledger
  | [], L => L
  | (stub, c) :: rest, L => runCalls rest (c.run stub L).2

/-! ## Coercion to well-formed UTF-8 -/

/-- What a Go string becomes when it is written by `json.Marshal` and read by
`json.Unmarshal`: every byte that is not part of a well-formed rune is replaced by
U+FFFD, everything else is kept (the input length is the fuel). -/
def coerceUTF8Loop : Nat → List Byte → List Byte
  | _, [] => []
  | 0, _ :: _ => []
  | fuel + 1, b :: t =>
    let (c, size) := decodeRune (b :: t)
    if c = RuneError ∧ size = 1 then [0xEF, 0xBF, 0xBD] ++ coerceUTF8Loop fuel t
    else (b :: t).take size ++ coerceUTF8Loop fuel ((b :: t).drop size)

/-- The string coerced to well-formed UTF-8. -/
def coerceUTF8 (s : GoString) : GoString := coerceUTF8Loop s.length s

/-- The order with every field coerced to well-formed UTF-8. -/
def Order.coerced (o : Order) : Order :=
  ⟨coerceUTF8 o.OrderNo, coerceUTF8 o.Date, coerceUTF8 o.OrderDetail, coerceUTF8 o.Invoice,
    coerceUTF8 o.PackingStatus, coerceUTF8 o.PaymentMethod, coerceUTF8 o.OrderTrack⟩

/-! ## Error kinds -/

/-- The four error kinds of the specification (section 7). -/
inductive ErrKind where
  | NotFound
  | AlreadyExists
  | EncodingError
  | StorageError
  deriving DecidableEq

/-- The kind of an error of `src/ordermanagement.go`. -/
def Err.kind : Err → ErrKind
  | .failedToRead _ _ => .StorageError
  | .alreadyExists _ => .AlreadyExists
  | .doesNotExist _ => .NotFound
  | .failedToGetHistory _ _ => .StorageError
  | .ledger _ => .StorageError
  | .json _ => .EncodingError
  | .failedToPut _ _ => .StorageError

/-! ## The second copy (`src/chaincode-external/ordermanagement.go`) -/

namespace External

/-- The errors the second copy returns: those of the first copy, the `fmt.Errorf` texts
it puts around the errors of `PutState` and `DelState`, and the errors of the
transaction and ShipEngine methods. -/
inductive Err where
  | failedToRead (orderNo : GoString) (cause : GoString)
  | alreadyExists (orderNo : GoString)
  | doesNotExist (orderNo : GoString)
  | failedToPut (orderNo : GoString) (cause : GoString)
  | failedToUpdate (orderNo : GoString) (cause : GoString)
  | failedToDelete (orderNo : GoString) (cause : GoString)
  | ledger (cause : GoString)
  | json (e : JsonError)
  | failedToReadState (cause : GoString)
  | shipEngineDataExists (id : GoString)
  | transactionExists (id : GoString)
  deriving DecidableEq

/-- The kind of an error of the second copy. -/
def Err.kind : Err → ErrKind
  | .failedToRead _ _ => .StorageError
  | .alreadyExists _ => .AlreadyExists
  | .doesNotExist _ => .NotFound
  | .failedToPut _ _ => .StorageError
  | .failedToUpdate _ _ => .StorageError
  | .failedToDelete _ _ => .StorageError
  | .ledger _ => .StorageError
  | .json _ => .EncodingError
  | .failedToReadState _ => .StorageError
  | .shipEngineDataExists _ => .AlreadyExists
  | .transactionExists _ => .AlreadyExists

/-- The method `OrderExists` of the second copy. -/
def OrderExists (stub : Stub) (orderNo : GoString) (L : Ledger) : Except Err Bool :=
  match stub.GetState orderNo L with
  | .error err => .error (.failedToRead orderNo err)
  | .ok orderJSON => .ok orderJSON.isSome

/-- The method `CreateOrder` of the second copy: the returned error and the ledger after
the call. -/
def CreateOrder (stub : Stub)
    (orderNo date orderDetail invoice packingStatus paymentMethod orderTrack : GoString)
    (L : Ledger) : Except Err Unit × Ledger :=
  match OrderExists stub orderNo L with
  | .error err => (.error err, L)
  | .ok found =>
    if found then (.error (.alreadyExists orderNo), L)
    else
      let order : Order :=
        { OrderNo := orderNo, Date := date, OrderDetail := orderDetail, Invoice := invoice,
          PackingStatus := packingStatus, PaymentMethod := paymentMethod,
          OrderTrack := orderTrack }
      match jsonMarshal order with
      | .error err => (.error (.json err), L)
      | .ok orderJSON =>
        match stub.PutState orderNo orderJSON L with
        | .error err => (.error (.failedToPut orderNo err), L)
        | .ok L1 => (.ok (), L1)

/-- The method `ReadOrder` of the second copy. -/
def ReadOrder (stub : Stub) (orderNo : GoString) (L : Ledger) : Except Err Order :=
  match stub.GetState orderNo L with
  | .error err => .error (.failedToRead orderNo err)
  | .ok none => .error (.doesNotExist orderNo)
  | .ok (some orderJSON) =>
    match jsonUnmarshal orderJSON with
    | .error err => .error (.json err)
    | .ok order => .ok order

/-- The method `UpdateOrder` of the second copy: the returned error and the ledger after
the call. -/
def UpdateOrder (stub : Stub)
    (orderNo date orderDetail invoice packingStatus paymentMethod orderTrack : GoString)
    (L : Ledger) : Except Err Unit × Ledger :=
  match OrderExists stub orderNo L with
  | .error err => (.error err, L)
  | .ok found =>
    if !found then (.error (.doesNotExist orderNo), L)
    else
      let order : Order :=
        { OrderNo := orderNo, Date := date, OrderDetail := orderDetail, Invoice := invoice,
          PackingStatus := packingStatus, PaymentMethod := paymentMethod,
          OrderTrack := orderTrack }
      match jsonMarshal order with
      | .error err => (.error (.json err), L)
      | .ok orderJSON =>
        match stub.PutState orderNo orderJSON L with
        | .error err => (.error (.failedToUpdate orderNo err), L)
        | .ok L1 => (.ok (), L1)

/-- The method `DeleteOrder` of the second copy: the returned error and the ledger after
the call. -/
def DeleteOrder (stub : Stub) (orderNo : GoString) (L : Ledger) : Except Err Unit × Ledger :=
  match OrderExists stub orderNo L with
  | .error err => (.error err, L)
  | .ok found =>
    if !found then (.error (.doesNotExist orderNo), L)
    else
      match stub.DelState orderNo L with
      | .error err => (.error (.failedToDelete orderNo err), L)
      | .ok L1 => (.ok (), L1)

/-- The loop of `GetAllOrders` of the second copy. -/
def getAllOrdersLoop : List (Except GoString KV) → List QueryResult →
    Except Err (List QueryResult)
  | [], results => .ok results
  | .error err :: _, _ => .error (.ledger err)
  | .ok queryResponse :: rest, results =>
    match jsonUnmarshal queryResponse.Value with
    | .error err => .error (.json err)
    | .ok order =>
      getAllOrdersLoop rest (results ++ [{ Key := queryResponse.Key, Record := order }])

/-- The method `GetAllOrders` of the second copy. -/
def GetAllOrders (stub : Stub) (L : Ledger) : Except Err (List QueryResult) :=
  match stub.GetStateByRange [] [] L with
  | .error err => .error (.ledger err)
  | .ok resultsIterator => getAllOrdersLoop resultsIterator []

/-- The method `TransactionExists`. -/
def TransactionExists (stub : Stub) (id : GoString) (L : Ledger) : Except Err Bool :=
  match stub.GetState id L with
  | .error err => .error (.failedToReadState err)
  | .ok dataBytes => .ok dataBytes.isSome

/-- The method `ShipEngineDataExists`. -/
def ShipEngineDataExists (stub : Stub) (id : GoString) (L : Ledger) : Except Err Bool :=
  match stub.GetState id L with
  | .error err => .error (.failedToReadState err)
  | .ok dataBytes => .ok dataBytes.isSome

/-- The struct `ShipEngineData`, with JSON names `id`, `shipmentId`, `trackingUrl`. -/
structure ShipEngineData where
  ID : GoString
  ShipmentID : GoString
  TrackingURL : GoString
  deriving DecidableEq

/-- The bytes `json.Marshal` writes for a `ShipEngineData`. -/
def encodeShipEngineData (d : ShipEngineData) : List Byte :=
  0x7B :: (encodeMember (asc "id") d.ID ++ 0x2C ::
    (encodeMember (asc "shipmentId") d.ShipmentID ++ 0x2C ::
    (encodeMember (asc "trackingUrl") d.TrackingURL ++ [0x7D])))

/-- The method `CreateShipEngineData`: the returned error and the ledger after the call. -/
def CreateShipEngineData (stub : Stub) (id shipmentID trackingURL : GoString) (L : Ledger) :
    Except Err Unit × Ledger :=
  match ShipEngineDataExists stub id L with
  | .error err => (.error err, L)
  | .ok found =>
    if found then (.error (.shipEngineDataExists id), L)
    else
      let data : ShipEngineData :=
        { ID := id, ShipmentID := shipmentID, TrackingURL := trackingURL }
      match stub.PutState id (encodeShipEngineData data) L with
      | .error err => (.error (.ledger err), L)
      | .ok L1 => (.ok (), L1)

/-- The struct `TransactionData`, with JSON names `id`, `type`, `amount`, `account`,
`transactionDetails`. The field `TxType` is the Go field `Type` (a keyword here), of
the string type `TransactionType`; the type `F` stands for `float64`. -/
structure TransactionData (F : Type) where
  ID : GoString
  TxType : GoString
  Amount : F
  Account : GoString
  TransactionDetails : GoString

/-- The call `json.Marshal(data)` for a `TransactionData`. The text `json.Marshal` writes
for a `float64` is the parameter `floatJSON`; it is `none` for the values that are not
a number or infinite, for which `json.Marshal` returns an `UnsupportedValueError`. -/
def marshalTransactionData {F : Type} (floatJSON : F → Option (List Byte))
    (d : TransactionData F) : Except JsonError (List Byte) :=
  match floatJSON d.Amount with
  | none => .error .unsupportedValue
  | some amount =>
    .ok (0x7B :: (encodeMember (asc "id") d.ID ++ 0x2C ::
      (encodeMember (asc "type") d.TxType ++ 0x2C ::
      (0x22 :: (asc "amount" ++ 0x22 :: 0x3A :: (amount ++ 0x2C ::
      (encodeMember (asc "account") d.Account ++ 0x2C ::
      (encodeMember (asc "transactionDetails") d.TransactionDetails ++ [0x7D]))))))))

/-- The method `CreateTransaction`: the returned error and the ledger after the call. -/
def CreateTransaction {F : Type} (floatJSON : F → Option (List Byte)) (stub : Stub)
    (id transactionTypeStr : GoString) (amount : F) (account transactionDetails : GoString)
    (L : Ledger) : Except Err Unit × Ledger :=
  match TransactionExists stub id L with
  | .error err => (.error err, L)
  | .ok found =>
    if found then (.error (.transactionExists id), L)
    else
      let data : TransactionData F :=
        { ID := id, TxType := transactionTypeStr, Amount := amount, Account := account,
          TransactionDetails := transactionDetails }
      match marshalTransactionData floatJSON data with
      | .error err => (.error (.json err), L)
      | .ok dataBytes =>
        match stub.PutState id dataBytes L with
        | .error err => (.error (.ledger err), L)
        | .ok L1 => (.ok (), L1)

end External

/-- The log is one the contract can have written: every write stores under its key the
encoding of an order whose `OrderNo` is that key, and every tombstone was appended
while the key was live. -/
def WellFormed : Ledger → Prop
  | [] => True
  | e :: L =>
    (if e.Mod.IsDelete then (Ledger.get L e.Key).isSome = true
      else ∃ o : Order, o.OrderNo = e.Key ∧ e.Mod.Value = encodeOrder o) ∧ WellFormed L

/-! ## Sample data for the instances of the invariants -/

/-- A sequence of calls: `InitLedger`, then `CreateOrder` with `order1`. -/
def callsInit : List (Stub × Call) :=
  [ (stub1, Call.initLedger),
    (stub2, Call.createOrder order1.OrderNo order1.Date order1.OrderDetail order1.Invoice
      order1.PackingStatus order1.PaymentMethod order1.OrderTrack) ]

/-- A sequence of one call: `CreateOrder` under the key of the single byte 0xFF, which is
not well-formed UTF-8, with empty descriptive fields. -/
def callsFF : List (Stub × Call) := [(stub1, Call.createOrder [0xFF] [] [] [] [] [] [])]

/-- The life of a key: `CreateOrder` with `order1`, `UpdateOrder` with `order2`, then
`DeleteOrder`. -/
def callsLifecycle : List (Stub × Call) :=
  [ (stub1, Call.createOrder order1.OrderNo order1.Date order1.OrderDetail order1.Invoice
      order1.PackingStatus order1.PaymentMethod order1.OrderTrack),
    (stub2, Call.updateOrder order1.OrderNo order2.Date order2.OrderDetail order2.Invoice
      order2.PackingStatus order2.PaymentMethod order2.OrderTrack),
    (stub3, Call.deleteOrder order1.OrderNo) ]

/-- The history `GetHistoryForKey` returns after `callsLifecycle`. -/
def historyLifecycle : List HistoryQueryResult :=
  [ ⟨asc "tx3", asc "later", true, emptyOrder⟩,
    ⟨asc "tx2", asc "later", false, order2⟩,
    ⟨asc "tx1", asc "later", false, order1⟩ ]

/-- The rendering of amounts for the concrete instances: the one amount `()` stands for
the `float64` value 100, for which `json.Marshal` writes the text `100`. -/
def amountJSON : Unit → Option (List Byte) := fun _ => some (asc "100")

/-- The ledger after a transaction record was created under the key `k1` on the empty
ledger. -/
def ledgerTx : Ledger :=
  (External.CreateTransaction amountJSON stub1 (asc "k1") (asc "ACH") () (asc "acct-1")
    (asc "first payment") []).2

/-! ## `OrderExists` as a step on the ledger -/

/-- Modelled from the spec: `get` of section 6 is a read. The call `GetState(key)` as a
step on the ledger: its result and the ledger after the call, which is the ledger
before it. -/
def Stub.getStateStep (stub : Stub) (key : GoString) (L : Ledger) :
    Except GoString (Option (List Byte)) × Ledger :=
  (stub.GetState key L, L)

/-- The method `OrderExists` with the ledger passed through its ledger calls: the result
and the ledger after the call. -/
def OrderExistsStep (stub : Stub) (orderNo : GoString) (L : Ledger) :
    Except Err Bool × Ledger :=
  match stub.getStateStep orderNo L with
  | (.error err, L1) => (.error (.failedToRead orderNo err), L1)
  | (.ok orderJSON, L1) => (.ok orderJSON.isSome, L1)

/-- The method `OrderExists` called on the same key once per stub of the list, each call
on the ledger the call before it left, with nothing else written in between: the
results in order and the ledger after the last call. -/
def orderExistsRepeat (orderNo : GoString) : List Stub → Ledger →
    List (Except Err Bool) × Ledger
  | [], L => ([], L)
  | stub :: rest, L =>
    ((OrderExistsStep stub orderNo L).1 ::
      (orderExistsRepeat orderNo rest (OrderExistsStep stub orderNo L).2).1,
     (orderExistsRepeat orderNo rest (OrderExistsStep stub orderNo L).2).2)

/-! ## Lemmas: UTF-8 -/

theorem byteOf_val (b : Byte) : byteOf b.val = b := by
  apply Fin.ext; simp [byteOf]

theorem first_some {p0 sz lo hi : Nat} (h : first p0 = some (sz, lo, hi)) :
    (sz = 2 ∧ 0xC2 ≤ p0 ∧ p0 ≤ 0xDF ∧ lo = 0x80 ∧ hi = 0xBF) ∨
    (sz = 3 ∧ p0 = 0xE0 ∧ lo = 0xA0 ∧ hi = 0xBF) ∨
    (sz = 3 ∧ p0 = 0xED ∧ lo = 0x80 ∧ hi = 0x9F) ∨
    (sz = 3 ∧ 0xE1 ≤ p0 ∧ p0 ≤ 0xEF ∧ p0 ≠ 0xED ∧ lo = 0x80 ∧ hi = 0xBF) ∨
    (sz = 4 ∧ p0 = 0xF0 ∧ lo = 0x90 ∧ hi = 0xBF) ∨
    (sz = 4 ∧ 0xF1 ≤ p0 ∧ p0 ≤ 0xF3 ∧ lo = 0x80 ∧ hi = 0xBF) ∨
    (sz = 4 ∧ p0 = 0xF4 ∧ lo = 0x80 ∧ hi = 0x8F) := by
  unfold first at h
  split_ifs at h <;> simp at h <;> obtain ⟨rfl, rfl, rfl⟩ := h <;> omega

theorem decodeRune_shape (b : Byte) (t : List Byte) (hb : ¬ b.val < 0x80) (c size : Nat)
    (h : decodeRune (b :: t) = (c, size)) (hv : ¬ (c = RuneError ∧ size = 1)) :
    RuneShape (b :: t) c size := by
  unfold decodeRune at h
  simp only [hb, if_false] at h
  cases hf : first b.val with
  | none => simp [hf] at h; exact absurd ⟨h.1.symm, h.2.symm⟩ hv
  | some x =>
    obtain ⟨sz, lo, hi⟩ := x
    have hs := first_some hf
    simp only [hf] at h
    rcases hs with ⟨rfl, h0, h0', rfl, rfl⟩ | ⟨rfl, h0, rfl, rfl⟩ | ⟨rfl, h0, rfl, rfl⟩ |
      ⟨rfl, h0, h0', h0'', rfl, rfl⟩ | ⟨rfl, h0, rfl, rfl⟩ | ⟨rfl, h0, h0', rfl, rfl⟩ |
      ⟨rfl, h0, rfl, rfl⟩
    all_goals
      rcases t with _ | ⟨b1, _ | ⟨b2, _ | ⟨b3, t3⟩⟩⟩
    all_goals simp at h
    all_goals try split_ifs at h
    all_goals try simp only [Prod.mk.injEq] at h
    all_goals simp only [RuneError] at hv
    all_goals try simp only [RuneError] at h
    all_goals try omega
    all_goals obtain ⟨rfl, rfl⟩ := h
    all_goals first
      | (refine RuneShape.two _ _ _ _ ?_ ?_ ?_ <;> first | rfl | omega)
      | (refine RuneShape.three _ _ _ _ _ ?_ ?_ ?_ ?_ ?_ ?_ <;> first | rfl | omega)
      | (refine RuneShape.four _ _ _ _ _ _ ?_ ?_ ?_ ?_ ?_ ?_ ?_ <;> first | rfl | omega)

theorem RuneShape.encode {p : List Byte} {c n : Nat} (h : RuneShape p c n) :
    encodeRune c = p.take n := by
  cases h with
  | two p0 b1 t c h0 h1 hc =>
    subst hc
    unfold encodeRune
    rw [if_neg (by omega), if_pos (by omega)]
    simp only [List.take_succ_cons, List.take_zero, List.cons.injEq, and_true]
    constructor <;> apply Fin.ext <;> simp only [byteOf] <;> omega
  | three p0 b1 b2 t c h0 h1 hE0 hED h2 hc =>
    subst hc
    unfold encodeRune
    rw [if_neg (by omega), if_neg (by omega), if_neg (by omega), if_pos (by omega)]
    simp only [List.take_succ_cons, List.take_zero, List.cons.injEq, and_true]
    refine ⟨?_, ?_, ?_⟩ <;> apply Fin.ext <;> simp only [byteOf] <;> omega
  | four p0 b1 b2 b3 t c h0 h1 hF0 hF4 h2 h3 hc =>
    subst hc
    unfold encodeRune
    rw [if_neg (by omega), if_neg (by omega), if_neg (by omega), if_neg (by omega)]
    simp only [List.take_succ_cons, List.take_zero, List.cons.injEq, and_true]
    refine ⟨?_, ?_, ?_, ?_⟩ <;> apply Fin.ext <;> simp only [byteOf] <;> omega

theorem first_eq_two {p0 : Nat} (h : 0xC2 ≤ p0 ∧ p0 ≤ 0xDF) : first p0 = some (2, 0x80, 0xBF) := by
  unfold first; rw [if_neg (by omega), if_pos (by omega)]

theorem first_eq_three {p0 : Nat} (h : 0xE0 ≤ p0 ∧ p0 ≤ 0xEF) :
    first p0 = some (3, if p0 = 0xE0 then 0xA0 else 0x80, if p0 = 0xED then 0x9F else 0xBF) := by
  unfold first
  by_cases h1 : p0 = 0xE0
  · subst h1; rfl
  · by_cases h2 : p0 = 0xED
    · subst h2; rfl
    · rw [if_neg (by omega), if_neg (by omega), if_neg h1, if_neg h2, if_pos (by omega),
        if_neg h1, if_neg h2]

theorem first_eq_four {p0 : Nat} (h : 0xF0 ≤ p0 ∧ p0 ≤ 0xF4) :
    first p0 = some (4, if p0 = 0xF0 then 0x90 else 0x80, if p0 = 0xF4 then 0x8F else 0xBF) := by
  unfold first
  by_cases h1 : p0 = 0xF0
  · subst h1; rfl
  · by_cases h2 : p0 = 0xF4
    · subst h2; rfl
    · rw [if_neg (by omega), if_neg (by omega), if_neg (by omega), if_neg (by omega),
        if_neg (by omega), if_neg h1, if_pos (by omega), if_neg h1, if_neg h2]

theorem RuneShape.decode_take {p : List Byte} {c n : Nat} (h : RuneShape p c n)
    (q : List Byte) : decodeRune (p.take n ++ q) = (c, n) := by
  cases h with
  | two p0 b1 t c h0 h1 hc =>
    subst hc
    simp only [List.take_succ_cons, List.take_zero, List.cons_append, List.nil_append,
      decodeRune, first_eq_two h0, List.length_cons, List.getD_cons_zero]
    rw [if_neg (by omega), if_neg (by omega), if_neg (by omega), if_pos (by omega)]
  | three p0 b1 b2 t c h0 h1 hE0 hED h2 hc =>
    subst hc
    simp only [List.take_succ_cons, List.take_zero, List.cons_append, List.nil_append,
      decodeRune, first_eq_three h0, List.length_cons, List.getD_cons_zero, List.getD_cons_succ]
    rw [if_neg (by omega), if_neg (by omega), if_neg (by split_ifs <;> omega), if_neg (by omega),
      if_neg (by omega), if_pos (by omega)]
  | four p0 b1 b2 b3 t c h0 h1 hF0 hF4 h2 h3 hc =>
    subst hc
    simp only [List.take_succ_cons, List.take_zero, List.cons_append, List.nil_append,
      decodeRune, first_eq_four h0, List.length_cons, List.getD_cons_zero, List.getD_cons_succ]
    rw [if_neg (by omega), if_neg (by omega), if_neg (by split_ifs <;> omega), if_neg (by omega),
      if_neg (by omega), if_neg (by omega), if_neg (by omega)]

theorem RuneShape.size_pos {p : List Byte} {c n : Nat} (h : RuneShape p c n) :
    2 ≤ n ∧ n ≤ p.length := by
  cases h <;> simp

theorem RuneShape.high {p : List Byte} {c n : Nat} (h : RuneShape p c n) :
    ∀ x ∈ p.take n, 0x80 ≤ x.val := by
  cases h <;> simp <;> omega

theorem hexVal_hex (n : Nat) (h : n < 16) : hexVal (hex n) = some n := by
  interval_cases n <;> rfl

theorem scanString_plain (c : Byte) (t : List Byte) (h1 : c.val ≠ 0x22) (h2 : c.val ≠ 0x5C)
    (h3 : ¬ c.val < 0x20) :
    scanString (c :: t) = (scanString t).map (fun p => (c :: p.1, p.2)) := by
  rw [scanString.eq_def]; simp only [if_neg h1, if_neg h2, if_neg h3]

theorem scanString_high (l t : List Byte) (h : ∀ x ∈ l, 0x80 ≤ x.val) :
    scanString (l ++ t) = (scanString t).map (fun p => (l ++ p.1, p.2)) := by
  induction l with
  | nil => simp
  | cons x l ih =>
    have hx := h x (List.mem_cons_self _ _)
    rw [List.cons_append, scanString_plain _ _ (by omega) (by omega) (by omega),
      ih (fun y hy => h y (List.mem_cons_of_mem _ hy))]
    cases scanString t <;> simp

theorem scanString_esc2 (e : Byte) (t : List Byte)
    (he : e.val = 0x62 ∨ e.val = 0x66 ∨ e.val = 0x6E ∨ e.val = 0x72 ∨ e.val = 0x74 ∨
      e.val = 0x5C ∨ e.val = 0x2F ∨ e.val = 0x22) :
    scanString (0x5C :: e :: t) = (scanString t).map (fun p => (0x5C :: e :: p.1, p.2)) := by
  rw [scanString.eq_def]
  simp only [if_pos he]
  rfl

theorem scanString_u (h1 h2 h3 h4 : Byte) (t : List Byte)
    (hh : isHex h1 = true ∧ isHex h2 = true ∧ isHex h3 = true ∧ isHex h4 = true) :
    scanString (0x5C :: 0x75 :: h1 :: h2 :: h3 :: h4 :: t) =
      (scanString t).map (fun p => (0x5C :: 0x75 :: h1 :: h2 :: h3 :: h4 :: p.1, p.2)) := by
  rw [scanString.eq_def]
  simp only [if_pos hh]
  rfl

theorem isHex_hex (n : Nat) (h : n < 16) : isHex (hex n) = true := by
  simp [isHex, hexVal_hex n h]

theorem scanString_escapeByte (b : Byte) (t : List Byte) (hb : b.val < 0x80) :
    scanString (escapeByte b ++ t) = (scanString t).map (fun p => (escapeByte b ++ p.1, p.2)) := by
  unfold escapeByte
  split_ifs with h1 h2 h3 h4 h5 h6
  · exact scanString_esc2 b t (by omega)
  · exact scanString_esc2 _ t (by decide)
  · exact scanString_esc2 _ t (by decide)
  · exact scanString_esc2 _ t (by decide)
  · exact scanString_esc2 _ t (by decide)
  · exact scanString_esc2 _ t (by decide)
  · exact scanString_u _ _ _ _ t ⟨by decide, by decide, isHex_hex _ (by omega), isHex_hex _ (by omega)⟩

theorem decodeRune_ascii (b : Byte) (t : List Byte) (hb : b.val < 0x80) :
    decodeRune (b :: t) = (b.val, 1) := by
  simp [decodeRune, hb]

theorem scanString_quote (t : List Byte) : scanString (0x22 :: t) = some ([], t) := by
  rw [scanString.eq_def]; rfl

theorem scanString_appendStringLoop (n : Nat) (s t : List Byte) :
    scanString (appendStringLoop n s ++ 0x22 :: t) = some (appendStringLoop n s, t) := by
  induction n generalizing s with
  | zero => simp [appendStringLoop, scanString_quote]
  | succ n ih =>
    cases s with
    | nil => simp [appendStringLoop, scanString_quote]
    | cons b s =>
      rw [appendStringLoop]
      by_cases hb : b.val < 0x80
      · rw [if_pos hb]
        by_cases hs : htmlSafe b.val = true
        · rw [if_pos hs]
          simp only [htmlSafe, Bool.and_eq_true, decide_eq_true_eq, bne_iff_ne, ne_eq] at hs
          simp only [List.cons_append, List.nil_append]
          rw [scanString_plain _ _ (by omega) (by omega) (by omega), ih]
          rfl
        · rw [if_neg hs, List.append_assoc, scanString_escapeByte _ _ hb, ih]
          rfl
      · rw [if_neg hb]
        rcases hd : decodeRune (b :: s) with ⟨c, size⟩
        simp only []
        by_cases hv : c = RuneError ∧ size = 1
        · rw [if_pos hv, List.append_assoc]
          rw [show ([0x5C, 0x75, 0x66, 0x66, 0x66, 0x64] : List Byte) ++
              (appendStringLoop n s ++ 0x22 :: t) =
              0x5C :: 0x75 :: 0x66 :: 0x66 :: 0x66 :: 0x64 :: (appendStringLoop n s ++ 0x22 :: t)
              from rfl,
            scanString_u _ _ _ _ _ ⟨by decide, by decide, by decide, by decide⟩, ih]
          rfl
        · rw [if_neg hv]
          have sh := decodeRune_shape b s hb c size hd hv
          by_cases h28 : c = 0x2028 ∨ c = 0x2029
          · rw [if_pos h28, List.append_assoc]
            rw [show ([0x5C, 0x75, 0x32, 0x30, 0x32, hex (c % 16)] : List Byte) ++
                (appendStringLoop n (List.drop size (b :: s)) ++ 0x22 :: t) =
                0x5C :: 0x75 :: 0x32 :: 0x30 :: 0x32 :: hex (c % 16) ::
                  (appendStringLoop n (List.drop size (b :: s)) ++ 0x22 :: t) from rfl,
              scanString_u _ _ _ _ _
                ⟨by decide, by decide, by decide, isHex_hex _ (Nat.mod_lt _ (by decide))⟩, ih]
            rfl
          · rw [if_neg h28, List.append_assoc, scanString_high _ _ sh.high, ih]
            rfl


theorem unquoteLoop_nil (m : Nat) : unquoteLoop m [] = some [] := by
  cases m <;> rfl

theorem unquoteLoop_plain (m : Nat) (c : Byte) (t : List Byte) (h1 : c.val ≠ 0x5C)
    (h2 : c.val ≠ 0x22) (h3 : ¬ c.val < 0x20) (h4 : c.val < 0x80) :
    unquoteLoop (m + 1) (c :: t) = (unquoteLoop m t).map (c :: ·) := by
  rw [unquoteLoop.eq_def]
  simp only [if_neg h1, if_neg (show ¬ (c.val = 0x22 ∨ c.val < 0x20) by omega), if_pos h4]

theorem unquoteLoop_esc2 (m : Nat) (e : Byte) (t : List Byte)
    (he : e.val = 0x22 ∨ e.val = 0x5C ∨ e.val = 0x2F ∨ e.val = 0x27) :
    unquoteLoop (m + 1) (0x5C :: e :: t) = (unquoteLoop m t).map (e :: ·) := by
  rw [unquoteLoop.eq_def]
  simp only [if_pos he]
  rfl

theorem unquoteLoop_u (m : Nat) (h1 h2 h3 h4 : Byte) (t : List Byte) (rr : Nat)
    (hg : getu4 (0x5C :: 0x75 :: h1 :: h2 :: h3 :: h4 :: t) = some rr)
    (hs : isSurrogate rr = false) :
    unquoteLoop (m + 1) (0x5C :: 0x75 :: h1 :: h2 :: h3 :: h4 :: t) =
      (unquoteLoop m t).map (encodeRune rr ++ ·) := by
  rw [unquoteLoop.eq_def]
  simp only [hg, hs]
  rfl

theorem getu4_00 (hi lo : Nat) (hhi : hi < 16) (hlo : lo < 16) (t : List Byte) :
    getu4 (0x5C :: 0x75 :: 0x30 :: 0x30 :: hex hi :: hex lo :: t) = some (hi * 16 + lo) := by
  have h0 : hexVal 0x30 = some 0 := rfl
  have hc : ((0x5C : Byte).val = 0x5C ∧ (0x75 : Byte).val = 0x75) := ⟨rfl, rfl⟩
  simp only [getu4, hexVal_hex hi hhi, hexVal_hex lo hlo, h0, if_pos hc]
  simp

theorem unquoteLoop_escapeByte (m : Nat) (b : Byte) (t : List Byte) (hb : b.val < 0x80) :
    unquoteLoop (m + 1) (escapeByte b ++ t) = (unquoteLoop m t).map (b :: ·) := by
  unfold escapeByte
  split_ifs with h1 h2 h3 h4 h5 h6
  · exact unquoteLoop_esc2 m b t (by omega)
  · have : b = 0x08 := Fin.ext h2
    subst this; rw [unquoteLoop.eq_def]; rfl
  · have : b = 0x0C := Fin.ext h3
    subst this; rw [unquoteLoop.eq_def]; rfl
  · have : b = 0x0A := Fin.ext h4
    subst this; rw [unquoteLoop.eq_def]; rfl
  · have : b = 0x0D := Fin.ext h5
    subst this; rw [unquoteLoop.eq_def]; rfl
  · have : b = 0x09 := Fin.ext h6
    subst this; rw [unquoteLoop.eq_def]; rfl
  · have hg := getu4_00 (b.val / 16) (b.val % 16) (by omega) (by omega) t
    have hbv : b.val / 16 * 16 + b.val % 16 = b.val := by omega
    rw [hbv] at hg
    rw [show ([0x5C, 0x75, 0x30, 0x30, hex (b.val / 16), hex (b.val % 16)] : List Byte) ++ t =
        0x5C :: 0x75 :: 0x30 :: 0x30 :: hex (b.val / 16) :: hex (b.val % 16) :: t from rfl,
      unquoteLoop_u m _ _ _ _ t _ hg (by simp [isSurrogate]; omega)]
    have he : encodeRune b.val = [b] := by
      unfold encodeRune; rw [if_pos (by omega), byteOf_val]
    rw [he]; rfl

theorem unquoteLoop_high (m : Nat) {p : List Byte} {c n : Nat} (sh : RuneShape p c n)
    (X : List Byte) :
    unquoteLoop (m + 1) (p.take n ++ X) = (unquoteLoop m X).map (p.take n ++ ·) := by
  have hd := sh.decode_take X
  have he := sh.encode
  have hlen : (p.take n).length = n := by simp [sh.size_pos.2]
  have hhigh := sh.high
  generalize p.take n = q at hd he hlen hhigh
  cases q with
  | nil => have := sh.size_pos.1; simp at hlen; omega
  | cons x l =>
    have hx := hhigh x (List.mem_cons_self _ _)
    rw [List.cons_append] at hd ⊢
    rw [unquoteLoop.eq_def]
    simp only [if_neg (show ¬ x.val = 0x5C by omega),
      if_neg (show ¬ (x.val = 0x22 ∨ x.val < 0x20) by omega),
      if_neg (show ¬ x.val < 0x80 by omega), hd, he]
    rw [← List.cons_append, ← hlen, List.drop_left]

theorem utf8ValidLoop_ascii (n : Nat) (b : Byte) (t : List Byte) (hb : b.val < 0x80) :
    utf8ValidLoop (n + 1) (b :: t) = utf8ValidLoop n t := by
  rw [utf8ValidLoop, decodeRune_ascii b t hb]
  simp only [RuneError]
  rw [if_neg (by omega)]; rfl

theorem unquoteLoop_appendStringLoop (n : Nat) (s : List Byte)
    (hv : utf8ValidLoop n s = true) (m : Nat) (hm : (appendStringLoop n s).length ≤ m) :
    unquoteLoop m (appendStringLoop n s) = some s := by
  induction n generalizing s m with
  | zero =>
    cases s with
    | nil => simp [appendStringLoop, unquoteLoop_nil]
    | cons b s => simp [utf8ValidLoop] at hv
  | succ n ih =>
    cases s with
    | nil => simp [appendStringLoop, unquoteLoop_nil]
    | cons b s =>
      rw [appendStringLoop] at hm ⊢
      by_cases hb : b.val < 0x80
      · rw [if_pos hb] at hm ⊢
        rw [utf8ValidLoop_ascii n b s hb] at hv
        by_cases hs : htmlSafe b.val = true
        · rw [if_pos hs] at hm ⊢
          simp only [htmlSafe, Bool.and_eq_true, decide_eq_true_eq, bne_iff_ne, ne_eq] at hs
          simp only [List.cons_append, List.nil_append, List.length_cons] at hm ⊢
          obtain ⟨m, rfl⟩ : ∃ k, m = k + 1 := ⟨m - 1, by omega⟩
          rw [unquoteLoop_plain _ _ _ (by omega) (by omega) (by omega) hb,
            ih s hv m (by omega)]
          rfl
        · rw [if_neg hs] at hm ⊢
          have hl : 1 ≤ (escapeByte b).length := by
            unfold escapeByte; split_ifs <;> simp
          rw [List.length_append] at hm
          obtain ⟨m, rfl⟩ : ∃ k, m = k + 1 := ⟨m - 1, by omega⟩
          rw [unquoteLoop_escapeByte _ _ _ hb, ih s hv m (by omega)]
          rfl
      · rw [if_neg hb] at hm ⊢
        rw [utf8ValidLoop] at hv
        rcases hd : decodeRune (b :: s) with ⟨c, size⟩
        simp only [hd] at hv hm ⊢
        by_cases hbad : c = RuneError ∧ size = 1
        · rw [if_pos hbad] at hv; exact absurd hv (by simp)
        · rw [if_neg hbad] at hv hm ⊢
          have sh := decodeRune_shape b s hb c size hd hbad
          by_cases h28 : c = 0x2028 ∨ c = 0x2029
          · rw [if_pos h28] at hm ⊢
            simp only [List.cons_append, List.nil_append, List.length_cons] at hm ⊢
            obtain ⟨m, rfl⟩ : ∃ k, m = k + 1 := ⟨m - 1, by omega⟩
            have hg : getu4 (0x5C :: 0x75 :: 0x32 :: 0x30 :: 0x32 :: hex (c % 16) ::
                appendStringLoop n (List.drop size (b :: s))) = some c := by
              rcases h28 with rfl | rfl <;> rfl
            rw [unquoteLoop_u m _ _ _ _ _ c hg (by rcases h28 with rfl | rfl <;> rfl),
              ih _ hv m (by omega), sh.encode]
            simp
          · rw [if_neg h28] at hm ⊢
            rw [List.length_append] at hm
            have hsz := sh.size_pos
            have hl : (List.take size (b :: s)).length = size := by
              rw [List.length_take]; omega
            obtain ⟨m, rfl⟩ : ∃ k, m = k + 1 := ⟨m - 1, by omega⟩
            rw [unquoteLoop_high m sh, ih _ hv m (by omega)]
            simp

theorem scanString_plainList (l t : List Byte)
    (h : ∀ x ∈ l, x.val ≠ 0x22 ∧ x.val ≠ 0x5C ∧ ¬ x.val < 0x20) :
    scanString (l ++ t) = (scanString t).map (fun p => (l ++ p.1, p.2)) := by
  induction l with
  | nil => simp
  | cons x l ih =>
    have hx := h x (List.mem_cons_self _ _)
    rw [List.cons_append, scanString_plain _ _ hx.1 hx.2.1 hx.2.2,
      ih (fun y hy => h y (List.mem_cons_of_mem _ hy))]
    cases scanString t <;> simp

theorem skipSpace_nonspace (c : Byte) (t : List Byte) (h : isSpace c = false) :
    skipSpace (c :: t) = c :: t := by
  rw [skipSpace, h]; rfl

theorem parseValue_string (f d : Nat) (v t : List Byte) (hv : Scannable v) :
    parseValue (f + 1) d (0x22 :: (v ++ 0x22 :: t)) = some (JVal.str v, t) := by
  rw [parseValue.eq_def]
  simp only [hv t]
  rfl

theorem parseMembers_more (f d : Nat) (k v rest : List Byte) (hk : PlainKey k)
    (hv : Scannable v) :
    parseMembers (f + 2) d (memberBytes k v (0x2C :: 0x22 :: rest)) =
      (parseMembers (f + 1) d (0x22 :: rest)).map (fun p => ((k, JVal.str v) :: p.1, p.2)) := by
  rw [parseMembers.eq_def]
  simp only [memberBytes]
  simp +decide [scanString_plainList _ _ hk, scanString_quote, skipSpace, isSpace,
    parseValue_string f d v _ hv]

theorem parseMembers_last (f d : Nat) (k v rest : List Byte) (hk : PlainKey k)
    (hv : Scannable v) :
    parseMembers (f + 2) d (memberBytes k v (0x7D :: rest)) = some ([(k, JVal.str v)], rest) := by
  rw [parseMembers.eq_def]
  simp only [memberBytes]
  simp +decide [scanString_plainList _ _ hk, scanString_quote, skipSpace, isSpace,
    parseValue_string f d v _ hv]

theorem parseMembers_next (f d : Nat) (k v k2 v2 rest : List Byte) (hk : PlainKey k)
    (hv : Scannable v) :
    parseMembers (f + 2) d (memberBytes k v (0x2C :: memberBytes k2 v2 rest)) =
      (parseMembers (f + 1) d (memberBytes k2 v2 rest)).map
        (fun p => ((k, JVal.str v) :: p.1, p.2)) :=
  parseMembers_more f d k v _ hk hv

theorem scannable_escaped (s : GoString) : Scannable (escaped s) :=
  fun t => scanString_appendStringLoop _ s t

theorem unquote_escaped (s : GoString) (h : utf8Valid s = true) : unquote (escaped s) = some s :=
  unquoteLoop_appendStringLoop _ s h _ (Nat.le_refl _)

theorem encodeMember_append (k v rest : List Byte) :
    encodeMember k v ++ rest = memberBytes k (escaped v) rest := by
  simp [encodeMember, memberBytes, appendString]

theorem encodeOrder_eq (o : Order) :
    encodeOrder o = 0x7B :: memberBytes (asc "orderNo") (escaped o.OrderNo) (0x2C ::
      memberBytes (asc "date") (escaped o.Date) (0x2C ::
      memberBytes (asc "orderDetail") (escaped o.OrderDetail) (0x2C ::
      memberBytes (asc "invoice") (escaped o.Invoice) (0x2C ::
      memberBytes (asc "packingStatus") (escaped o.PackingStatus) (0x2C ::
      memberBytes (asc "paymentMethod") (escaped o.PaymentMethod) (0x2C ::
      memberBytes (asc "orderTrack") (escaped o.OrderTrack) [0x7D])))))) := by
  simp only [encodeOrder, encodeMember_append]


theorem plainKey_of_decide (k : List Byte)
    (h : k.all (fun x => x.val != 0x22 && x.val != 0x5C && !(decide (x.val < 0x20))) = true) :
    PlainKey k := by
  intro x hx
  have := List.all_eq_true.mp h x hx
  simp only [Bool.and_eq_true, bne_iff_ne, ne_eq, Bool.not_eq_true', decide_eq_false_iff_not] at this
  exact ⟨this.1.1, this.1.2, this.2⟩

theorem parseMembers_order (f : Nat) (o : Order) :
    parseMembers (f + 8) 1 (memberBytes (asc "orderNo") (escaped o.OrderNo) (0x2C ::
      memberBytes (asc "date") (escaped o.Date) (0x2C ::
      memberBytes (asc "orderDetail") (escaped o.OrderDetail) (0x2C ::
      memberBytes (asc "invoice") (escaped o.Invoice) (0x2C ::
      memberBytes (asc "packingStatus") (escaped o.PackingStatus) (0x2C ::
      memberBytes (asc "paymentMethod") (escaped o.PaymentMethod) (0x2C ::
      memberBytes (asc "orderTrack") (escaped o.OrderTrack) [0x7D]))))))) =
    some (orderMembers o, []) := by
  rw [parseMembers_next _ _ _ _ _ _ _ (plainKey_of_decide _ (by decide)) (scannable_escaped _),
    parseMembers_next _ _ _ _ _ _ _ (plainKey_of_decide _ (by decide)) (scannable_escaped _),
    parseMembers_next _ _ _ _ _ _ _ (plainKey_of_decide _ (by decide)) (scannable_escaped _),
    parseMembers_next _ _ _ _ _ _ _ (plainKey_of_decide _ (by decide)) (scannable_escaped _),
    parseMembers_next _ _ _ _ _ _ _ (plainKey_of_decide _ (by decide)) (scannable_escaped _),
    parseMembers_next _ _ _ _ _ _ _ (plainKey_of_decide _ (by decide)) (scannable_escaped _),
    parseMembers_last _ _ _ _ _ (plainKey_of_decide _ (by decide)) (scannable_escaped _)]
  rfl

theorem encodeOrder_length (o : Order) : 8 ≤ (encodeOrder o).length := by
  rw [encodeOrder_eq]
  simp [memberBytes]
  omega

theorem parseValue_object (f : Nat) (k v rest : List Byte) :
    parseValue (f + 1) 0 (0x7B :: memberBytes k v rest) =
      (parseMembers f 1 (memberBytes k v rest)).map (fun p => (JVal.obj p.1, p.2)) := by
  rw [parseValue.eq_def]
  simp +decide [memberBytes, skipSpace, isSpace, maxNestingDepth]

theorem parseJSON_encodeOrder (o : Order) :
    parseJSON (encodeOrder o) = some (JVal.obj (orderMembers o)) := by
  unfold parseJSON
  obtain ⟨f, hf⟩ : ∃ f, 2 * (encodeOrder o).length + 2 = f + 8 + 1 :=
    ⟨2 * (encodeOrder o).length - 7, by have := encodeOrder_length o; omega⟩
  rw [hf, encodeOrder_eq, skipSpace_nonspace _ _ (by decide), parseValue_object,
    parseMembers_order]
  rfl

theorem decodeMembers_order (o : Order)
    (h1 : utf8Valid o.OrderNo = true) (h2 : utf8Valid o.Date = true)
    (h3 : utf8Valid o.OrderDetail = true) (h4 : utf8Valid o.Invoice = true)
    (h5 : utf8Valid o.PackingStatus = true) (h6 : utf8Valid o.PaymentMethod = true)
    (h7 : utf8Valid o.OrderTrack = true) :
    decodeMembers (orderMembers o) (emptyOrder, false) = some (o, false) := by
  have k1 : unquote (asc "orderNo") = some (asc "orderNo") := by decide
  have k2 : unquote (asc "date") = some (asc "date") := by decide
  have k3 : unquote (asc "orderDetail") = some (asc "orderDetail") := by decide
  have k4 : unquote (asc "invoice") = some (asc "invoice") := by decide
  have k5 : unquote (asc "packingStatus") = some (asc "packingStatus") := by decide
  have k6 : unquote (asc "paymentMethod") = some (asc "paymentMethod") := by decide
  have k7 : unquote (asc "orderTrack") = some (asc "orderTrack") := by decide
  have l1 : lookupField (asc "orderNo") = some (fun o s => { o with OrderNo := s }) := rfl
  have l2 : lookupField (asc "date") = some (fun o s => { o with Date := s }) := rfl
  have l3 : lookupField (asc "orderDetail") = some (fun o s => { o with OrderDetail := s }) := rfl
  have l4 : lookupField (asc "invoice") = some (fun o s => { o with Invoice := s }) := rfl
  have l5 : lookupField (asc "packingStatus") = some (fun o s => { o with PackingStatus := s }) :=
    rfl
  have l6 : lookupField (asc "paymentMethod") = some (fun o s => { o with PaymentMethod := s }) :=
    rfl
  have l7 : lookupField (asc "orderTrack") = some (fun o s => { o with OrderTrack := s }) := rfl
  simp only [orderMembers, decodeMembers, k1, k2, k3, k4, k5, k6, k7, l1, l2, l3, l4, l5, l6, l7,
    unquote_escaped _ h1, unquote_escaped _ h2, unquote_escaped _ h3, unquote_escaped _ h4,
    unquote_escaped _ h5, unquote_escaped _ h6, unquote_escaped _ h7, emptyOrder]

theorem jsonUnmarshal_encodeOrder (o : Order)
    (h1 : utf8Valid o.OrderNo = true) (h2 : utf8Valid o.Date = true)
    (h3 : utf8Valid o.OrderDetail = true) (h4 : utf8Valid o.Invoice = true)
    (h5 : utf8Valid o.PackingStatus = true) (h6 : utf8Valid o.PaymentMethod = true)
    (h7 : utf8Valid o.OrderTrack = true) :
    jsonUnmarshal (encodeOrder o) = .ok o := by
  simp only [jsonUnmarshal, parseJSON_encodeOrder, decodeMembers_order o h1 h2 h3 h4 h5 h6 h7]
  rfl

/-! ## Lemmas: the ledger -/

theorem Ledger.get_cons_self (k : GoString) (m : KeyModification) (L : Ledger) :
    Ledger.get (LogEntry.mk k m :: L) k = if m.IsDelete then none else some m.Value := by
  simp [Ledger.get]

theorem Ledger.get_cons_of_ne (k j : GoString) (m : KeyModification) (L : Ledger) (h : k ≠ j) :
    Ledger.get (LogEntry.mk k m :: L) j = Ledger.get L j := by
  simp [Ledger.get, h]

theorem Ledger.history_cons_self (k : GoString) (m : KeyModification) (L : Ledger) :
    Ledger.history (LogEntry.mk k m :: L) k = m :: Ledger.history L k := by
  simp [Ledger.history]

theorem Ledger.history_cons_of_ne (k j : GoString) (m : KeyModification) (L : Ledger)
    (h : k ≠ j) : Ledger.history (LogEntry.mk k m :: L) j = Ledger.history L j := by
  simp [Ledger.history, h]

theorem orderExists_eq (s : Stub) (k : GoString) (L : Ledger) (h : s.getStateErr k = none) :
    OrderExists s k L = .ok (L.get k).isSome := by
  simp [OrderExists, Stub.GetState, h]

theorem orderExists_fault (s : Stub) (k : GoString) (L : Ledger) (e : GoString)
    (h : s.getStateErr k = some e) : OrderExists s k L = .error (.failedToRead k e) := by
  simp [OrderExists, Stub.GetState, h]

theorem readOrder_eq (s : Stub) (k : GoString) (L : Ledger) (h : s.getStateErr k = none) :
    ReadOrder s k L =
      match L.get k with
      | none => .error (.doesNotExist k)
      | some v =>
        match jsonUnmarshal v with
        | .error err => .error (.json err)
        | .ok order => .ok order := by
  simp only [ReadOrder, Stub.GetState, h]
  cases L.get k <;> rfl

theorem createOrder_fresh (s : Stub) (o : Order) (L : Ledger)
    (hfresh : L.get o.OrderNo = none) (hget : s.getStateErr o.OrderNo = none)
    (hput : s.putStateErr o.OrderNo (encodeOrder o) = none) :
    CreateOrder s o.OrderNo o.Date o.OrderDetail o.Invoice o.PackingStatus o.PaymentMethod
        o.OrderTrack L =
      (.ok (), LogEntry.mk o.OrderNo
        (KeyModification.mk s.TxID (encodeOrder o) s.TxTimestamp false) :: L) := by
  simp [CreateOrder, orderExists_eq s _ L hget, hfresh, jsonMarshal, Stub.PutState, hput]

theorem updateOrder_live (s : Stub) (o : Order) (L : Ledger)
    (hlive : (L.get o.OrderNo).isSome = true) (hget : s.getStateErr o.OrderNo = none)
    (hput : s.putStateErr o.OrderNo (encodeOrder o) = none) :
    UpdateOrder s o.OrderNo o.Date o.OrderDetail o.Invoice o.PackingStatus o.PaymentMethod
        o.OrderTrack L =
      (.ok (), LogEntry.mk o.OrderNo
        (KeyModification.mk s.TxID (encodeOrder o) s.TxTimestamp false) :: L) := by
  simp [UpdateOrder, orderExists_eq s _ L hget, hlive, jsonMarshal, Stub.PutState, hput]

theorem deleteOrder_live (s : Stub) (k : GoString) (L : Ledger)
    (hlive : (L.get k).isSome = true) (hget : s.getStateErr k = none)
    (hdel : s.delStateErr k = none) :
    DeleteOrder s k L =
      (.ok (), LogEntry.mk k (KeyModification.mk s.TxID [] s.TxTimestamp true) :: L) := by
  simp [DeleteOrder, orderExists_eq s _ L hget, hlive, Stub.DelState, hdel]

theorem readOrder_after_put (s : Stub) (o : Order) (tx : GoString) (ts : Timestamp) (L : Ledger)
    (hget : s.getStateErr o.OrderNo = none) (hv : o.validUTF8 = true) :
    ReadOrder s o.OrderNo
        (LogEntry.mk o.OrderNo (KeyModification.mk tx (encodeOrder o) ts false) :: L) =
      .ok o := by
  simp only [Order.validUTF8, Bool.and_eq_true] at hv
  obtain ⟨⟨⟨⟨⟨⟨h1, h2⟩, h3⟩, h4⟩, h5⟩, h6⟩, h7⟩ := hv
  rw [readOrder_eq s _ _ hget, Ledger.get_cons_self]
  simp [jsonUnmarshal_encodeOrder o h1 h2 h3 h4 h5 h6 h7]

/-- C1 (amended): for every ledger state, every key without live value in it and every six
descriptive fields, all seven strings being well-formed UTF-8, and with the ledger calls
succeeding: `CreateOrder` succeeds and a following `ReadOrder` of the key succeeds and
returns the order with that key as `OrderNo` and with those six fields. -/
theorem create_then_read (s1 s2 : Stub) (L : Ledger) (o : Order)
    (hfresh : L.get o.OrderNo = none)
    (hget1 : s1.getStateErr o.OrderNo = none)
    (hput1 : s1.putStateErr o.OrderNo (encodeOrder o) = none)
    (hget2 : s2.getStateErr o.OrderNo = none)
    (hvalid : o.validUTF8 = true) :
    (CreateOrder s1 o.OrderNo o.Date o.OrderDetail o.Invoice o.PackingStatus
        o.PaymentMethod o.OrderTrack L).1 = .ok () ∧
    ReadOrder s2 o.OrderNo
        (CreateOrder s1 o.OrderNo o.Date o.OrderDetail o.Invoice o.PackingStatus
          o.PaymentMethod o.OrderTrack L).2 = .ok o := by
  rw [createOrder_fresh s1 o L hfresh hget1 hput1]
  exact ⟨rfl, readOrder_after_put s2 o _ _ L hget2 hvalid⟩

set_option maxRecDepth 100000 in
/-- An instance of C1: `order1` on the empty ledger. -/
theorem create_then_read_witness :
    (Ledger.get [] order1.OrderNo = none ∧ order1.validUTF8 = true) ∧
    ((CreateOrder stub1 order1.OrderNo order1.Date order1.OrderDetail order1.Invoice
        order1.PackingStatus order1.PaymentMethod order1.OrderTrack []).1 = .ok () ∧
      ReadOrder stub2 order1.OrderNo
        (CreateOrder stub1 order1.OrderNo order1.Date order1.OrderDetail order1.Invoice
          order1.PackingStatus order1.PaymentMethod order1.OrderTrack []).2 = .ok order1) :=
  ⟨⟨by decide, by decide⟩, create_then_read stub1 stub2 [] order1 (by decide) rfl rfl rfl (by decide)⟩

set_option maxRecDepth 100000 in
/-- C1 as stated fails: created with the date 0xFF, the order is read with the date U+FFFD. -/
theorem create_then_read_counterexample :
    Ledger.get [] orderFF.OrderNo = none ∧
    (CreateOrder stub1 orderFF.OrderNo orderFF.Date orderFF.OrderDetail orderFF.Invoice
        orderFF.PackingStatus orderFF.PaymentMethod orderFF.OrderTrack []).1 = .ok () ∧
    ReadOrder stub2 orderFF.OrderNo
        (CreateOrder stub1 orderFF.OrderNo orderFF.Date orderFF.OrderDetail orderFF.Invoice
          orderFF.PackingStatus orderFF.PaymentMethod orderFF.OrderTrack []).2 = .ok orderFFRead ∧
    orderFFRead.Date ≠ orderFF.Date := by
  decide

theorem createOrder_live (s : Stub) (k d od i ps pm ot : GoString) (L : Ledger)
    (hlive : (L.get k).isSome = true) :
    CreateOrder s k d od i ps pm ot L =
      ((match s.getStateErr k with
        | none => .error (.alreadyExists k)
        | some e => .error (.failedToRead k e)), L) := by
  cases h : s.getStateErr k with
  | none => simp [CreateOrder, orderExists_eq s k L h, hlive]
  | some e => simp [CreateOrder, orderExists_fault s k L e h]

theorem updateOrder_missing (s : Stub) (k d od i ps pm ot : GoString) (L : Ledger)
    (hk : L.get k = none) :
    UpdateOrder s k d od i ps pm ot L =
      ((match s.getStateErr k with
        | none => .error (.doesNotExist k)
        | some e => .error (.failedToRead k e)), L) := by
  cases h : s.getStateErr k with
  | none => simp [UpdateOrder, orderExists_eq s k L h, hk]
  | some e => simp [UpdateOrder, orderExists_fault s k L e h]

theorem deleteOrder_missing (s : Stub) (k : GoString) (L : Ledger) (hk : L.get k = none) :
    DeleteOrder s k L =
      ((match s.getStateErr k with
        | none => .error (.doesNotExist k)
        | some e => .error (.failedToRead k e)), L) := by
  cases h : s.getStateErr k with
  | none => simp [DeleteOrder, orderExists_eq s k L h, hk]
  | some e => simp [DeleteOrder, orderExists_fault s k L e h]

/-- C2 (amended): in a ledger state in which key `k` has a live value `v`, `CreateOrder` on
`k` fails, with the already-exists error when the read of the existence check succeeds and
with the error of that read otherwise; it issues no write: the ledger is the same after
the call, so the value under `k` and the result of `ReadOrder` are as before. In
particular, on a ledger in which the key is fresh and with the ledger calls succeeding, a
first `CreateOrder` of an order `o1` of well-formed UTF-8 succeeds, a second
`CreateOrder` on the same key fails with the already-exists error, and `ReadOrder` still
returns `o1`. -/
theorem create_existing (s : Stub) (L : Ledger) (k d od i ps pm ot : GoString)
    (v : List Byte) (hlive : L.get k = some v)
    (s1 s2 r : Stub) (L0 : Ledger) (o1 : Order) (d2 od2 i2 ps2 pm2 ot2 : GoString) :
    (CreateOrder s k d od i ps pm ot L =
        ((match s.getStateErr k with
          | none => .error (.alreadyExists k)
          | some e => .error (.failedToRead k e)), L) ∧
      (CreateOrder s k d od i ps pm ot L).2.get k = some v ∧
      ReadOrder r k (CreateOrder s k d od i ps pm ot L).2 = ReadOrder r k L) ∧
    (L0.get o1.OrderNo = none →
      s1.getStateErr o1.OrderNo = none → s1.putStateErr o1.OrderNo (encodeOrder o1) = none →
      s2.getStateErr o1.OrderNo = none → r.getStateErr o1.OrderNo = none →
      o1.validUTF8 = true →
      (CreateOrder s1 o1.OrderNo o1.Date o1.OrderDetail o1.Invoice o1.PackingStatus
          o1.PaymentMethod o1.OrderTrack L0).1 = .ok () ∧
      (CreateOrder s2 o1.OrderNo d2 od2 i2 ps2 pm2 ot2
          (CreateOrder s1 o1.OrderNo o1.Date o1.OrderDetail o1.Invoice o1.PackingStatus
            o1.PaymentMethod o1.OrderTrack L0).2).1 = .error (.alreadyExists o1.OrderNo) ∧
      (CreateOrder s2 o1.OrderNo d2 od2 i2 ps2 pm2 ot2
          (CreateOrder s1 o1.OrderNo o1.Date o1.OrderDetail o1.Invoice o1.PackingStatus
            o1.PaymentMethod o1.OrderTrack L0).2).2 =
        (CreateOrder s1 o1.OrderNo o1.Date o1.OrderDetail o1.Invoice o1.PackingStatus
            o1.PaymentMethod o1.OrderTrack L0).2 ∧
      ReadOrder r o1.OrderNo
        (CreateOrder s2 o1.OrderNo d2 od2 i2 ps2 pm2 ot2
          (CreateOrder s1 o1.OrderNo o1.Date o1.OrderDetail o1.Invoice o1.PackingStatus
            o1.PaymentMethod o1.OrderTrack L0).2).2 = .ok o1) := by
  have hl : (L.get k).isSome = true := by rw [hlive]; rfl
  refine ⟨?_, ?_⟩
  · rw [createOrder_live s k d od i ps pm ot L hl]
    exact ⟨rfl, hlive, rfl⟩
  · intro hfresh hg1 hp1 hg2 hgr hv
    rw [createOrder_fresh s1 o1 L0 hfresh hg1 hp1]
    rw [createOrder_live s2 o1.OrderNo d2 od2 i2 ps2 pm2 ot2 _
      (by rw [Ledger.get_cons_self]; rfl)]
    exact ⟨rfl, by simp only [hg2], rfl, readOrder_after_put r o1 _ _ L0 hgr hv⟩

set_option maxRecDepth 100000 in
/-- An instance of C2: a second `CreateOrder` on the key of `order1`. -/
theorem create_existing_witness :
    Ledger.get ledger1 (asc "k1") = some (encodeOrder order1) ∧
    CreateOrder stub2 (asc "k1") order2.Date order2.OrderDetail order2.Invoice
        order2.PackingStatus order2.PaymentMethod order2.OrderTrack ledger1 =
      (.error (.alreadyExists (asc "k1")), ledger1) ∧
    ReadOrder stub3 (asc "k1") ledger1 = .ok order1 :=
  have h := create_existing stub2 ledger1 (asc "k1") order2.Date order2.OrderDetail
    order2.Invoice order2.PackingStatus order2.PaymentMethod order2.OrderTrack
    (encodeOrder order1) (by decide) stub1 stub2 stub3 [] order1 order2.Date
    order2.OrderDetail order2.Invoice order2.PackingStatus order2.PaymentMethod
    order2.OrderTrack
  ⟨by decide, h.1.1, (h.2 (by decide) rfl rfl rfl rfl (by decide)).2.2.2⟩

set_option maxRecDepth 100000 in
/-- C2 as stated fails: with a failing `GetState` the error is the one of the read, not
the already-exists error, and after `orderFF` was created and a second create failed,
`ReadOrder` returns the date U+FFFD, not 0xFF. -/
theorem create_existing_counterexample :
    (Ledger.get ledger1 (asc "k1") = some (encodeOrder order1) ∧
      (CreateOrder stubGetFails (asc "k1") order2.Date order2.OrderDetail order2.Invoice
          order2.PackingStatus order2.PaymentMethod order2.OrderTrack ledger1).1 =
        .error (.failedToRead (asc "k1") (asc "io"))) ∧
    (ReadOrder stub3 (asc "k1")
        (CreateOrder stub2 (asc "k1") order2.Date order2.OrderDetail order2.Invoice
          order2.PackingStatus order2.PaymentMethod order2.OrderTrack ledgerFF).2 =
        .ok orderFFRead ∧ orderFFRead ≠ orderFF) := by
  decide

/-- C3 (amended): in a ledger state in which key `k` has no live value (never written, or
deleted), `UpdateOrder` and `DeleteOrder` on `k` fail, with the does-not-exist error when the
read of the existence check succeeds and with the error of that read otherwise, and
they issue no write: the ledger (the log, and with it the world state) is unchanged. -/
theorem update_delete_missing (s : Stub) (L : Ledger) (k d od i ps pm ot : GoString)
    (hk : L.get k = none) :
    UpdateOrder s k d od i ps pm ot L =
      ((match s.getStateErr k with
        | none => .error (.doesNotExist k)
        | some e => .error (.failedToRead k e)), L) ∧
    DeleteOrder s k L =
      ((match s.getStateErr k with
        | none => .error (.doesNotExist k)
        | some e => .error (.failedToRead k e)), L) :=
  ⟨updateOrder_missing s k d od i ps pm ot L hk, deleteOrder_missing s k L hk⟩

set_option maxRecDepth 100000 in
/-- An instance of C3: the key of `order1` after it was created and deleted. -/
theorem update_delete_missing_witness :
    Ledger.get ledger1Deleted (asc "k1") = none ∧
    UpdateOrder stub3 (asc "k1") order2.Date order2.OrderDetail order2.Invoice
        order2.PackingStatus order2.PaymentMethod order2.OrderTrack ledger1Deleted =
      (.error (.doesNotExist (asc "k1")), ledger1Deleted) ∧
    DeleteOrder stub3 (asc "k1") ledger1Deleted =
      (.error (.doesNotExist (asc "k1")), ledger1Deleted) :=
  ⟨by decide,
   update_delete_missing stub3 ledger1Deleted (asc "k1") order2.Date order2.OrderDetail
    order2.Invoice order2.PackingStatus order2.PaymentMethod order2.OrderTrack (by decide)⟩

set_option maxRecDepth 100000 in
/-- C3 as stated fails: with a failing `GetState` both calls return the error of the read,
which is not the does-not-exist error. -/
theorem update_delete_missing_counterexample :
    Ledger.get [] (asc "k1") = none ∧
    (UpdateOrder stubGetFails (asc "k1") order2.Date order2.OrderDetail order2.Invoice
        order2.PackingStatus order2.PaymentMethod order2.OrderTrack []).1 =
      .error (.failedToRead (asc "k1") (asc "io")) ∧
    (DeleteOrder stubGetFails (asc "k1") []).1 =
      .error (.failedToRead (asc "k1") (asc "io")) ∧
    Err.failedToRead (asc "k1") (asc "io") ≠ Err.doesNotExist (asc "k1") := by
  decide

/-- C4 (amended): in a ledger state in which the key is live, whatever is stored under it,
and with the ledger calls succeeding, `UpdateOrder` with six fields that are, like the key,
well-formed UTF-8 succeeds and a following `ReadOrder` returns the order with that key and
those fields. In particular after `CreateOrder` with fields `f1` on a ledger in which the
key is fresh and `UpdateOrder` with fields `f2`, `ReadOrder` returns the order with `f2`,
which is not the one with `f1` unless the two are equal. -/
theorem update_then_read (s1 s2 : Stub) (L : Ledger) (o : Order) (v : List Byte)
    (hlive : L.get o.OrderNo = some v)
    (hget1 : s1.getStateErr o.OrderNo = none)
    (hput1 : s1.putStateErr o.OrderNo (encodeOrder o) = none)
    (hget2 : s2.getStateErr o.OrderNo = none)
    (hvalid : o.validUTF8 = true)
    (s0 : Stub) (L0 : Ledger) (d1 od1 i1 ps1 pm1 ot1 : GoString) :
    ((UpdateOrder s1 o.OrderNo o.Date o.OrderDetail o.Invoice o.PackingStatus
        o.PaymentMethod o.OrderTrack L).1 = .ok () ∧
      ReadOrder s2 o.OrderNo
        (UpdateOrder s1 o.OrderNo o.Date o.OrderDetail o.Invoice o.PackingStatus
          o.PaymentMethod o.OrderTrack L).2 = .ok o) ∧
    (L0.get o.OrderNo = none → s0.getStateErr o.OrderNo = none →
      s0.putStateErr o.OrderNo (encodeOrder ⟨o.OrderNo, d1, od1, i1, ps1, pm1, ot1⟩) = none →
      (CreateOrder s0 o.OrderNo d1 od1 i1 ps1 pm1 ot1 L0).1 = .ok () ∧
      (UpdateOrder s1 o.OrderNo o.Date o.OrderDetail o.Invoice o.PackingStatus
        o.PaymentMethod o.OrderTrack
        (CreateOrder s0 o.OrderNo d1 od1 i1 ps1 pm1 ot1 L0).2).1 = .ok () ∧
      ReadOrder s2 o.OrderNo
        (UpdateOrder s1 o.OrderNo o.Date o.OrderDetail o.Invoice o.PackingStatus
          o.PaymentMethod o.OrderTrack
          (CreateOrder s0 o.OrderNo d1 od1 i1 ps1 pm1 ot1 L0).2).2 = .ok o ∧
      (Order.mk o.OrderNo d1 od1 i1 ps1 pm1 ot1 ≠ o →
        ReadOrder s2 o.OrderNo
          (UpdateOrder s1 o.OrderNo o.Date o.OrderDetail o.Invoice o.PackingStatus
            o.PaymentMethod o.OrderTrack
            (CreateOrder s0 o.OrderNo d1 od1 i1 ps1 pm1 ot1 L0).2).2 ≠
          .ok ⟨o.OrderNo, d1, od1, i1, ps1, pm1, ot1⟩)) := by
  have hl : (L.get o.OrderNo).isSome = true := by rw [hlive]; rfl
  refine ⟨?_, ?_⟩
  · rw [updateOrder_live s1 o L hl hget1 hput1]
    exact ⟨rfl, readOrder_after_put s2 o _ _ L hget2 hvalid⟩
  · intro hfresh hg0 hp0
    have hc := createOrder_fresh s0 ⟨o.OrderNo, d1, od1, i1, ps1, pm1, ot1⟩ L0 hfresh hg0 hp0
    simp only at hc
    rw [hc, updateOrder_live s1 o _ (by rw [Ledger.get_cons_self]; rfl) hget1 hput1]
    have hr := readOrder_after_put s2 o s1.TxID s1.TxTimestamp
      (LogEntry.mk o.OrderNo (KeyModification.mk s0.TxID
        (encodeOrder ⟨o.OrderNo, d1, od1, i1, ps1, pm1, ot1⟩) s0.TxTimestamp false) :: L0)
      hget2 hvalid
    refine ⟨rfl, rfl, hr, ?_⟩
    intro hne
    simp only at hr ⊢
    rw [hr]
    intro h
    exact hne (Except.ok.inj h).symm

set_option maxRecDepth 100000 in
/-- An instance of C4: `order1` updated to `order2`. -/
theorem update_then_read_witness :
    (Ledger.get ledger1 order2.OrderNo = some (encodeOrder order1) ∧
      order2.validUTF8 = true) ∧
    (UpdateOrder stub2 order2.OrderNo order2.Date order2.OrderDetail order2.Invoice
        order2.PackingStatus order2.PaymentMethod order2.OrderTrack ledger1).1 = .ok () ∧
    ReadOrder stub3 order2.OrderNo
        (UpdateOrder stub2 order2.OrderNo order2.Date order2.OrderDetail order2.Invoice
          order2.PackingStatus order2.PaymentMethod order2.OrderTrack ledger1).2 = .ok order2 :=
  ⟨⟨by decide, by decide⟩,
   (update_then_read stub2 stub3 ledger1 order2 (encodeOrder order1) (by decide) rfl rfl rfl
    (by decide) stub1 [] order1.Date order1.OrderDetail order1.Invoice order1.PackingStatus
    order1.PaymentMethod order1.OrderTrack).1⟩

set_option maxRecDepth 100000 in
/-- C4 as stated fails: updated with the date 0xFF, the order is read with the date U+FFFD. -/
theorem update_then_read_counterexample :
    Ledger.get ledger1 orderFF.OrderNo = some (encodeOrder order1) ∧
    (UpdateOrder stub2 orderFF.OrderNo orderFF.Date orderFF.OrderDetail orderFF.Invoice
        orderFF.PackingStatus orderFF.PaymentMethod orderFF.OrderTrack ledger1).1 = .ok () ∧
    ReadOrder stub3 orderFF.OrderNo
        (UpdateOrder stub2 orderFF.OrderNo orderFF.Date orderFF.OrderDetail orderFF.Invoice
          orderFF.PackingStatus orderFF.PaymentMethod orderFF.OrderTrack ledger1).2 =
      .ok orderFFRead ∧
    orderFFRead.Date ≠ orderFF.Date := by
  decide

/-- C5: in a ledger state in which key `k` is live, and with the ledger calls succeeding,
`DeleteOrder` on `k` succeeds; afterwards `OrderExists` returns false without error and
`ReadOrder` fails with the does-not-exist error. -/
theorem delete_then_gone (s1 s2 s3 : Stub) (L : Ledger) (k : GoString) (v : List Byte)
    (hlive : L.get k = some v)
    (hget1 : s1.getStateErr k = none) (hdel1 : s1.delStateErr k = none)
    (hget2 : s2.getStateErr k = none) (hget3 : s3.getStateErr k = none) :
    (DeleteOrder s1 k L).1 = .ok () ∧
    OrderExists s2 k (DeleteOrder s1 k L).2 = .ok false ∧
    ReadOrder s3 k (DeleteOrder s1 k L).2 = .error (.doesNotExist k) := by
  have hl : (L.get k).isSome = true := by rw [hlive]; rfl
  rw [deleteOrder_live s1 k L hl hget1 hdel1]
  refine ⟨rfl, ?_, ?_⟩
  · rw [orderExists_eq s2 k _ hget2, Ledger.get_cons_self]; rfl
  · rw [readOrder_eq s3 k _ hget3, Ledger.get_cons_self]; rfl

set_option maxRecDepth 100000 in
/-- An instance of C5: `order1` created and deleted. -/
theorem delete_then_gone_witness :
    Ledger.get ledger1 (asc "k1") = some (encodeOrder order1) ∧
    (DeleteOrder stub2 (asc "k1") ledger1).1 = .ok () ∧
    OrderExists stub3 (asc "k1") (DeleteOrder stub2 (asc "k1") ledger1).2 = .ok false ∧
    ReadOrder stub3 (asc "k1") (DeleteOrder stub2 (asc "k1") ledger1).2 =
      .error (.doesNotExist (asc "k1")) :=
  ⟨by decide, delete_then_gone stub2 stub3 stub3 ledger1 (asc "k1") (encodeOrder order1)
    (by decide) rfl rfl rfl rfl⟩

/-! ## Lemmas and claims: history and range scan -/

theorem iterate_ok {α : Type} (f : Nat → Option GoString) (h : ∀ i, f i = none) (i : Nat)
    (xs : List α) : iterate f i xs = xs.map Except.ok := by
  induction xs generalizing i with
  | nil => rfl
  | cons x xs ih => simp [iterate, h i, ih]

theorem getHistoryLoop_ok (ts : Timestamp → GoString) (es : List KeyModification)
    (hdec : ∀ m ∈ es, m.IsDelete = false → ∃ o, jsonUnmarshal m.Value = .ok o)
    (acc : List HistoryQueryResult) :
    getHistoryLoop ts (es.map Except.ok) acc = .ok (acc ++ es.map (historyEntry ts)) := by
  induction es generalizing acc with
  | nil => simp [getHistoryLoop]
  | cons m es ih =>
    have ih1 := ih (fun x hx => hdec x (List.mem_cons_of_mem _ hx))
    rw [List.map_cons, getHistoryLoop]
    by_cases hd : m.IsDelete = true
    · rw [if_pos hd, ih1]
      simp [historyEntry, hd]
    · rw [if_neg hd]
      obtain ⟨o, ho⟩ := hdec m (List.mem_cons_self _ _) (by simpa using hd)
      rw [ho]
      simp only []
      rw [ih1]
      simp [historyEntry, hd, ho]

theorem createOrder_effect (s : Stub) (k d od i ps pm ot : GoString) (L : Ledger) :
    ((∃ e, (CreateOrder s k d od i ps pm ot L).1 = .error e) ∧
      (CreateOrder s k d od i ps pm ot L).2 = L) ∨
    ((CreateOrder s k d od i ps pm ot L).1 = .ok () ∧
      ∃ m, (CreateOrder s k d od i ps pm ot L).2 = LogEntry.mk k m :: L) := by
  unfold CreateOrder
  cases OrderExists s k L with
  | error e => exact Or.inl ⟨⟨e, rfl⟩, rfl⟩
  | ok found =>
    cases found with
    | true => exact Or.inl ⟨⟨_, rfl⟩, rfl⟩
    | false =>
      simp only [jsonMarshal, Stub.PutState]
      cases s.putStateErr k _ with
      | some e => exact Or.inl ⟨⟨_, rfl⟩, rfl⟩
      | none => exact Or.inr ⟨rfl, _, rfl⟩

theorem updateOrder_effect (s : Stub) (k d od i ps pm ot : GoString) (L : Ledger) :
    ((∃ e, (UpdateOrder s k d od i ps pm ot L).1 = .error e) ∧
      (UpdateOrder s k d od i ps pm ot L).2 = L) ∨
    ((UpdateOrder s k d od i ps pm ot L).1 = .ok () ∧
      ∃ m, (UpdateOrder s k d od i ps pm ot L).2 = LogEntry.mk k m :: L) := by
  unfold UpdateOrder
  cases OrderExists s k L with
  | error e => exact Or.inl ⟨⟨e, rfl⟩, rfl⟩
  | ok found =>
    cases found with
    | false => exact Or.inl ⟨⟨_, rfl⟩, rfl⟩
    | true =>
      simp only [jsonMarshal, Stub.PutState]
      cases s.putStateErr k _ with
      | some e => exact Or.inl ⟨⟨_, rfl⟩, rfl⟩
      | none => exact Or.inr ⟨rfl, _, rfl⟩

theorem deleteOrder_effect (s : Stub) (k : GoString) (L : Ledger) :
    ((∃ e, (DeleteOrder s k L).1 = .error e) ∧ (DeleteOrder s k L).2 = L) ∨
    ((DeleteOrder s k L).1 = .ok () ∧ ∃ m, (DeleteOrder s k L).2 = LogEntry.mk k m :: L) := by
  unfold DeleteOrder
  cases OrderExists s k L with
  | error e => exact Or.inl ⟨⟨e, rfl⟩, rfl⟩
  | ok found =>
    cases found with
    | false => exact Or.inl ⟨⟨_, rfl⟩, rfl⟩
    | true =>
      simp only [Stub.DelState]
      cases s.delStateErr k with
      | some e => exact Or.inl ⟨⟨_, rfl⟩, rfl⟩
      | none => exact Or.inr ⟨rfl, _, rfl⟩

theorem oneWrite_of_effect (k : GoString) (L : Ledger) (r : Except Err Unit × Ledger)
    (h : ((∃ e, r.1 = .error e) ∧ r.2 = L) ∨ (r.1 = .ok () ∧ ∃ m, r.2 = LogEntry.mk k m :: L)) :
    OneWrite k L r := by
  rcases h with ⟨⟨e, he⟩, h2⟩ | ⟨h1, m, hm⟩
  · refine ⟨fun h => ?_, fun _ _ => ⟨h2, by rw [h2]⟩⟩
    rw [he] at h; cases h
  · refine ⟨fun _ => ⟨⟨m, hm⟩, by rw [hm, Ledger.history_cons_self]; rfl⟩, fun e he => ?_⟩
    rw [h1] at he; cases he

theorem jsonUnmarshal_valid (o : Order) (hv : o.validUTF8 = true) :
    jsonUnmarshal (encodeOrder o) = .ok o := by
  simp only [Order.validUTF8, Bool.and_eq_true] at hv
  obtain ⟨⟨⟨⟨⟨⟨h1, h2⟩, h3⟩, h4⟩, h5⟩, h6⟩, h7⟩ := hv
  exact jsonUnmarshal_encodeOrder o h1 h2 h3 h4 h5 h6 h7

theorem getHistoryForKey_ok (ts : Timestamp → GoString) (s : Stub) (k : GoString) (L : Ledger)
    (es : List KeyModification) (hyield : s.GetHistoryForKey k L = .ok (es.map Except.ok))
    (hdec : ∀ m ∈ es, m.IsDelete = false → ∃ o, jsonUnmarshal m.Value = .ok o) :
    GetHistoryForKey ts s k L = .ok (es.map (historyEntry ts)) := by
  simp only [GetHistoryForKey, hyield]
  rw [getHistoryLoop_ok ts es hdec]
  rfl

theorem stub_getHistoryForKey_ok (s : Stub) (k : GoString) (L : Ledger)
    (hopen : s.historyErr k = none) (hnext : ∀ i, s.historyNextErr i = none) :
    s.GetHistoryForKey k L = .ok ((L.history k).map Except.ok) := by
  simp [Stub.GetHistoryForKey, hopen, iterate_ok _ hnext]

/-- C6 (amended): every `CreateOrder`, `UpdateOrder` and `DeleteOrder` call on key `k` either
succeeds, issuing exactly one ledger write, which adds exactly one entry to the history
of `k`, or fails and issues none. Hence, with the ledger calls succeeding and the
strings of `o1` and `o2` (two orders with the same key) well-formed UTF-8, after
`CreateOrder` with `o1`, `UpdateOrder` with `o2` and `DeleteOrder` on the empty ledger,
`GetHistoryForKey` returns exactly three entries: a deletion with the empty order, then
`o2`, then `o1`, each with the id and time of its transaction. -/
theorem history_of_lifecycle (s : Stub) (L : Ledger) (k d od i ps pm ot : GoString)
    (ts : Timestamp → GoString) (s1 s2 s3 s4 : Stub) (o1 o2 : Order) :
    (OneWrite k L (CreateOrder s k d od i ps pm ot L) ∧
      OneWrite k L (UpdateOrder s k d od i ps pm ot L) ∧
      OneWrite k L (DeleteOrder s k L)) ∧
    (o2.OrderNo = o1.OrderNo → o1.validUTF8 = true → o2.validUTF8 = true →
      s1.getStateErr o1.OrderNo = none → s1.putStateErr o1.OrderNo (encodeOrder o1) = none →
      s2.getStateErr o1.OrderNo = none → s2.putStateErr o1.OrderNo (encodeOrder o2) = none →
      s3.getStateErr o1.OrderNo = none → s3.delStateErr o1.OrderNo = none →
      s4.historyErr o1.OrderNo = none → (∀ n, s4.historyNextErr n = none) →
      GetHistoryForKey ts s4 o1.OrderNo
        (DeleteOrder s3 o1.OrderNo
          (UpdateOrder s2 o1.OrderNo o2.Date o2.OrderDetail o2.Invoice o2.PackingStatus
            o2.PaymentMethod o2.OrderTrack
            (CreateOrder s1 o1.OrderNo o1.Date o1.OrderDetail o1.Invoice o1.PackingStatus
              o1.PaymentMethod o1.OrderTrack []).2).2).2 =
        .ok [⟨s3.TxID, ts s3.TxTimestamp, true, emptyOrder⟩,
             ⟨s2.TxID, ts s2.TxTimestamp, false, o2⟩,
             ⟨s1.TxID, ts s1.TxTimestamp, false, o1⟩]) := by
  refine ⟨⟨oneWrite_of_effect _ _ _ (createOrder_effect s k d od i ps pm ot L),
    oneWrite_of_effect _ _ _ (updateOrder_effect s k d od i ps pm ot L),
    oneWrite_of_effect _ _ _ (deleteOrder_effect s k L)⟩, ?_⟩
  intro hk hv1 hv2 hg1 hp1 hg2 hp2 hg3 hd3 ho4 hn4
  rw [createOrder_fresh s1 o1 [] rfl hg1 hp1]
  have hu := updateOrder_live s2 o2
    [LogEntry.mk o1.OrderNo (KeyModification.mk s1.TxID (encodeOrder o1) s1.TxTimestamp false)]
    (by rw [hk, Ledger.get_cons_self]; rfl) (by rw [hk]; exact hg2) (by rw [hk]; exact hp2)
  rw [hk] at hu
  rw [hu, deleteOrder_live s3 o1.OrderNo _ (by rw [Ledger.get_cons_self]; rfl) hg3 hd3]
  rw [getHistoryForKey_ok ts s4 o1.OrderNo _ _ (stub_getHistoryForKey_ok s4 _ _ ho4 hn4)]
  · simp [Ledger.history, historyEntry, jsonUnmarshal_valid o1 hv1, jsonUnmarshal_valid o2 hv2]
  · intro m hm hdel
    simp [Ledger.history] at hm
    rcases hm with rfl | rfl | rfl
    · simp at hdel
    · exact ⟨o2, jsonUnmarshal_valid o2 hv2⟩
    · exact ⟨o1, jsonUnmarshal_valid o1 hv1⟩

set_option maxRecDepth 100000 in
/-- An instance of C6: create `order1`, update to `order2`, delete, then read the history. -/
theorem history_of_lifecycle_witness :
    (order2.OrderNo = order1.OrderNo ∧ order1.validUTF8 = true ∧ order2.validUTF8 = true) ∧
    GetHistoryForKey renderTime stub3 order1.OrderNo
        (DeleteOrder stub3 order1.OrderNo
          (UpdateOrder stub2 order1.OrderNo order2.Date order2.OrderDetail order2.Invoice
            order2.PackingStatus order2.PaymentMethod order2.OrderTrack
            (CreateOrder stub1 order1.OrderNo order1.Date order1.OrderDetail order1.Invoice
              order1.PackingStatus order1.PaymentMethod order1.OrderTrack []).2).2).2 =
      .ok [⟨stub3.TxID, renderTime stub3.TxTimestamp, true, emptyOrder⟩,
           ⟨stub2.TxID, renderTime stub2.TxTimestamp, false, order2⟩,
           ⟨stub1.TxID, renderTime stub1.TxTimestamp, false, order1⟩] :=
  ⟨⟨by decide, by decide, by decide⟩,
   (history_of_lifecycle stub1 [] (asc "k1") [] [] [] [] [] [] renderTime stub1 stub2 stub3 stub3
    order1 order2).2 (by decide) (by decide) (by decide) rfl rfl rfl rfl rfl rfl rfl
    (fun _ => rfl)⟩

set_option maxRecDepth 100000 in
/-- C6 as stated fails: with a first order whose date is the byte 0xFF the oldest history
entry holds U+FFFD instead, and when the `PutState` call of the first transaction fails
all three calls fail and the history is empty. -/
theorem history_of_lifecycle_counterexample :
    GetHistoryForKey renderTime stub3 (asc "k1")
        (DeleteOrder stub3 (asc "k1")
          (UpdateOrder stub2 (asc "k1") order2.Date order2.OrderDetail order2.Invoice
            order2.PackingStatus order2.PaymentMethod order2.OrderTrack
            (CreateOrder stub1 (asc "k1") orderFF.Date orderFF.OrderDetail orderFF.Invoice
              orderFF.PackingStatus orderFF.PaymentMethod orderFF.OrderTrack []).2).2).2 =
      .ok [⟨asc "tx3", asc "later", true, emptyOrder⟩,
           ⟨asc "tx2", asc "later", false, order2⟩,
           ⟨asc "tx1", asc "later", false, orderFFRead⟩] ∧
    orderFFRead ≠ orderFF ∧
    GetHistoryForKey renderTime stub3 (asc "k1")
        (DeleteOrder stub3 (asc "k1")
          (UpdateOrder stub2 (asc "k1") order2.Date order2.OrderDetail order2.Invoice
            order2.PackingStatus order2.PaymentMethod order2.OrderTrack
            (CreateOrder stubPutFails (asc "k1") order1.Date order1.OrderDetail order1.Invoice
              order1.PackingStatus order1.PaymentMethod order1.OrderTrack []).2).2).2 =
      .ok [] := by
  decide

theorem reconstructs_historyEntry (ts : Timestamp → GoString) (m : KeyModification)
    (h : m.IsDelete = false → ∃ o, jsonUnmarshal m.Value = .ok o) :
    Reconstructs ts m (historyEntry ts m) := by
  refine ⟨rfl, rfl, rfl, fun hd => by simp [historyEntry, hd], fun hd => ?_⟩
  obtain ⟨o, ho⟩ := h hd
  simp [historyEntry, hd, ho]

/-- C7: for every finite sequence `es` of history entries the ledger iterator yields for a
key, all of whose non-deletion values decode, `GetHistoryForKey` succeeds and returns a
list of the same length in the same order whose i-th result is reconstructed from the
i-th entry: its `TxId` and `IsDelete` flag, the empty order for a deletion, and
otherwise the decoding of the entry's value bytes. -/
theorem history_preserved (ts : Timestamp → GoString) (s : Stub) (k : GoString) (L : Ledger)
    (es : List KeyModification)
    (hyield : s.GetHistoryForKey k L = .ok (es.map Except.ok))
    (hdec : ∀ m ∈ es, m.IsDelete = false → ∃ o, jsonUnmarshal m.Value = .ok o) :
    ∃ rs, GetHistoryForKey ts s k L = .ok rs ∧ List.Forall₂ (Reconstructs ts) es rs := by
  refine ⟨es.map (historyEntry ts), getHistoryForKey_ok ts s k L es hyield hdec, ?_⟩
  rw [List.forall₂_map_right_iff]
  exact List.forall₂_same.mpr (fun m hm => reconstructs_historyEntry ts m (hdec m hm))

theorem Ledger.get_some_mem (L : Ledger) (k : GoString) (v : List Byte)
    (h : L.get k = some v) : ∃ e ∈ L, e.Key = k := by
  unfold Ledger.get at h
  cases hf : L.find? (fun e => e.Key = k) with
  | none => simp [hf] at h
  | some e =>
    exact ⟨e, List.mem_of_find?_eq_some hf, by simpa using List.find?_some hf⟩

theorem Ledger.mem_keys (L : Ledger) (k : GoString) : k ∈ L.keys ↔ ∃ e ∈ L, e.Key = k := by
  unfold Ledger.keys
  rw [(List.perm_insertionSort _ _).mem_iff, List.mem_dedup, List.mem_map]

theorem Ledger.nodup_keys (L : Ledger) : L.keys.Nodup := by
  unfold Ledger.keys
  exact (List.perm_insertionSort _ _).nodup_iff.mpr (List.nodup_dedup _)

theorem Ledger.scan_full (L : Ledger) :
    L.scan [] [] = L.keys.filterMap (fun k => (L.get k).map (fun v => KV.mk k v)) := by
  simp [Ledger.scan]

theorem filterMap_keys (g : GoString → Option (List Byte)) (ks : List GoString) :
    (ks.filterMap (fun k => (g k).map (fun v => KV.mk k v))).map KV.Key =
      ks.filter (fun k => (g k).isSome) := by
  induction ks with
  | nil => rfl
  | cons k ks ih =>
    cases h : g k with
    | none => simp [List.filterMap_cons, h, ih]
    | some v => simp [List.filterMap_cons, h, ih]

theorem Ledger.mem_scan (L : Ledger) (kv : KV) :
    kv ∈ L.scan [] [] ↔ L.get kv.Key = some kv.Value := by
  rw [Ledger.scan_full, List.mem_filterMap]
  constructor
  · rintro ⟨k, _, hk⟩
    cases h : L.get k with
    | none => simp [h] at hk
    | some v =>
      simp [h] at hk
      subst hk
      exact h
  · intro h
    obtain ⟨e, he, hek⟩ := L.get_some_mem _ _ h
    exact ⟨kv.Key, (L.mem_keys _).mpr ⟨e, he, hek⟩, by simp [h]⟩

theorem Ledger.nodup_scan (L : Ledger) : ((L.scan [] []).map KV.Key).Nodup := by
  rw [Ledger.scan_full, filterMap_keys]
  exact L.nodup_keys.filter _

theorem stub_getStateByRange_ok (s : Stub) (L : Ledger) (hopen : s.rangeErr = none)
    (hnext : ∀ i, s.rangeNextErr i = none) :
    s.GetStateByRange [] [] L = .ok ((L.scan [] []).map Except.ok) := by
  simp [Stub.GetStateByRange, hopen, iterate_ok _ hnext]

theorem getAllOrdersLoop_ok (kvs : List KV)
    (hdec : ∀ kv ∈ kvs, ∃ o, jsonUnmarshal kv.Value = .ok o) (acc : List QueryResult) :
    getAllOrdersLoop (kvs.map Except.ok) acc = .ok (acc ++ kvs.map queryResult) := by
  induction kvs generalizing acc with
  | nil => simp [getAllOrdersLoop]
  | cons kv kvs ih =>
    obtain ⟨o, ho⟩ := hdec kv (List.mem_cons_self _ _)
    rw [List.map_cons, getAllOrdersLoop, ho]
    simp only []
    rw [ih (fun x hx => hdec x (List.mem_cons_of_mem _ hx))]
    simp [queryResult, ho]

theorem getAllOrders_ok (s : Stub) (L : Ledger) (hopen : s.rangeErr = none)
    (hnext : ∀ i, s.rangeNextErr i = none)
    (hdec : ∀ k v, L.get k = some v → ∃ o, jsonUnmarshal v = .ok o) :
    GetAllOrders s L = .ok ((L.scan [] []).map queryResult) := by
  simp only [GetAllOrders, stub_getStateByRange_ok s L hopen hnext]
  rw [getAllOrdersLoop_ok _ (fun kv hkv => hdec kv.Key kv.Value ((L.mem_scan kv).mp hkv))]
  rfl

theorem keys_two (a b : GoString) (ma mb : KeyModification) (h : a ≠ b) :
    Ledger.keys [LogEntry.mk b mb, LogEntry.mk a ma] =
      if keyLe b a = true then [b, a] else [a, b] := by
  have hba : b ∉ [a] := by simpa using fun e => h e.symm
  simp [Ledger.keys, List.dedup_cons_of_not_mem hba, List.insertionSort, List.orderedInsert]

/-- C8 (amended): when the range scan can be opened and its `Next()` calls succeed, then for
every ledger state whose live values all decode `GetAllOrders` succeeds and returns one
result per entry of the range scan, in the order of the scan, each with the key of the
entry and the decoding of its value; the keys of the results are the live keys, each
exactly once. In particular after `CreateOrder` of `oa` and of `ob` on the empty ledger,
with different keys, strings of well-formed UTF-8 and the ledger calls succeeding,
the result has exactly two entries: the keys of `oa` and `ob` with the records `oa` and
`ob`, in key order. -/
theorem getAllOrders_complete (s : Stub) (L : Ledger)
    (hopen : s.rangeErr = none) (hnext : ∀ i, s.rangeNextErr i = none)
    (hdec : ∀ k v, L.get k = some v → ∃ o, jsonUnmarshal v = .ok o)
    (sa sb : Stub) (oa ob : Order) :
    (∃ rs, GetAllOrders s L = .ok rs ∧
      List.Forall₂ (fun kv r => r.Key = kv.Key ∧ jsonUnmarshal kv.Value = .ok r.Record)
        (L.scan [] []) rs ∧
      (rs.map QueryResult.Key).Nodup ∧
      (∀ k, k ∈ rs.map QueryResult.Key ↔ (L.get k).isSome = true) ∧
      (∀ r ∈ rs, ∃ v, L.get r.Key = some v ∧ jsonUnmarshal v = .ok r.Record)) ∧
    (oa.OrderNo ≠ ob.OrderNo → oa.validUTF8 = true → ob.validUTF8 = true →
      sa.getStateErr oa.OrderNo = none → sa.putStateErr oa.OrderNo (encodeOrder oa) = none →
      sb.getStateErr ob.OrderNo = none → sb.putStateErr ob.OrderNo (encodeOrder ob) = none →
      GetAllOrders s
        (CreateOrder sb ob.OrderNo ob.Date ob.OrderDetail ob.Invoice ob.PackingStatus
          ob.PaymentMethod ob.OrderTrack
          (CreateOrder sa oa.OrderNo oa.Date oa.OrderDetail oa.Invoice oa.PackingStatus
            oa.PaymentMethod oa.OrderTrack []).2).2 =
        .ok (if keyLe ob.OrderNo oa.OrderNo = true
          then [⟨ob.OrderNo, ob⟩, ⟨oa.OrderNo, oa⟩]
          else [⟨oa.OrderNo, oa⟩, ⟨ob.OrderNo, ob⟩])) := by
  have hq : ∀ kv ∈ L.scan [] [], jsonUnmarshal kv.Value = .ok (queryResult kv).Record := by
    intro kv hkv
    obtain ⟨o, ho⟩ := hdec kv.Key kv.Value ((L.mem_scan kv).mp hkv)
    simp [queryResult, ho]
  have hkeys : ((L.scan [] []).map queryResult).map QueryResult.Key =
      (L.scan [] []).map KV.Key := by
    rw [List.map_map]; rfl
  refine ⟨⟨_, getAllOrders_ok s L hopen hnext hdec, ?_, ?_, ?_, ?_⟩, ?_⟩
  · rw [List.forall₂_map_right_iff]
    exact List.forall₂_same.mpr (fun kv hkv => ⟨rfl, hq kv hkv⟩)
  · rw [hkeys]; exact L.nodup_scan
  · intro k
    rw [hkeys, List.mem_map]
    constructor
    · rintro ⟨kv, hkv, rfl⟩
      rw [(L.mem_scan kv).mp hkv]; rfl
    · intro h
      obtain ⟨v, hv⟩ := Option.isSome_iff_exists.mp h
      exact ⟨⟨k, v⟩, (L.mem_scan _).mpr hv, rfl⟩
  · intro r hr
    obtain ⟨kv, hkv, rfl⟩ := List.mem_map.mp hr
    exact ⟨kv.Value, (L.mem_scan kv).mp hkv, hq kv hkv⟩
  · intro hne hva hvb hga hpa hgb hpb
    rw [createOrder_fresh sa oa [] rfl hga hpa,
      createOrder_fresh sb ob _ (by rw [Ledger.get_cons_of_ne _ _ _ _ hne]; rfl) hgb hpb]
    have hgetb : ∀ (m1 m2 : KeyModification),
        Ledger.get [LogEntry.mk ob.OrderNo m1, LogEntry.mk oa.OrderNo m2] ob.OrderNo =
          if m1.IsDelete then none else some m1.Value := fun m1 m2 =>
      Ledger.get_cons_self _ _ _
    have hgeta : ∀ (m1 m2 : KeyModification),
        Ledger.get [LogEntry.mk ob.OrderNo m1, LogEntry.mk oa.OrderNo m2] oa.OrderNo =
          if m2.IsDelete then none else some m2.Value := fun m1 m2 => by
      rw [Ledger.get_cons_of_ne _ _ _ _ (Ne.symm hne), Ledger.get_cons_self]
    simp only [GetAllOrders, Stub.GetStateByRange, hopen, iterate_ok _ hnext, Ledger.scan_full,
      keys_two _ _ _ _ hne]
    split <;>
      simp [hgeta, hgetb, getAllOrdersLoop, jsonUnmarshal_valid oa hva,
        jsonUnmarshal_valid ob hvb]

set_option maxRecDepth 100000 in
theorem ledger1_decodes (k : GoString) (v : List Byte) (h : Ledger.get ledger1 k = some v) :
    ∃ o, jsonUnmarshal v = .ok o := by
  have hl : ledger1 = [LogEntry.mk (asc "k1")
      (KeyModification.mk (asc "tx1") (encodeOrder order1) ⟨1, 0⟩ false)] := by
    decide
  rw [hl] at h
  by_cases hk : asc "k1" = k
  · subst hk
    rw [Ledger.get_cons_self] at h
    simp at h
    subst h
    exact ⟨order1, jsonUnmarshal_valid order1 (by decide)⟩
  · rw [Ledger.get_cons_of_ne _ _ _ _ hk] at h
    simp [Ledger.get] at h

set_option maxRecDepth 100000 in
/-- An instance of C8: the ledger with `order1`, and the ledger with `order1` and `orderB`. -/
theorem getAllOrders_complete_witness :
    (order1.OrderNo ≠ orderB.OrderNo ∧ order1.validUTF8 = true ∧ orderB.validUTF8 = true) ∧
    (∃ rs, GetAllOrders stub3 ledger1 = .ok rs ∧
      (rs.map QueryResult.Key).Nodup ∧
      (∀ k, k ∈ rs.map QueryResult.Key ↔ (Ledger.get ledger1 k).isSome = true)) ∧
    GetAllOrders stub3
        (CreateOrder stub2 orderB.OrderNo orderB.Date orderB.OrderDetail orderB.Invoice
          orderB.PackingStatus orderB.PaymentMethod orderB.OrderTrack
          (CreateOrder stub1 order1.OrderNo order1.Date order1.OrderDetail order1.Invoice
            order1.PackingStatus order1.PaymentMethod order1.OrderTrack []).2).2 =
      .ok [⟨order1.OrderNo, order1⟩, ⟨orderB.OrderNo, orderB⟩] :=
  have h := getAllOrders_complete stub3 ledger1 rfl (fun _ => rfl) ledger1_decodes stub1 stub2
    order1 orderB
  ⟨⟨by decide, by decide, by decide⟩,
   (let ⟨rs, h1, _, h3, h4, _⟩ := h.1; ⟨rs, h1, h3, h4⟩),
   h.2 (by decide) (by decide) (by decide) rfl rfl rfl rfl⟩

set_option maxRecDepth 100000 in
/-- C8 as stated fails: `GetAllOrders` returns the error of a range scan that cannot be
opened although every live value decodes, and an order stored with the date 0xFF is
listed with the date U+FFFD. -/
theorem getAllOrders_complete_counterexample :
    (GetAllOrders stubRangeFails ledger1 = .error (.ledger (asc "io")) ∧
      ∀ k v, Ledger.get ledger1 k = some v → ∃ o, jsonUnmarshal v = .ok o) ∧
    (GetAllOrders stub3
        (CreateOrder stub2 orderB.OrderNo orderB.Date orderB.OrderDetail orderB.Invoice
          orderB.PackingStatus orderB.PaymentMethod orderB.OrderTrack
          (CreateOrder stub1 orderFF.OrderNo orderFF.Date orderFF.OrderDetail orderFF.Invoice
            orderFF.PackingStatus orderFF.PaymentMethod orderFF.OrderTrack []).2).2 =
        .ok [⟨orderFF.OrderNo, orderFFRead⟩, ⟨orderB.OrderNo, orderB⟩] ∧
      orderFFRead ≠ orderFF) :=
  ⟨⟨by decide, ledger1_decodes⟩, by decide⟩

theorem mem_iterate {α : Type} (f : Nat → Option GoString) (xs : List α) (x : α) (hx : x ∈ xs)
    (i : Nat) : Except.ok x ∈ iterate f i xs ∨ ∃ e, Except.error e ∈ iterate f i xs := by
  induction xs generalizing i with
  | nil => cases hx
  | cons y ys ih =>
    rw [iterate]
    cases hf : f i with
    | some e => exact Or.inr ⟨e, by simp⟩
    | none =>
      rcases List.mem_cons.mp hx with rfl | h
      · exact Or.inl (by simp)
      · rcases ih h (i + 1) with h1 | ⟨e, he⟩
        · exact Or.inl (List.mem_cons_of_mem _ h1)
        · exact Or.inr ⟨e, List.mem_cons_of_mem _ he⟩

theorem getAllOrdersLoop_ok_inv (items : List (Except GoString KV)) (acc rs : List QueryResult)
    (h : getAllOrdersLoop items acc = .ok rs) :
    ∀ item ∈ items, ∃ kv o, item = .ok kv ∧ jsonUnmarshal kv.Value = .ok o := by
  induction items generalizing acc with
  | nil => intro item hi; cases hi
  | cons it items ih =>
    cases it with
    | error e => simp [getAllOrdersLoop] at h
    | ok kv =>
      rw [getAllOrdersLoop] at h
      cases hj : jsonUnmarshal kv.Value with
      | error e => simp [hj] at h
      | ok o =>
        simp only [hj] at h
        intro item hi
        rcases List.mem_cons.mp hi with rfl | hi
        · exact ⟨kv, o, rfl, hj⟩
        · exact ih _ h item hi

theorem getHistoryLoop_ok_inv (ts : Timestamp → GoString)
    (items : List (Except GoString KeyModification)) (acc rs : List HistoryQueryResult)
    (h : getHistoryLoop ts items acc = .ok rs) :
    ∀ item ∈ items, ∃ m, item = .ok m ∧
      (m.IsDelete = false → ∃ o, jsonUnmarshal m.Value = .ok o) := by
  induction items generalizing acc with
  | nil => intro item hi; cases hi
  | cons it items ih =>
    cases it with
    | error e => simp [getHistoryLoop] at h
    | ok m =>
      rw [getHistoryLoop] at h
      by_cases hd : m.IsDelete = true
      · rw [if_pos hd] at h
        intro item hi
        rcases List.mem_cons.mp hi with rfl | hi
        · exact ⟨m, rfl, fun hf => by rw [hd] at hf; cases hf⟩
        · exact ih _ h item hi
      · rw [if_neg hd] at h
        cases hj : jsonUnmarshal m.Value with
        | error e => simp [hj] at h
        | ok o =>
          simp only [hj] at h
          intro item hi
          rcases List.mem_cons.mp hi with rfl | hi
          · exact ⟨m, rfl, fun _ => ⟨o, hj⟩⟩
          · exact ih _ h item hi

/-- C9: in every ledger state in which the bytes stored under some live key fail to decode
as an `Order`, `GetAllOrders` returns an error, and with it no result list, whatever else
the ledger holds and whether or not the ledger calls succeed; likewise
`GetHistoryForKey` returns an error and no list when the value of some non-deletion
entry of the key's history fails to decode. -/
theorem corrupt_entry_fails (ts : Timestamp → GoString) (s : Stub) (L : Ledger)
    (k : GoString) :
    ((∃ j v e, L.get j = some v ∧ jsonUnmarshal v = .error e) →
      ∃ err, GetAllOrders s L = .error err) ∧
    ((∃ m ∈ L.history k, m.IsDelete = false ∧ ∃ e, jsonUnmarshal m.Value = .error e) →
      ∃ err, GetHistoryForKey ts s k L = .error err) := by
  constructor
  · rintro ⟨j, v, e, hget, hbad⟩
    cases hr : GetAllOrders s L with
    | error err => exact ⟨err, rfl⟩
    | ok rs =>
      exfalso
      unfold GetAllOrders Stub.GetStateByRange at hr
      cases ho : s.rangeErr with
      | some e1 => simp [ho] at hr
      | none =>
        simp only [ho] at hr
        have hinv := getAllOrdersLoop_ok_inv _ _ _ hr
        have hmem : (⟨j, v⟩ : KV) ∈ L.scan [] [] := (L.mem_scan _).mpr hget
        rcases mem_iterate s.rangeNextErr _ _ hmem 0 with h1 | ⟨e1, h1⟩
        · obtain ⟨kv, o, hkv, hok⟩ := hinv _ h1
          cases hkv
          rw [hbad] at hok; cases hok
        · obtain ⟨kv, o, hkv, _⟩ := hinv _ h1
          cases hkv
  · rintro ⟨m, hm, hdel, e, hbad⟩
    cases hr : GetHistoryForKey ts s k L with
    | error err => exact ⟨err, rfl⟩
    | ok rs =>
      exfalso
      unfold GetHistoryForKey Stub.GetHistoryForKey at hr
      cases ho : s.historyErr k with
      | some e1 => simp [ho] at hr
      | none =>
        simp only [ho] at hr
        have hinv := getHistoryLoop_ok_inv ts _ _ _ hr
        rcases mem_iterate s.historyNextErr _ _ hm 0 with h1 | ⟨e1, h1⟩
        · obtain ⟨m1, hm1, hok⟩ := hinv _ h1
          cases hm1
          obtain ⟨o, ho1⟩ := hok hdel
          rw [hbad] at ho1; cases ho1
        · obtain ⟨m1, hm1, _⟩ := hinv _ h1
          cases hm1

set_option maxRecDepth 100000 in
/-- An instance of C9: the ledger `ledgerCorrupt`, whose key `k2` holds `oops`. -/
theorem corrupt_entry_fails_witness :
    (Ledger.get ledgerCorrupt (asc "k2") = some (asc "oops") ∧
      jsonUnmarshal (asc "oops") = .error .malformed) ∧
    (∃ err, GetAllOrders stub1 ledgerCorrupt = .error err) ∧
    (∃ err, GetHistoryForKey renderTime stub1 (asc "k2") ledgerCorrupt = .error err) :=
  have h := corrupt_entry_fails renderTime stub1 ledgerCorrupt (asc "k2")
  ⟨⟨by decide, by decide⟩,
   h.1 ⟨asc "k2", asc "oops", .malformed, by decide, by decide⟩,
   h.2 ⟨KeyModification.mk (asc "tx2") (asc "oops") ⟨2, 0⟩ false, by decide, rfl,
    .malformed, by decide⟩⟩

/-- C10 (amended): for every `Order` value encoding with the record encoding of `CreateOrder`
and `UpdateOrder` never fails, and when its seven strings are well-formed UTF-8, decoding
the result with the decoding of `ReadOrder` succeeds and returns an `Order` equal to it in
all seven fields. -/
theorem marshal_unmarshal (o : Order) :
    (∃ data, jsonMarshal o = .ok data) ∧
    (o.validUTF8 = true → ∃ data, jsonMarshal o = .ok data ∧ jsonUnmarshal data = .ok o) :=
  ⟨⟨encodeOrder o, rfl⟩, fun hv => ⟨encodeOrder o, rfl, jsonUnmarshal_valid o hv⟩⟩

set_option maxRecDepth 100000 in
/-- An instance of C10: `order1` round-trips. -/
theorem marshal_unmarshal_witness :
    order1.validUTF8 = true ∧
    ∃ data, jsonMarshal order1 = .ok data ∧ jsonUnmarshal data = .ok order1 :=
  ⟨by decide, (marshal_unmarshal order1).2 (by decide)⟩

set_option maxRecDepth 100000 in
/-- C10 as stated fails: the date 0xFF of `orderFF` is decoded as U+FFFD. -/
theorem marshal_unmarshal_counterexample :
    jsonMarshal orderFF = .ok (encodeOrder orderFF) ∧
    jsonUnmarshal (encodeOrder orderFF) = .ok orderFFRead ∧
    orderFFRead ≠ orderFF := by
  decide

set_option maxRecDepth 100000 in
/-- An instance of C7: the history of `k1` after `order1` was created and deleted. -/
theorem history_preserved_witness :
    Stub.GetHistoryForKey stub3 (asc "k1") ledger1Deleted =
      .ok ((Ledger.history ledger1Deleted (asc "k1")).map Except.ok) ∧
    ∃ rs, GetHistoryForKey renderTime stub3 (asc "k1") ledger1Deleted = .ok rs ∧
      List.Forall₂ (Reconstructs renderTime) (Ledger.history ledger1Deleted (asc "k1")) rs :=
  ⟨by decide,
   history_preserved renderTime stub3 (asc "k1") ledger1Deleted
    (Ledger.history ledger1Deleted (asc "k1")) (by decide) (by
      intro m hm hdel
      have hh : Ledger.history ledger1Deleted (asc "k1") =
          [KeyModification.mk (asc "tx2") [] ⟨2, 0⟩ true,
           KeyModification.mk (asc "tx1") (encodeOrder order1) ⟨1, 0⟩ false] := by decide
      rw [hh] at hm
      simp at hm
      rcases hm with rfl | rfl
      · simp at hdel
      · exact ⟨order1, jsonUnmarshal_valid order1 (by decide)⟩)⟩

/-! ## Lemmas: coercion to well-formed UTF-8 and reachable ledger states -/

theorem coerceUTF8Loop_ascii (n : Nat) (b : Byte) (t : List Byte) (hb : b.val < 0x80) :
    coerceUTF8Loop (n + 1) (b :: t) = b :: coerceUTF8Loop n t := by
  rw [coerceUTF8Loop, decodeRune_ascii b t hb]
  simp only [RuneError]
  rw [if_neg (by omega)]; rfl

theorem unquoteLoop_coerce (n : Nat) (s : List Byte) (m : Nat)
    (hm : (appendStringLoop n s).length ≤ m) :
    unquoteLoop m (appendStringLoop n s) = some (coerceUTF8Loop n s) := by
  induction n generalizing s m with
  | zero =>
    cases s with
    | nil => simp [appendStringLoop, unquoteLoop_nil, coerceUTF8Loop]
    | cons b s => simp [appendStringLoop, unquoteLoop_nil, coerceUTF8Loop]
  | succ n ih =>
    cases s with
    | nil => simp [appendStringLoop, unquoteLoop_nil, coerceUTF8Loop]
    | cons b s =>
      rw [appendStringLoop] at hm ⊢
      by_cases hb : b.val < 0x80
      · rw [if_pos hb] at hm ⊢
        rw [coerceUTF8Loop_ascii n b s hb]
        by_cases hs : htmlSafe b.val = true
        · rw [if_pos hs] at hm ⊢
          simp only [htmlSafe, Bool.and_eq_true, decide_eq_true_eq, bne_iff_ne, ne_eq] at hs
          simp only [List.cons_append, List.nil_append, List.length_cons] at hm ⊢
          obtain ⟨m, rfl⟩ : ∃ k, m = k + 1 := ⟨m - 1, by omega⟩
          rw [unquoteLoop_plain _ _ _ (by omega) (by omega) (by omega) hb,
            ih s m (by omega)]
          rfl
        · rw [if_neg hs] at hm ⊢
          have hl : 1 ≤ (escapeByte b).length := by
            unfold escapeByte; split_ifs <;> simp
          rw [List.length_append] at hm
          obtain ⟨m, rfl⟩ : ∃ k, m = k + 1 := ⟨m - 1, by omega⟩
          rw [unquoteLoop_escapeByte _ _ _ hb, ih s m (by omega)]
          rfl
      · rw [if_neg hb] at hm ⊢
        rw [coerceUTF8Loop]
        rcases hd : decodeRune (b :: s) with ⟨c, size⟩
        simp only [hd] at hm ⊢
        by_cases hbad : c = RuneError ∧ size = 1
        · rw [if_pos hbad] at hm ⊢
          rw [if_pos hbad]
          simp only [List.cons_append, List.nil_append, List.length_cons] at hm ⊢
          obtain ⟨m, rfl⟩ : ∃ k, m = k + 1 := ⟨m - 1, by omega⟩
          have hg : getu4 (0x5C :: 0x75 :: 0x66 :: 0x66 :: 0x66 :: 0x64 ::
              appendStringLoop n s) = some 0xFFFD := rfl
          rw [unquoteLoop_u m _ _ _ _ _ 0xFFFD hg rfl, ih s m (by omega)]
          rfl
        · rw [if_neg hbad] at hm ⊢
          rw [if_neg hbad]
          have sh := decodeRune_shape b s hb c size hd hbad
          by_cases h28 : c = 0x2028 ∨ c = 0x2029
          · rw [if_pos h28] at hm ⊢
            simp only [List.cons_append, List.nil_append, List.length_cons] at hm ⊢
            obtain ⟨m, rfl⟩ : ∃ k, m = k + 1 := ⟨m - 1, by omega⟩
            have hg : getu4 (0x5C :: 0x75 :: 0x32 :: 0x30 :: 0x32 :: hex (c % 16) ::
                appendStringLoop n (List.drop size (b :: s))) = some c := by
              rcases h28 with rfl | rfl <;> rfl
            rw [unquoteLoop_u m _ _ _ _ _ c hg (by rcases h28 with rfl | rfl <;> rfl),
              ih _ m (by omega), sh.encode]
            simp
          · rw [if_neg h28] at hm ⊢
            rw [List.length_append] at hm
            have hsz := sh.size_pos
            have hl : (List.take size (b :: s)).length = size := by
              rw [List.length_take]; omega
            obtain ⟨m, rfl⟩ : ∃ k, m = k + 1 := ⟨m - 1, by omega⟩
            rw [unquoteLoop_high m sh, ih _ m (by omega)]
            simp

theorem coerceUTF8Loop_valid (n : Nat) (s : List Byte) (hv : utf8ValidLoop n s = true) :
    coerceUTF8Loop n s = s := by
  induction n generalizing s with
  | zero =>
    cases s with
    | nil => rfl
    | cons b s => simp [utf8ValidLoop] at hv
  | succ n ih =>
    cases s with
    | nil => rfl
    | cons b s =>
      rw [utf8ValidLoop] at hv
      rw [coerceUTF8Loop]
      rcases hd : decodeRune (b :: s) with ⟨c, size⟩
      simp only [hd] at hv ⊢
      by_cases hbad : c = RuneError ∧ size = 1
      · rw [if_pos hbad] at hv; exact absurd hv (by simp)
      · rw [if_neg hbad] at hv ⊢
        rw [ih _ hv, List.take_append_drop]

theorem coerceUTF8_valid (s : GoString) (h : utf8Valid s = true) : coerceUTF8 s = s :=
  coerceUTF8Loop_valid _ s h

theorem unquote_escaped_coerce (s : GoString) : unquote (escaped s) = some (coerceUTF8 s) :=
  unquoteLoop_coerce _ s _ (Nat.le_refl _)

theorem decodeMembers_order_coerce (o : Order) :
    decodeMembers (orderMembers o) (emptyOrder, false) = some (o.coerced, false) := by
  have k1 : unquote (asc "orderNo") = some (asc "orderNo") := by decide
  have k2 : unquote (asc "date") = some (asc "date") := by decide
  have k3 : unquote (asc "orderDetail") = some (asc "orderDetail") := by decide
  have k4 : unquote (asc "invoice") = some (asc "invoice") := by decide
  have k5 : unquote (asc "packingStatus") = some (asc "packingStatus") := by decide
  have k6 : unquote (asc "paymentMethod") = some (asc "paymentMethod") := by decide
  have k7 : unquote (asc "orderTrack") = some (asc "orderTrack") := by decide
  have l1 : lookupField (asc "orderNo") = some (fun o s => { o with OrderNo := s }) := rfl
  have l2 : lookupField (asc "date") = some (fun o s => { o with Date := s }) := rfl
  have l3 : lookupField (asc "orderDetail") = some (fun o s => { o with OrderDetail := s }) := rfl
  have l4 : lookupField (asc "invoice") = some (fun o s => { o with Invoice := s }) := rfl
  have l5 : lookupField (asc "packingStatus") = some (fun o s => { o with PackingStatus := s }) :=
    rfl
  have l6 : lookupField (asc "paymentMethod") = some (fun o s => { o with PaymentMethod := s }) :=
    rfl
  have l7 : lookupField (asc "orderTrack") = some (fun o s => { o with OrderTrack := s }) := rfl
  simp only [orderMembers, decodeMembers, k1, k2, k3, k4, k5, k6, k7, l1, l2, l3, l4, l5, l6, l7,
    unquote_escaped_coerce, emptyOrder, Order.coerced]

theorem jsonUnmarshal_coerced (o : Order) : jsonUnmarshal (encodeOrder o) = .ok o.coerced := by
  simp only [jsonUnmarshal, parseJSON_encodeOrder, decodeMembers_order_coerce o]
  rfl

theorem wellFormed_put (s : Stub) (o : Order) (L L1 : Ledger) (h : WellFormed L)
    (hp : s.PutState o.OrderNo (encodeOrder o) L = .ok L1) : WellFormed L1 := by
  unfold Stub.PutState at hp
  cases hf : s.putStateErr o.OrderNo (encodeOrder o) with
  | some e => simp [hf] at hp
  | none =>
    simp only [hf, Except.ok.injEq] at hp
    subst hp
    exact ⟨by simpa using ⟨o, rfl, rfl⟩, h⟩

theorem wellFormed_del (s : Stub) (k : GoString) (L L1 : Ledger) (h : WellFormed L)
    (hlive : (Ledger.get L k).isSome = true) (hp : s.DelState k L = .ok L1) :
    WellFormed L1 := by
  unfold Stub.DelState at hp
  cases hf : s.delStateErr k with
  | some e => simp [hf] at hp
  | none =>
    simp only [hf, Except.ok.injEq] at hp
    subst hp
    exact ⟨by simpa using hlive, h⟩

theorem wellFormed_create (s : Stub) (k d od i ps pm ot : GoString) (L : Ledger)
    (h : WellFormed L) : WellFormed (CreateOrder s k d od i ps pm ot L).2 := by
  unfold CreateOrder
  cases OrderExists s k L with
  | error e => exact h
  | ok found =>
    cases found with
    | true => exact h
    | false =>
      simp only [jsonMarshal]
      cases hp : s.PutState k (encodeOrder ⟨k, d, od, i, ps, pm, ot⟩) L with
      | error e => exact h
      | ok L1 => exact wellFormed_put s ⟨k, d, od, i, ps, pm, ot⟩ L L1 h hp

theorem wellFormed_update (s : Stub) (k d od i ps pm ot : GoString) (L : Ledger)
    (h : WellFormed L) : WellFormed (UpdateOrder s k d od i ps pm ot L).2 := by
  unfold UpdateOrder
  cases OrderExists s k L with
  | error e => exact h
  | ok found =>
    cases found with
    | false => exact h
    | true =>
      simp only [jsonMarshal]
      cases hp : s.PutState k (encodeOrder ⟨k, d, od, i, ps, pm, ot⟩) L with
      | error e => exact h
      | ok L1 => exact wellFormed_put s ⟨k, d, od, i, ps, pm, ot⟩ L L1 h hp

theorem wellFormed_delete (s : Stub) (k : GoString) (L : Ledger) (h : WellFormed L) :
    WellFormed (DeleteOrder s k L).2 := by
  unfold DeleteOrder OrderExists Stub.GetState
  cases s.getStateErr k with
  | some e => exact h
  | none =>
    cases hf : (Ledger.get L k).isSome with
    | false => simpa [hf] using h
    | true =>
      simp only [hf]
      cases hp : s.DelState k L with
      | error e => exact h
      | ok L1 => exact wellFormed_del s k L L1 h hf hp

theorem wellFormed_initLoop (s : Stub) (os : List Order) (L : Ledger) (h : WellFormed L) :
    WellFormed (initLedgerLoop s os L).2 := by
  induction os generalizing L with
  | nil => exact h
  | cons o os ih =>
    rw [initLedgerLoop]
    simp only [jsonMarshal]
    cases hp : s.PutState o.OrderNo (encodeOrder o) L with
    | error e => exact h
    | ok L1 => exact ih L1 (wellFormed_put s o L L1 h hp)

theorem wellFormed_run (s : Stub) (c : Call) (L : Ledger) (h : WellFormed L) :
    WellFormed (c.run s L).2 := by
  cases c with
  | initLedger => exact wellFormed_initLoop s _ L h
  | createOrder k d od i ps pm ot => exact wellFormed_create s k d od i ps pm ot L h
  | updateOrder k d od i ps pm ot => exact wellFormed_update s k d od i ps pm ot L h
  | deleteOrder k => exact wellFormed_delete s k L h

theorem wellFormed_runCalls (calls : List (Stub × Call)) (L : Ledger) (h : WellFormed L) :
    WellFormed (runCalls calls L) := by
  induction calls generalizing L with
  | nil => exact h
  | cons sc calls ih =>
    obtain ⟨s, c⟩ := sc
    exact ih _ (wellFormed_run s c L h)

theorem wellFormed_mem {L : Ledger} (h : WellFormed L) (e : LogEntry) (he : e ∈ L)
    (hd : e.Mod.IsDelete = false) : ∃ o : Order, o.OrderNo = e.Key ∧ e.Mod.Value = encodeOrder o := by
  induction L with
  | nil => cases he
  | cons x L ih =>
    rcases List.mem_cons.mp he with rfl | he
    · have := h.1
      rw [hd] at this
      simpa using this
    · exact ih h.2 he

theorem Ledger.get_some_entry (L : Ledger) (k : GoString) (v : List Byte)
    (h : L.get k = some v) :
    ∃ e ∈ L, e.Key = k ∧ e.Mod.IsDelete = false ∧ e.Mod.Value = v := by
  unfold Ledger.get at h
  cases hf : L.find? (fun e => e.Key = k) with
  | none => simp [hf] at h
  | some e =>
    simp only [hf] at h
    cases hd : e.Mod.IsDelete with
    | true => simp [hd] at h
    | false =>
      simp only [hd, Bool.false_eq_true, if_false, Option.some.injEq] at h
      exact ⟨e, List.mem_of_find?_eq_some hf, by simpa using List.find?_some hf, hd, h⟩

theorem wellFormed_get {L : Ledger} (h : WellFormed L) (k : GoString) (v : List Byte)
    (hg : L.get k = some v) : ∃ o : Order, o.OrderNo = k ∧ v = encodeOrder o := by
  obtain ⟨e, he, hk, hd, hv⟩ := L.get_some_entry k v hg
  obtain ⟨o, ho, hval⟩ := wellFormed_mem h e he hd
  exact ⟨o, ho.trans hk, hv.symm.trans hval⟩

theorem Ledger.history_head (L : Ledger) (k : GoString)
    (h : (L.get k).isSome = true) :
    ∃ m rest, L.history k = m :: rest ∧ m.IsDelete = false := by
  induction L with
  | nil => simp [Ledger.get] at h
  | cons e L ih =>
    obtain ⟨ek, em⟩ := e
    by_cases hk : ek = k
    · subst hk
      rw [Ledger.get_cons_self] at h
      rw [Ledger.history_cons_self]
      refine ⟨em, _, rfl, ?_⟩
      cases hd : em.IsDelete with
      | false => rfl
      | true => simp [hd] at h
    · rw [Ledger.get_cons_of_ne _ _ _ _ hk] at h
      rw [Ledger.history_cons_of_ne _ _ _ _ hk]
      exact ih h

theorem wellFormed_history {L : Ledger} (h : WellFormed L) (k : GoString) (i : Nat)
    (m : KeyModification) (hi : (L.history k)[i]? = some m) (hd : m.IsDelete = true) :
    ∃ m2, (L.history k)[i + 1]? = some m2 ∧ m2.IsDelete = false := by
  induction L generalizing i with
  | nil => simp [Ledger.history] at hi
  | cons e L ih =>
    obtain ⟨ek, em⟩ := e
    by_cases hk : ek = k
    · subst hk
      rw [Ledger.history_cons_self] at hi ⊢
      cases i with
      | zero =>
        simp only [List.getElem?_cons_zero, Option.some.injEq] at hi
        subst hi
        have h1 := h.1
        simp only [hd, if_true] at h1
        obtain ⟨m0, rest, hh, hm0⟩ := Ledger.history_head L ek h1
        exact ⟨m0, by simp [hh], hm0⟩
      | succ j =>
        simp only [List.getElem?_cons_succ] at hi ⊢
        exact ih h.2 j hi
    · rw [Ledger.history_cons_of_ne _ _ _ _ hk] at hi ⊢
      exact ih h.2 i hi

theorem iterate_all_ok {α : Type} (f : Nat → Option GoString) (i : Nat) (xs : List α)
    (h : ∀ item ∈ iterate f i xs, ∃ x, item = Except.ok x) :
    iterate f i xs = xs.map Except.ok := by
  induction xs generalizing i with
  | nil => rfl
  | cons x xs ih =>
    rw [iterate] at h ⊢
    cases hf : f i with
    | some e =>
      obtain ⟨y, hy⟩ := h _ (List.mem_cons_self _ _)
      simp [hf] at hy
    | none =>
      rw [List.map_cons, ih (i + 1) (fun item hi => h item (List.mem_cons_of_mem _ hi))]

theorem getHistoryForKey_inv (ts : Timestamp → GoString) (s : Stub) (k : GoString)
    (L : Ledger) (rs : List HistoryQueryResult) (h : GetHistoryForKey ts s k L = .ok rs) :
    rs = (L.history k).map (historyEntry ts) := by
  unfold GetHistoryForKey Stub.GetHistoryForKey at h
  cases ho : s.historyErr k with
  | some e => simp [ho] at h
  | none =>
    simp only [ho] at h
    have hinv := getHistoryLoop_ok_inv ts _ [] rs h
    have hit := iterate_all_ok s.historyNextErr 0 (L.history k)
      (fun item hi => (hinv item hi).imp fun m hm => hm.1)
    rw [hit] at h hinv
    rw [getHistoryLoop_ok ts (L.history k) (fun m hm hdel => by
      obtain ⟨m2, h2, h3⟩ := hinv (.ok m) (List.mem_map_of_mem _ hm)
      cases h2
      exact h3 hdel)] at h
    simpa using h.symm

theorem getAllOrders_inv (s : Stub) (L : Ledger) (rs : List QueryResult)
    (h : GetAllOrders s L = .ok rs) : rs = (L.scan [] []).map queryResult := by
  unfold GetAllOrders Stub.GetStateByRange at h
  cases ho : s.rangeErr with
  | some e => simp [ho] at h
  | none =>
    simp only [ho] at h
    have hinv := getAllOrdersLoop_ok_inv _ [] rs h
    have hit := iterate_all_ok s.rangeNextErr 0 (L.scan [] [])
      (fun item hi => by
        obtain ⟨kv, _, h1, _⟩ := hinv item hi
        exact ⟨kv, h1⟩)
    rw [hit] at h hinv
    rw [getAllOrdersLoop_ok (L.scan [] []) (fun kv hkv => by
      obtain ⟨kv2, o, h2, h3⟩ := hinv (.ok kv) (List.mem_map_of_mem _ hkv)
      cases h2
      exact ⟨o, h3⟩)] at h
    simpa using h.symm

theorem readOrder_ok_inv (s : Stub) (k : GoString) (L : Ledger) (o : Order)
    (h : ReadOrder s k L = .ok o) : ∃ v, L.get k = some v ∧ jsonUnmarshal v = .ok o := by
  unfold ReadOrder Stub.GetState at h
  cases hg : s.getStateErr k with
  | some e => simp [hg] at h
  | none =>
    simp only [hg] at h
    cases hv : L.get k with
    | none => simp [hv] at h
    | some v =>
      simp only [hv] at h
      cases hj : jsonUnmarshal v with
      | error e => simp [hj] at h
      | ok o2 =>
        simp only [hj, Except.ok.injEq] at h
        exact ⟨v, rfl, by rw [← h]; exact hj⟩

theorem updateOrder_stores (s : Stub) (k d od i ps pm ot : GoString) (L : Ledger) :
    (UpdateOrder s k d od i ps pm ot L).2 = L ∨
    (UpdateOrder s k d od i ps pm ot L).2 =
      LogEntry.mk k (KeyModification.mk s.TxID (encodeOrder ⟨k, d, od, i, ps, pm, ot⟩)
        s.TxTimestamp false) :: L := by
  unfold UpdateOrder
  cases OrderExists s k L with
  | error e => exact Or.inl rfl
  | ok found =>
    cases found with
    | false => exact Or.inl rfl
    | true =>
      simp only [jsonMarshal, Stub.PutState]
      cases s.putStateErr k _ with
      | some e => exact Or.inl rfl
      | none => exact Or.inr rfl

theorem wellFormed_decodes {L : Ledger} (h : WellFormed L) (k : GoString) (v : List Byte)
    (hg : L.get k = some v) :
    ∃ o : Order, o.OrderNo = k ∧ v = encodeOrder o ∧ jsonUnmarshal v = .ok o.coerced := by
  obtain ⟨o, ho, hv⟩ := wellFormed_get h k v hg
  exact ⟨o, ho, hv, by rw [hv]; exact jsonUnmarshal_coerced o⟩

theorem wellFormed_reachable (calls : List (Stub × Call)) : WellFormed (runCalls calls []) :=
  wellFormed_runCalls calls [] trivial

theorem mem_history (L : Ledger) (k : GoString) (m : KeyModification)
    (h : m ∈ L.history k) : ∃ e ∈ L, e.Mod = m := by
  unfold Ledger.history at h
  obtain ⟨e, he, rfl⟩ := List.mem_map.mp h
  exact ⟨e, (List.mem_filter.mp he).1, rfl⟩

/-! ## Lemmas: the second copy and the frame -/

theorem orderExists_copies (s : Stub) (k : GoString) (L : Ledger) :
    (External.OrderExists s k L).mapError External.Err.kind =
      (OrderManagement.OrderExists s k L).mapError Err.kind := by
  unfold External.OrderExists OrderManagement.OrderExists
  cases s.GetState k L <;> rfl

theorem getAllOrdersLoop_copies (items : List (Except GoString KV))
    (acc : List QueryResult) :
    (External.getAllOrdersLoop items acc).mapError External.Err.kind =
      (OrderManagement.getAllOrdersLoop items acc).mapError Err.kind := by
  induction items generalizing acc with
  | nil => rfl
  | cons it items ih =>
    cases it with
    | error e => rfl
    | ok kv =>
      rw [External.getAllOrdersLoop, OrderManagement.getAllOrdersLoop]
      cases jsonUnmarshal kv.Value with
      | error e => rfl
      | ok o => exact ih _

theorem effect_get (k j : GoString) (L : Ledger) (r : Except Err Unit × Ledger) (h : j ≠ k)
    (he : ((∃ e, r.1 = .error e) ∧ r.2 = L) ∨ (r.1 = .ok () ∧ ∃ m, r.2 = LogEntry.mk k m :: L)) :
    Ledger.get r.2 j = Ledger.get L j ∧ Ledger.history r.2 j = Ledger.history L j := by
  rcases he with ⟨_, h2⟩ | ⟨_, m, hm⟩
  · rw [h2]; exact ⟨rfl, rfl⟩
  · rw [hm]
    exact ⟨Ledger.get_cons_of_ne _ _ _ _ (Ne.symm h), Ledger.history_cons_of_ne _ _ _ _ (Ne.symm h)⟩

theorem orderExists_congr (s : Stub) (j : GoString) (L1 L2 : Ledger)
    (h : Ledger.get L1 j = Ledger.get L2 j) : OrderExists s j L1 = OrderExists s j L2 := by
  simp only [OrderExists, Stub.GetState, h]

theorem readOrder_congr (s : Stub) (j : GoString) (L1 L2 : Ledger)
    (h : Ledger.get L1 j = Ledger.get L2 j) : ReadOrder s j L1 = ReadOrder s j L2 := by
  simp only [ReadOrder, Stub.GetState, h]

theorem getHistoryForKey_congr (ts : Timestamp → GoString) (s : Stub) (j : GoString)
    (L1 L2 : Ledger) (h : Ledger.history L1 j = Ledger.history L2 j) :
    GetHistoryForKey ts s j L1 = GetHistoryForKey ts s j L2 := by
  simp only [GetHistoryForKey, Stub.GetHistoryForKey, h]

theorem createTransaction_stores {F : Type} (floatJSON : F → Option (List Byte))
    (s : Stub) (id tt : GoString) (amount : F) (acct det : GoString) (L L1 : Ledger)
    (h : External.CreateTransaction floatJSON s id tt amount acct det L = (.ok (), L1)) :
    ∃ v, Ledger.get L1 id = some v := by
  unfold External.CreateTransaction at h
  cases he : External.TransactionExists s id L with
  | error e => simp [he] at h
  | ok found =>
    cases found with
    | true => simp [he] at h
    | false =>
      simp only [he] at h
      cases hm : External.marshalTransactionData floatJSON ⟨id, tt, amount, acct, det⟩ with
      | error e => simp [hm] at h
      | ok bytes =>
        simp only [hm, Stub.PutState] at h
        cases hp : s.putStateErr id bytes with
        | some e => simp [hp] at h
        | none =>
          simp only [hp, Bool.false_eq_true, if_false, Prod.mk.injEq, true_and] at h
          subst h
          exact ⟨bytes, by rw [Ledger.get_cons_self]; rfl⟩

theorem createShipEngineData_stores (s : Stub) (id shipmentID url : GoString)
    (L L1 : Ledger)
    (h : External.CreateShipEngineData s id shipmentID url L = (.ok (), L1)) :
    ∃ v, Ledger.get L1 id = some v := by
  unfold External.CreateShipEngineData at h
  cases he : External.ShipEngineDataExists s id L with
  | error e => simp [he] at h
  | ok found =>
    cases found with
    | true => simp [he] at h
    | false =>
      simp only [he, Stub.PutState] at h
      cases hp : s.putStateErr id (External.encodeShipEngineData ⟨id, shipmentID, url⟩) with
      | some e => simp [hp] at h
      | none =>
        simp only [hp, Bool.false_eq_true, if_false, Prod.mk.injEq, true_and] at h
        subst h
        exact ⟨_, by rw [Ledger.get_cons_self]; rfl⟩

theorem externalCreateOrder_stores (s : Stub) (k d od i ps pm ot : GoString) (L L1 : Ledger)
    (h : External.CreateOrder s k d od i ps pm ot L = (.ok (), L1)) :
    ∃ v, Ledger.get L1 k = some v := by
  unfold External.CreateOrder at h
  cases he : External.OrderExists s k L with
  | error e => simp [he] at h
  | ok found =>
    cases found with
    | true => simp [he] at h
    | false =>
      simp only [he, jsonMarshal, Stub.PutState] at h
      cases hp : s.putStateErr k (encodeOrder ⟨k, d, od, i, ps, pm, ot⟩) with
      | some e => simp [hp] at h
      | none =>
        simp only [hp, Bool.false_eq_true, if_false, Prod.mk.injEq, true_and] at h
        subst h
        exact ⟨_, by rw [Ledger.get_cons_self]; rfl⟩

theorem external_live_key {F : Type} (floatJSON : F → Option (List Byte)) (s2 : Stub)
    (id : GoString) (L1 : Ledger) (v : List Byte) (hv : Ledger.get L1 id = some v)
    (hget : s2.getStateErr id = none) (tt : GoString) (amount : F)
    (acct det shipmentID url d od i ps pm ot : GoString) :
    External.OrderExists s2 id L1 = .ok true ∧
    External.CreateOrder s2 id d od i ps pm ot L1 = (.error (.alreadyExists id), L1) ∧
    (s2.putStateErr id (encodeOrder ⟨id, d, od, i, ps, pm, ot⟩) = none →
      (External.UpdateOrder s2 id d od i ps pm ot L1).1 = .ok () ∧
      Ledger.get (External.UpdateOrder s2 id d od i ps pm ot L1).2 id =
        some (encodeOrder ⟨id, d, od, i, ps, pm, ot⟩)) ∧
    (s2.delStateErr id = none →
      (External.DeleteOrder s2 id L1).1 = .ok () ∧
      Ledger.get (External.DeleteOrder s2 id L1).2 id = none) ∧
    External.CreateTransaction floatJSON s2 id tt amount acct det L1 =
      (.error (.transactionExists id), L1) ∧
    External.CreateShipEngineData s2 id shipmentID url L1 =
      (.error (.shipEngineDataExists id), L1) := by
  have hex : External.OrderExists s2 id L1 = .ok true := by
    simp [External.OrderExists, Stub.GetState, hget, hv]
  refine ⟨hex, ?_, ?_, ?_, ?_, ?_⟩
  · simp [External.CreateOrder, hex]
  · intro hp
    simp only [External.UpdateOrder, hex, jsonMarshal, Stub.PutState, hp]
    exact ⟨rfl, by
      simp only [Bool.not_true, Bool.false_eq_true, if_false]
      rw [Ledger.get_cons_self]; rfl⟩
  · intro hd
    simp only [External.DeleteOrder, hex, Stub.DelState, hd]
    exact ⟨rfl, by
      simp only [Bool.not_true, Bool.false_eq_true, if_false]
      rw [Ledger.get_cons_self]; rfl⟩
  · simp [External.CreateTransaction, External.TransactionExists, Stub.GetState, hget, hv]
  · simp [External.CreateShipEngineData, External.ShipEngineDataExists, Stub.GetState, hget, hv]

/-! ## Claims: invariants, purity, the two copies, frame -/

/-- C11 (amended): in every ledger state reachable from the empty ledger by a sequence of
`InitLedger`, `CreateOrder`, `UpdateOrder` and `DeleteOrder` calls, the bytes stored under
a live key `k` are the encoding of an order whose `OrderNo` is `k`. The encoding writes
U+FFFD for every byte of a string that is not well-formed UTF-8, so the order `ReadOrder`
returns for `k`, and the record of every `GetAllOrders` result with key `k`, has as
`OrderNo` the key coerced to well-formed UTF-8: it equals `k` when `k` is well-formed
UTF-8. On such states `ReadOrder` of a live key and `GetAllOrders` succeed when their
ledger calls do. `UpdateOrder` called with `k` leaves the ledger as it is or appends one
write under `k` of the encoding of an order with `OrderNo` equal to `k`. -/
theorem key_payload_identity (calls : List (Stub × Call)) (k : GoString) :
    (∀ v, Ledger.get (runCalls calls []) k = some v →
      ∃ o : Order, o.OrderNo = k ∧ v = encodeOrder o ∧
        ∀ s : Stub, s.getStateErr k = none →
          ReadOrder s k (runCalls calls []) = .ok o.coerced) ∧
    (∀ (s : Stub) (o : Order), ReadOrder s k (runCalls calls []) = .ok o →
      o.OrderNo = coerceUTF8 k ∧ (utf8Valid k = true → o.OrderNo = k)) ∧
    (∀ s : Stub, s.rangeErr = none → (∀ i, s.rangeNextErr i = none) →
      ∃ rs, GetAllOrders s (runCalls calls []) = .ok rs) ∧
    (∀ (s : Stub) (rs : List QueryResult), GetAllOrders s (runCalls calls []) = .ok rs →
      ∀ r ∈ rs, r.Record.OrderNo = coerceUTF8 r.Key ∧
        (utf8Valid r.Key = true → r.Record.OrderNo = r.Key)) ∧
    (∀ (s : Stub) (d od i ps pm ot : GoString) (L : Ledger),
      (UpdateOrder s k d od i ps pm ot L).2 = L ∨
      (UpdateOrder s k d od i ps pm ot L).2 =
        LogEntry.mk k (KeyModification.mk s.TxID (encodeOrder ⟨k, d, od, i, ps, pm, ot⟩)
          s.TxTimestamp false) :: L) := by
  have hw := wellFormed_reachable calls
  refine ⟨?_, ?_, ?_, ?_, fun s d od i ps pm ot L => updateOrder_stores s k d od i ps pm ot L⟩
  · intro v hv
    obtain ⟨o, ho, he, hj⟩ := wellFormed_decodes hw k v hv
    refine ⟨o, ho, he, fun s hs => ?_⟩
    rw [readOrder_eq s k _ hs, hv]
    simp only [hj]
  · intro s o h
    obtain ⟨v, hv, hj⟩ := readOrder_ok_inv s k _ o h
    obtain ⟨o2, ho, _, hj2⟩ := wellFormed_decodes hw k v hv
    rw [hj] at hj2
    cases hj2
    have h1 : o2.coerced.OrderNo = coerceUTF8 k := by rw [← ho]; rfl
    exact ⟨h1, fun hk => h1.trans (coerceUTF8_valid k hk)⟩
  · intro s hopen hnext
    exact ⟨_, getAllOrders_ok s _ hopen hnext (fun j v hv => by
      obtain ⟨o, _, _, hj⟩ := wellFormed_decodes hw j v hv
      exact ⟨_, hj⟩)⟩
  · intro s rs h r hr
    rw [getAllOrders_inv s _ rs h] at hr
    obtain ⟨kv, hkv, rfl⟩ := List.mem_map.mp hr
    obtain ⟨o, ho, _, hj⟩ := wellFormed_decodes hw kv.Key kv.Value ((Ledger.mem_scan _ kv).mp hkv)
    have h1 : (queryResult kv).Record.OrderNo = coerceUTF8 (queryResult kv).Key := by
      simp only [queryResult, hj]
      rw [← ho]; rfl
    exact ⟨h1, fun hk => h1.trans (coerceUTF8_valid _ hk)⟩

set_option maxRecDepth 100000 in
/-- An instance of C11: after `InitLedger` and `CreateOrder` with `order1`, the key `k1` is
live, `ReadOrder` returns `order1` for it and the `OrderNo` of that order is `k1`. -/
theorem key_payload_identity_witness :
    (ReadOrder stub3 (asc "k1") (runCalls callsInit []) = .ok order1 ∧
      utf8Valid (asc "k1") = true) ∧
    order1.OrderNo = asc "k1" :=
  ⟨⟨by decide, by decide⟩,
   ((key_payload_identity callsInit (asc "k1")).2.1 stub3 order1 (by decide)).2 (by decide)⟩

set_option maxRecDepth 100000 in
/-- C11 as stated fails: after `CreateOrder` under the key of the single byte 0xFF the key
is live, and the order `ReadOrder` returns for it, like the record `GetAllOrders` pairs
with it, has the three bytes of U+FFFD as `OrderNo`, not the key. -/
theorem key_payload_identity_counterexample :
    Ledger.get (runCalls callsFF []) [0xFF] =
      some (encodeOrder ⟨[0xFF], [], [], [], [], [], []⟩) ∧
    ReadOrder stub2 [0xFF] (runCalls callsFF []) =
      .ok ⟨[0xEF, 0xBF, 0xBD], [], [], [], [], [], []⟩ ∧
    GetAllOrders stub2 (runCalls callsFF []) =
      .ok [⟨[0xFF], ⟨[0xEF, 0xBF, 0xBD], [], [], [], [], [], []⟩⟩] ∧
    ([0xEF, 0xBF, 0xBD] : GoString) ≠ [0xFF] := by
  decide

theorem orderExists_cases (s : Stub) (k : GoString) (L : Ledger) :
    OrderExists s k L =
      match s.getStateErr k with
      | some cause => .error (.failedToRead k cause)
      | none => .ok (L.get k).isSome := by
  cases h : s.getStateErr k with
  | none => simp [orderExists_eq s k L h]
  | some e => simp [orderExists_fault s k L e h]

theorem orderExistsStep_eq (s : Stub) (k : GoString) (L : Ledger) :
    OrderExistsStep s k L = (OrderExists s k L, L) := by
  unfold OrderExistsStep Stub.getStateStep OrderExists
  cases s.GetState k L <;> rfl

theorem orderExistsRepeat_eq (k : GoString) (stubs : List Stub) (L : Ledger) :
    orderExistsRepeat k stubs L = (stubs.map (fun s => OrderExists s k L), L) := by
  induction stubs with
  | nil => rfl
  | cons s stubs ih =>
    rw [orderExistsRepeat, orderExistsStep_eq, ih]
    rfl

/-- C12 (amended): `OrderExists` is a query. Its only ledger call is `GetState`, so the
ledger after the call is the ledger before it, also after any number of calls in a
row. It returns an error exactly when that call fails, and then the error of that
failure (never for a missing key), and otherwise returns true exactly when a value is
present for the key. Its result depends on the outcome of that call and on the value
stored under the key only: calls between which the value under the key was not written
return the same result when their `GetState` calls behave the same, and any number of
calls in a row whose `GetState` calls succeed all return the same result. -/
theorem orderExists_pure (s : Stub) (k : GoString) (L : Ledger) :
    OrderExistsStep s k L = (OrderExists s k L, L) ∧
    (∀ stubs : List Stub, (orderExistsRepeat k stubs L).2 = L) ∧
    ((∃ e, OrderExists s k L = .error e) ↔ ∃ cause, s.getStateErr k = some cause) ∧
    (∀ cause, s.getStateErr k = some cause →
      OrderExists s k L = .error (.failedToRead k cause)) ∧
    (s.getStateErr k = none → (OrderExists s k L = .ok true ↔ ∃ v, L.get k = some v)) ∧
    (s.getStateErr k = none → (OrderExists s k L = .ok false ↔ L.get k = none)) ∧
    (∀ (s2 : Stub) (L2 : Ledger), s2.getStateErr k = s.getStateErr k →
      Ledger.get L2 k = Ledger.get L k → OrderExists s2 k L2 = OrderExists s k L) ∧
    (∀ stubs : List Stub, (∀ s2 ∈ stubs, s2.getStateErr k = none) →
      orderExistsRepeat k stubs L =
        (List.replicate stubs.length (.ok (L.get k).isSome), L)) := by
  refine ⟨orderExistsStep_eq s k L, fun stubs => by rw [orderExistsRepeat_eq],
    ?_, fun cause h => orderExists_fault s k L cause h, ?_, ?_, ?_, ?_⟩
  · rw [orderExists_cases]
    cases s.getStateErr k with
    | none => simp
    | some e => simp
  · intro h
    rw [orderExists_eq s k L h]
    cases L.get k <;> simp
  · intro h
    rw [orderExists_eq s k L h]
    cases L.get k <;> simp
  · intro s2 L2 h2 h3
    rw [orderExists_cases s k L, orderExists_cases s2 k L2, h2, h3]
  · intro stubs hs
    rw [orderExistsRepeat_eq]
    congr 1
    induction stubs with
    | nil => rfl
    | cons s2 stubs ih =>
      rw [List.map_cons, List.length_cons, List.replicate_succ,
        orderExists_eq s2 k L (hs s2 (List.mem_cons_self _ _)),
        ih (fun s3 h3 => hs s3 (List.mem_cons_of_mem _ h3))]

set_option maxRecDepth 100000 in
/-- An instance of C12: two transactions ask for the key of `order1`, one after the other,
and one asks for a key that was never written. -/
theorem orderExists_pure_witness :
    (stub2.getStateErr (asc "k1") = none ∧
      ∀ s2 ∈ [stub2, stub3], s2.getStateErr (asc "k1") = none) ∧
    OrderExists stub2 (asc "k1") ledger1 = .ok true ∧
    orderExistsRepeat (asc "k1") [stub2, stub3] ledger1 = ([.ok true, .ok true], ledger1) ∧
    OrderExists stub2 (asc "k2") ledger1 = .ok false :=
  have hs : ∀ s2 ∈ [stub2, stub3], s2.getStateErr (asc "k1") = none := by
    intro s2 h2
    simp only [List.mem_cons, List.mem_singleton, List.not_mem_nil, or_false] at h2
    rcases h2 with rfl | rfl <;> rfl
  have h := orderExists_pure stub2 (asc "k1") ledger1
  have h2 := orderExists_pure stub2 (asc "k2") ledger1
  ⟨⟨rfl, hs⟩, (h.2.2.2.2.1 rfl).mpr ⟨encodeOrder order1, by decide⟩,
   (h.2.2.2.2.2.2.2 [stub2, stub3] hs).trans (by decide),
   (h2.2.2.2.2.2.1 rfl).mpr (by decide)⟩

set_option maxRecDepth 100000 in
/-- C12 as stated fails: three calls in a row on the key of `order1`, with nothing written
in between, do not return the same result every time when the `GetState` call of the
second fails: true, the error of the failed read, true. The ledger is as it was. -/
theorem orderExists_pure_counterexample :
    orderExistsRepeat (asc "k1") [stub2, stubGetFails, stub3] ledger1 =
      ([.ok true, .error (.failedToRead (asc "k1") (asc "io")), .ok true], ledger1) ∧
    OrderExists stub2 (asc "k1") ledger1 ≠ OrderExists stubGetFails (asc "k1") ledger1 := by
  decide

/-- C13: in every ledger state reachable from the empty ledger by a sequence of
`CreateOrder`, `UpdateOrder` and `DeleteOrder` calls (and `InitLedger` calls), for every
key `k`: `GetHistoryForKey` succeeds when its ledger calls do, and in every history it
returns an entry with `IsDelete = true` at index `i` is followed by an entry at index
`i + 1`, which has `IsDelete = false`; so the oldest entry of the history is not a
deletion and no two adjacent entries are deletions. -/
theorem tombstone_follows_write (calls : List (Stub × Call)) (ts : Timestamp → GoString)
    (s : Stub) (k : GoString) :
    (s.historyErr k = none → (∀ i, s.historyNextErr i = none) →
      ∃ rs, GetHistoryForKey ts s k (runCalls calls []) = .ok rs) ∧
    ∀ rs, GetHistoryForKey ts s k (runCalls calls []) = .ok rs →
      (∀ i r, rs[i]? = some r → r.IsDelete = true →
        ∃ r2, rs[i + 1]? = some r2 ∧ r2.IsDelete = false) ∧
      (∀ r, rs.getLast? = some r → r.IsDelete = false) ∧
      (∀ i r r2, rs[i]? = some r → rs[i + 1]? = some r2 →
        ¬ (r.IsDelete = true ∧ r2.IsDelete = true)) := by
  have hw := wellFormed_reachable calls
  refine ⟨fun hopen hnext => ⟨_, getHistoryForKey_ok ts s k _ _
    (stub_getHistoryForKey_ok s k _ hopen hnext) (fun m hm hd => ?_)⟩, fun rs h => ?_⟩
  · obtain ⟨e, he, rfl⟩ := mem_history _ k m hm
    obtain ⟨o, _, hv⟩ := wellFormed_mem hw e he hd
    exact ⟨_, by rw [hv]; exact jsonUnmarshal_coerced o⟩
  · have hrs := getHistoryForKey_inv ts s k _ rs h
    have main : ∀ i r, rs[i]? = some r → r.IsDelete = true →
        ∃ r2, rs[i + 1]? = some r2 ∧ r2.IsDelete = false := by
      intro i r hi hd
      rw [hrs, List.getElem?_map] at hi
      cases hm : (Ledger.history (runCalls calls []) k)[i]? with
      | none => simp [hm] at hi
      | some m =>
        simp only [hm, Option.map_some', Option.some.injEq] at hi
        subst hi
        obtain ⟨m2, h2, hd2⟩ := wellFormed_history hw k i m hm hd
        exact ⟨historyEntry ts m2, by rw [hrs, List.getElem?_map, h2]; rfl, hd2⟩
    refine ⟨main, fun r hl => ?_, fun i r r2 hi hi2 hb => ?_⟩
    · cases hd : r.IsDelete with
      | false => rfl
      | true =>
        rw [List.getLast?_eq_getElem?] at hl
        obtain ⟨r2, h2, _⟩ := main _ r hl hd
        have hlen : rs.length ≠ 0 := by
          intro h0
          rw [List.length_eq_zero.mp h0] at hl
          simp at hl
        have : rs.length - 1 + 1 = rs.length := by omega
        rw [this, List.getElem?_eq_none (Nat.le_refl _)] at h2
        cases h2
    · obtain ⟨r3, h3, hd3⟩ := main i r hi hb.1
      rw [hi2] at h3
      cases h3
      rw [hb.2] at hd3
      cases hd3

set_option maxRecDepth 100000 in
/-- An instance of C13: after `CreateOrder`, `UpdateOrder` and `DeleteOrder` on `k1` the
history starts with the deletion, and the entry after it is a write. -/
theorem tombstone_follows_write_witness :
    (GetHistoryForKey renderTime stub3 (asc "k1") (runCalls callsLifecycle []) =
        .ok historyLifecycle ∧
      historyLifecycle[0]? = some ⟨asc "tx3", asc "later", true, emptyOrder⟩) ∧
    ∃ r2, historyLifecycle[0 + 1]? = some r2 ∧ r2.IsDelete = false :=
  ⟨⟨by decide, rfl⟩,
   ((tombstone_follows_write callsLifecycle renderTime stub3 (asc "k1")).2 historyLifecycle
      (by decide)).1 0 _ rfl rfl⟩

/-- C14: the order operations of the two copies agree. For every stub, ledger state and
arguments, `CreateOrder`, `UpdateOrder` and `DeleteOrder` of the second copy leave the
ledger in the same state as their namesakes of `src/ordermanagement.go`, and all six
operations return the same value or an error of the same kind (the errors differ in
their text only: the second copy puts a text around the errors of `PutState` and
`DelState`); so each succeeds exactly when its namesake does. -/
theorem copies_agree (s : Stub) (L : Ledger) (k d od i ps pm ot : GoString) :
    ((External.CreateOrder s k d od i ps pm ot L).2 = (CreateOrder s k d od i ps pm ot L).2 ∧
      (External.CreateOrder s k d od i ps pm ot L).1.mapError External.Err.kind =
        (CreateOrder s k d od i ps pm ot L).1.mapError Err.kind) ∧
    ((External.UpdateOrder s k d od i ps pm ot L).2 = (UpdateOrder s k d od i ps pm ot L).2 ∧
      (External.UpdateOrder s k d od i ps pm ot L).1.mapError External.Err.kind =
        (UpdateOrder s k d od i ps pm ot L).1.mapError Err.kind) ∧
    ((External.DeleteOrder s k L).2 = (DeleteOrder s k L).2 ∧
      (External.DeleteOrder s k L).1.mapError External.Err.kind =
        (DeleteOrder s k L).1.mapError Err.kind) ∧
    (External.ReadOrder s k L).mapError External.Err.kind =
      (ReadOrder s k L).mapError Err.kind ∧
    (External.OrderExists s k L).mapError External.Err.kind =
      (OrderExists s k L).mapError Err.kind ∧
    (External.GetAllOrders s L).mapError External.Err.kind =
      (GetAllOrders s L).mapError Err.kind := by
  refine ⟨?_, ?_, ?_, ?_, orderExists_copies s k L, ?_⟩
  · unfold External.CreateOrder CreateOrder External.OrderExists OrderExists
    cases s.GetState k L with
    | error e => exact ⟨rfl, rfl⟩
    | ok v =>
      cases v with
      | some v => exact ⟨rfl, rfl⟩
      | none =>
        simp only [Option.isSome_none, jsonMarshal]
        cases s.PutState k _ L <;> exact ⟨rfl, rfl⟩
  · unfold External.UpdateOrder UpdateOrder External.OrderExists OrderExists
    cases s.GetState k L with
    | error e => exact ⟨rfl, rfl⟩
    | ok v =>
      cases v with
      | none => exact ⟨rfl, rfl⟩
      | some v =>
        simp only [Option.isSome_some, jsonMarshal]
        cases s.PutState k _ L <;> exact ⟨rfl, rfl⟩
  · unfold External.DeleteOrder DeleteOrder External.OrderExists OrderExists
    cases s.GetState k L with
    | error e => exact ⟨rfl, rfl⟩
    | ok v =>
      cases v with
      | none => exact ⟨rfl, rfl⟩
      | some v =>
        simp only [Option.isSome_some]
        cases s.DelState k L <;> exact ⟨rfl, rfl⟩
  · unfold External.ReadOrder ReadOrder
    cases s.GetState k L with
    | error e => rfl
    | ok v =>
      cases v with
      | none => rfl
      | some v =>
        simp only []
        cases jsonUnmarshal v <;> rfl
  · unfold External.GetAllOrders GetAllOrders
    cases s.GetStateByRange [] [] L with
    | error e => rfl
    | ok items => exact getAllOrdersLoop_copies items []

/-- C15: for every ledger state, every key `k` and every key `j` other than `k`, a call
of `CreateOrder`, `UpdateOrder` or `DeleteOrder` on `k`, successful or not, leaves the
value stored under `j`, the history of `j`, and the results of `OrderExists`,
`ReadOrder` and `GetHistoryForKey` on `j` as they were. -/
theorem frame_other_keys (s : Stub) (L : Ledger) (k j d od i ps pm ot : GoString) (h : j ≠ k) :
    ∀ L2 ∈ [(CreateOrder s k d od i ps pm ot L).2, (UpdateOrder s k d od i ps pm ot L).2,
        (DeleteOrder s k L).2],
      Ledger.get L2 j = Ledger.get L j ∧ Ledger.history L2 j = Ledger.history L j ∧
      ∀ s2 : Stub, OrderExists s2 j L2 = OrderExists s2 j L ∧
        ReadOrder s2 j L2 = ReadOrder s2 j L ∧
        ∀ ts : Timestamp → GoString,
          GetHistoryForKey ts s2 j L2 = GetHistoryForKey ts s2 j L := by
  have key : ∀ r : Except Err Unit × Ledger,
      (((∃ e, r.1 = .error e) ∧ r.2 = L) ∨ (r.1 = .ok () ∧ ∃ m, r.2 = LogEntry.mk k m :: L)) →
      Ledger.get r.2 j = Ledger.get L j ∧ Ledger.history r.2 j = Ledger.history L j ∧
      ∀ s2 : Stub, OrderExists s2 j r.2 = OrderExists s2 j L ∧
        ReadOrder s2 j r.2 = ReadOrder s2 j L ∧
        ∀ ts : Timestamp → GoString,
          GetHistoryForKey ts s2 j r.2 = GetHistoryForKey ts s2 j L := by
    intro r he
    obtain ⟨hg, hh⟩ := effect_get k j L r h he
    exact ⟨hg, hh, fun s2 => ⟨orderExists_congr s2 j _ _ hg, readOrder_congr s2 j _ _ hg,
      fun ts => getHistoryForKey_congr ts s2 j _ _ hh⟩⟩
  intro L2 hL2
  simp only [List.mem_cons, List.mem_singleton, List.not_mem_nil, or_false] at hL2
  rcases hL2 with rfl | rfl | rfl
  · exact key _ (createOrder_effect s k d od i ps pm ot L)
  · exact key _ (updateOrder_effect s k d od i ps pm ot L)
  · exact key _ (deleteOrder_effect s k L)

set_option maxRecDepth 100000 in
/-- An instance of C15: creating `orderB` under its key `k2` leaves the key `k1` of `order1`
as it is: `ReadOrder` returns for `k1` what it returned before. -/
theorem frame_other_keys_witness :
    asc "k1" ≠ asc "k2" ∧
    ReadOrder stub3 (asc "k1") ledger1 = .ok order1 ∧
    ReadOrder stub3 (asc "k1")
      (CreateOrder stub2 (asc "k2") orderB.Date orderB.OrderDetail orderB.Invoice
        orderB.PackingStatus orderB.PaymentMethod orderB.OrderTrack ledger1).2 =
      ReadOrder stub3 (asc "k1") ledger1 :=
  ⟨by decide, by decide,
   ((frame_other_keys stub2 ledger1 (asc "k2") (asc "k1") orderB.Date orderB.OrderDetail orderB.Invoice
      orderB.PackingStatus orderB.PaymentMethod orderB.OrderTrack (by decide) _
      (List.mem_cons_self _ _)).2.2 stub3).2.1⟩

/-- C16 (amended): in the second copy orders, transactions and ShipEngine records share
the keys of one ledger. For every ledger state and `id`: once `CreateTransaction` or
`CreateShipEngineData` with `id` has succeeded, then in a later invocation whose
`GetState` call on `id` succeeds `OrderExists` returns true and `CreateOrder` with `id`
fails with the error that the order already exists and writes nothing; `UpdateOrder`
with `id` succeeds when its `PutState` call does, after which the encoding of the order
is stored under `id`; `DeleteOrder` succeeds when its `DelState` call does, after which
nothing is stored under `id`. Once `CreateOrder` with `id` has succeeded,
`CreateTransaction` and `CreateShipEngineData` with `id` fail with their errors that the
record already exists and write nothing. -/
theorem shared_key_namespace {F : Type} (floatJSON : F → Option (List Byte)) (s s2 : Stub)
    (L : Ledger) (id tt : GoString) (amount : F)
    (acct det shipmentID url d od i ps pm ot : GoString)
    (hget : s2.getStateErr id = none) :
    (∀ L1, (External.CreateTransaction floatJSON s id tt amount acct det L = (.ok (), L1) ∨
          External.CreateShipEngineData s id shipmentID url L = (.ok (), L1)) →
      External.OrderExists s2 id L1 = .ok true ∧
      External.CreateOrder s2 id d od i ps pm ot L1 = (.error (.alreadyExists id), L1) ∧
      (s2.putStateErr id (encodeOrder ⟨id, d, od, i, ps, pm, ot⟩) = none →
        (External.UpdateOrder s2 id d od i ps pm ot L1).1 = .ok () ∧
        Ledger.get (External.UpdateOrder s2 id d od i ps pm ot L1).2 id =
          some (encodeOrder ⟨id, d, od, i, ps, pm, ot⟩)) ∧
      (s2.delStateErr id = none →
        (External.DeleteOrder s2 id L1).1 = .ok () ∧
        Ledger.get (External.DeleteOrder s2 id L1).2 id = none)) ∧
    (∀ L1, External.CreateOrder s id d od i ps pm ot L = (.ok (), L1) →
      External.CreateTransaction floatJSON s2 id tt amount acct det L1 =
        (.error (.transactionExists id), L1) ∧
      External.CreateShipEngineData s2 id shipmentID url L1 =
        (.error (.shipEngineDataExists id), L1)) := by
  constructor
  · intro L1 h
    obtain ⟨v, hv⟩ : ∃ v, Ledger.get L1 id = some v := by
      rcases h with h | h
      · exact createTransaction_stores floatJSON s id tt amount acct det L L1 h
      · exact createShipEngineData_stores s id shipmentID url L L1 h
    have hl := external_live_key floatJSON s2 id L1 v hv hget tt amount acct det shipmentID url
      d od i ps pm ot
    exact ⟨hl.1, hl.2.1, hl.2.2.1, hl.2.2.2.1⟩
  · intro L1 h
    obtain ⟨v, hv⟩ := externalCreateOrder_stores s id d od i ps pm ot L L1 h
    have hl := external_live_key floatJSON s2 id L1 v hv hget tt amount acct det shipmentID url
      d od i ps pm ot
    exact ⟨hl.2.2.2.2.1, hl.2.2.2.2.2⟩

set_option maxRecDepth 100000 in
/-- An instance of C16: a transaction record is created under `k1` on the empty ledger;
then `OrderExists` finds `k1`, and `DeleteOrder` removes the record. -/
theorem shared_key_namespace_witness :
    (stub2.getStateErr (asc "k1") = none ∧
      External.CreateTransaction amountJSON stub1 (asc "k1") (asc "ACH") () (asc "acct-1")
        (asc "first payment") [] = (.ok (), ledgerTx)) ∧
    External.OrderExists stub2 (asc "k1") ledgerTx = .ok true ∧
    Ledger.get (External.DeleteOrder stub2 (asc "k1") ledgerTx).2 (asc "k1") = none :=
  have h := (shared_key_namespace amountJSON stub1 stub2 [] (asc "k1") (asc "ACH") ()
    (asc "acct-1") (asc "first payment") [] [] order1.Date order1.OrderDetail order1.Invoice
    order1.PackingStatus order1.PaymentMethod order1.OrderTrack rfl).1 ledgerTx (Or.inl rfl)
  ⟨⟨rfl, rfl⟩, h.1, (h.2.2.2 rfl).2⟩

set_option maxRecDepth 100000 in
/-- C16 as stated fails: after `CreateTransaction` has succeeded under `k1`, `OrderExists`
in an invocation whose `GetState` call fails returns that error and not true, and
`UpdateOrder` in an invocation whose `PutState` call fails does not succeed and leaves
the transaction record stored. -/
theorem shared_key_namespace_counterexample :
    External.CreateTransaction amountJSON stub1 (asc "k1") (asc "ACH") () (asc "acct-1")
      (asc "first payment") [] = (.ok (), ledgerTx) ∧
    External.OrderExists stubGetFails (asc "k1") ledgerTx =
      .error (.failedToRead (asc "k1") (asc "io")) ∧
    External.UpdateOrder stubPutFails (asc "k1") order1.Date order1.OrderDetail order1.Invoice
      order1.PackingStatus order1.PaymentMethod order1.OrderTrack ledgerTx =
      (.error (.failedToUpdate (asc "k1") (asc "io")), ledgerTx) := by
  decide

end OrderManagement
